import Mathlib

/-!
# The JIT emitter header (`src/coreclr/jit/emit.h`)

A shallow embedding of the parts of `emit.h` that the verified statements are
about: the bit-field layout of the instruction-descriptor header, the
small-constant slot, the little allocation helpers, the peephole window, the
hot/cold offset mapping, the group flags, the position cookies, the operand-size
encoding and the stack-depth check.  Where `emit.h` only declares a function
(group flushing, code emission, liveness tracking, jump resolution), the
behaviour is modelled from the specification and marked as such.

Conventions of the embedding.

* The preprocessor configuration is an explicit value `Build`.
* Pointers are addresses (`Nat`), `nullptr` is address `0`.
* Machine integers are `Nat`/`Int` with explicit reduction modulo `2 ^ w`.
* A function whose body contains `assert` returns `Option`: `none` is a fired
  assertion.  `assert` is only compiled in when `Build.DEBUG` is set, while
  `noway_assert` is always compiled in.
-/

namespace Emitter

/-! ## Build configuration -/

/-- Target architectures for which `emit.h` selects a header layout. -/
inductive Target where
  | x86
  | amd64
  | arm
  | arm64
  | loongarch64
  | riscv64
  deriving DecidableEq, Repr

/-- The preprocessor switches and the type sizes that `emit.h` depends on.
`cnsvalBits` and `targetBits` are the widths of `cnsval_ssize_t` and
`target_ssize_t`; the three `sizeof` fields are the sizes the compiler gives
the descriptor variants.  These five come from headers outside `emit.h`. -/
structure Build where
  target : Target
  HOST_64BIT : Bool
  EMIT_BACKWARDS_NAVIGATION : Bool
  DEBUG : Bool
  cnsvalBits : Nat
  targetBits : Nat
  sizeofInstrDesc : Nat
  sizeofInstrDescCns : Nat
  sizeofInstrDescDsp : Nat
  deriving DecidableEq, Repr

/-- `TARGET_XARCH`, defined outside `emit.h`: set for x86 and amd64 (the two
targets whose running totals in the header comments include the xarch-only
fields). -/
def TARGET_XARCH (b : Build) : Bool :=
  b.target == Target.x86 || b.target == Target.amd64

/-- `TARGET_ARMARCH`, defined outside `emit.h`: set for arm and arm64.  `emit.h`
calls it "ARM32/64" (line 2751) and nests its `TARGET_ARM64`-only members
inside `TARGET_ARMARCH` blocks. -/
def TARGET_ARMARCH (b : Build) : Bool :=
  b.target == Target.arm || b.target == Target.arm64

/-- The value `emit.h` itself gives `EMIT_BACKWARDS_NAVIGATION` (lines 41-45):
`1` on xarch, `0` elsewhere. -/
def defaultBackwardsNavigation (t : Target) : Bool :=
  t == Target.x86 || t == Target.amd64

/-- Modelled from the spec: `REGNUM_BITS` is defined in the per-target headers,
which are not part of `emit.h`.  The running totals in the header comments
("Space taken up to here") fix it as 6 bits on x86, arm, loongarch64 and
riscv64 and 7 bits on amd64 and arm64. -/
def REGNUM_BITS (b : Build) : Nat :=
  match b.target with
  | Target.amd64 => 7
  | Target.arm64 => 7
  | _ => 6

/-! ## Widths that `emit.h` computes -/

/-- `ID_EXTRA_BITFIELD_BITS`: how many header bits are said to be used beyond
the first 32. -/
def ID_EXTRA_BITFIELD_BITS (b : Build) : Nat :=
  match b.target with
  | Target.arm => 16
  | Target.arm64 => 23
  | Target.loongarch64 => 14
  | Target.riscv64 => 14
  | Target.x86 => 18
  | Target.amd64 => 20

/-- `ID_EXTRA_RELOC_BITS`. -/
def ID_EXTRA_RELOC_BITS : Nat := 2

/-- `ID_EXTRA_PREV_OFFSET_BITS`: 5 on a 64-bit host, 4 on a 32-bit host, 0
without backward navigation. -/
def ID_EXTRA_PREV_OFFSET_BITS (b : Build) : Nat :=
  if b.EMIT_BACKWARDS_NAVIGATION then
    (if b.HOST_64BIT then 5 else 4)
  else 0

/-- `ID_EXTRA_BITS`. -/
def ID_EXTRA_BITS (b : Build) : Nat :=
  ID_EXTRA_RELOC_BITS + ID_EXTRA_BITFIELD_BITS b + ID_EXTRA_PREV_OFFSET_BITS b

/-- `ID_BIT_SMALL_CNS`: whatever bits are left over for small constants. -/
def ID_BIT_SMALL_CNS (b : Build) : Nat :=
  32 - ID_EXTRA_BITS b

/-- `ID_ADJ_SMALL_CNS = (int)(1 << (ID_BIT_SMALL_CNS - 1))`. -/
def ID_ADJ_SMALL_CNS (b : Build) : Int :=
  ((1 <<< (ID_BIT_SMALL_CNS b - 1) : Nat) : Int)

/-- `ID_CNT_SMALL_CNS = (int)(1 << ID_BIT_SMALL_CNS)`. -/
def ID_CNT_SMALL_CNS (b : Build) : Int :=
  ((1 <<< ID_BIT_SMALL_CNS b : Nat) : Int)

/-- `ID_MIN_SMALL_CNS = (int)(0 - ID_ADJ_SMALL_CNS)`. -/
def ID_MIN_SMALL_CNS (b : Build) : Int :=
  0 - ID_ADJ_SMALL_CNS b

/-- `ID_MAX_SMALL_CNS = (int)(ID_CNT_SMALL_CNS - ID_ADJ_SMALL_CNS - 1)`. -/
def ID_MAX_SMALL_CNS (b : Build) : Int :=
  ID_CNT_SMALL_CNS b - ID_ADJ_SMALL_CNS b - 1

/-- `SMALL_IDSC_SIZE`, in bytes. -/
def SMALL_IDSC_SIZE : Nat := 8

/-! ## The bit-fields of the small descriptor header

The declarations of `struct instrDesc` from `_idIns` to `_idSmallCns`, in
source order, each conditional group guarded as in the source. -/

/-- The opcode field `_idIns`. -/
def fieldsIns (b : Build) : List (String × Nat) :=
  if TARGET_XARCH b then [("_idIns", 11)]
  else if b.target == Target.arm64 then [("_idIns", 11)]
  else if b.target == Target.loongarch64 then [("_idIns", 9)]
  else [("_idIns", 8)]

/-- The format field (`_idInsFmt`, or `_idCodeSize` on loongarch64/riscv64). -/
def fieldsFmt (b : Build) : List (String × Nat) :=
  if TARGET_XARCH b then [("_idInsFmt", 7)]
  else if b.target == Target.loongarch64 then [("_idCodeSize", 5)]
  else if b.target == Target.riscv64 then [("_idCodeSize", 6)]
  else if b.target == Target.arm64 then [("_idInsFmt", 10)]
  else [("_idInsFmt", 8)]

/-- The operand-size group that follows the format. -/
def fieldsOpSize (b : Build) : List (String × Nat) :=
  if TARGET_XARCH b then [("_idCodeSize", 4), ("_idOpSize", 3)]
  else if b.target == Target.arm64 then [("_idOpSize", 3), ("_idInsOpt", 6)]
  else if b.target == Target.loongarch64 || b.target == Target.riscv64 then []
  else [("_idOpSize", 2)]

/-- The two register fields, declared early when the target is not xarch. -/
def fieldsRegsEarly (b : Build) : List (String × Nat) :=
  if !TARGET_XARCH b then [("_idReg1", REGNUM_BITS b), ("_idReg2", REGNUM_BITS b)] else []

/-- The flag bits common to all targets. -/
def fieldsFlags : List (String × Nat) :=
  [("_idSmallDsc", 1), ("_idLargeCns", 1), ("_idLargeDsp", 1), ("_idCall", 1),
   ("_idCustom1", 1), ("_idCustom2", 1), ("_idCustom3", 1)]

/-- The two register fields, declared after the flags on xarch. -/
def fieldsRegsLate (b : Build) : List (String × Nat) :=
  if TARGET_XARCH b then [("_idReg1", REGNUM_BITS b), ("_idReg2", REGNUM_BITS b)] else []

/-- The field `_idCustom4`, declared unless the target is arm or arm64. -/
def fieldsCustom4 (b : Build) : List (String × Nat) :=
  if !TARGET_ARMARCH b then [("_idCustom4", 1)] else []

/-- The fields `_idCustom5` to `_idCustom7`, xarch only. -/
def fieldsCustom567 (b : Build) : List (String × Nat) :=
  if TARGET_XARCH b then [("_idCustom5", 1), ("_idCustom6", 1), ("_idCustom7", 1)] else []

/-- The per-target tail: local-variable flags, and on loongarch64, riscv64 and
arm the operand size and options. -/
def fieldsTargetTail (b : Build) : List (String × Nat) :=
  (if b.target == Target.arm64 then [("_idLclVar", 1), ("_idLclVarPair", 1)] else [])
  ++ (if b.target == Target.loongarch64 then
        [("_idOpSize", 3), ("_idInsOpt", 6), ("_idLclVar", 1)] else [])
  ++ (if b.target == Target.riscv64 then
        [("_idOpSize", 3), ("_idInsOpt", 6), ("_idLclVar", 1)] else [])
  ++ (if b.target == Target.arm then
        [("_idInsSize", 2), ("_idInsFlags", 1), ("_idLclVar", 1), ("_idLclFPBase", 1),
         ("_idInsOpt", 3)] else [])

/-- The relocation bits. -/
def fieldsReloc : List (String × Nat) :=
  [("_idCnsReloc", 1), ("_idDspReloc", 1)]

/-- The field `_idScaledPrevOffset`, present with backward navigation. -/
def fieldsPrevOffset (b : Build) : List (String × Nat) :=
  if b.EMIT_BACKWARDS_NAVIGATION then
    (if b.HOST_64BIT then [("_idScaledPrevOffset", 5)] else [("_idScaledPrevOffset", 4)])
  else []

/-- The small-constant field `_idSmallCns : ID_BIT_SMALL_CNS`. -/
def fieldsSmallCns (b : Build) : List (String × Nat) :=
  [("_idSmallCns", ID_BIT_SMALL_CNS b)]

/-- All bit-fields of the small descriptor header, in declaration order. -/
def headerFields (b : Build) : List (String × Nat) :=
  fieldsIns b ++ fieldsFmt b ++ fieldsOpSize b ++ [("_idGCref", 2)] ++ fieldsRegsEarly b
  ++ fieldsFlags ++ fieldsRegsLate b ++ fieldsCustom4 b ++ fieldsCustom567 b
  ++ fieldsTargetTail b ++ fieldsReloc ++ fieldsPrevOffset b ++ fieldsSmallCns b

/-- The sum of the declared widths of the header bit-fields. -/
def headerBits (b : Build) : Nat :=
  ((headerFields b).map Prod.snd).sum

/-! ## Machine integers and assertions -/

/-- Conversion of an integer to an unsigned `w`-bit type. -/
def toUnsigned (w : Nat) (v : Int) : Nat :=
  (v % (2 : Int) ^ w).toNat

/-- Conversion of an integer to a signed `w`-bit type (two's complement); this
is also what storing into a `signed` bit-field of width `w` keeps. -/
def toSigned (w : Nat) (v : Int) : Int :=
  (v + (2 : Int) ^ (w - 1)) % (2 : Int) ^ w - (2 : Int) ^ (w - 1)

/-- The macro `assert(c)`: checked in `DEBUG` builds only. -/
def jitAssert (b : Build) (c : Bool) : Option Unit :=
  if b.DEBUG && !c then none else some ()

/-- A descriptor block (`instrDesc` and the structs derived from it). -/
structure instrDesc where
  allocSize : Nat := 0
  _idIns : Nat := 0
  _idInsFmt : Nat := 0
  _idCodeSize : Nat := 0
  _idOpSize : Nat := 0
  _idInsOpt : Nat := 0
  _idGCref : Nat := 0
  _idReg1 : Nat := 0
  _idReg2 : Nat := 0
  _idSmallDsc : Bool := false
  _idLargeCns : Bool := false
  _idLargeDsp : Bool := false
  _idCall : Bool := false
  _idCustom1 : Bool := false
  _idCustom2 : Bool := false
  _idCustom3 : Bool := false
  _idCustom4 : Bool := false
  _idCustom5 : Bool := false
  _idCustom6 : Bool := false
  _idCustom7 : Bool := false
  _idLclVar : Bool := false
  _idLclVarPair : Bool := false
  _idCnsReloc : Bool := false
  _idDspReloc : Bool := false
  _idScaledPrevOffset : Nat := 0
  _idSmallCns : Int := 0
  idcCnsVal : Int := 0
  iddDspVal : Int := 0
  iddcCnsVal : Int := 0
  iddcDspVal : Int := 0
  deriving DecidableEq, Repr

/-- The allocator `emitAllocAnyInstr(sz, attr)` is only declared in `emit.h`; the
helpers below take it as a parameter of this type (size in bytes, operand-size
attribute, resulting block). -/
abbrev Allocator := Nat → Nat → instrDesc

/-- What the helpers rely on from `emitAllocAnyInstr`: the block has the
requested size and comes back cleared ("fields that need to be cleared (such as
various flags)"), so it is neither small, nor large-constant, nor
large-displacement, nor a call. -/
def FreshAllocator (alloc : Allocator) : Prop :=
  ∀ sz attr, (alloc sz attr).allocSize = sz ∧ (alloc sz attr)._idSmallDsc = false ∧
    (alloc sz attr)._idLargeCns = false ∧ (alloc sz attr)._idLargeDsp = false ∧
    (alloc sz attr)._idCall = false

/-- An allocator that returns an all-zero block of the requested size. -/
def zeroedAllocator : Allocator :=
  fun sz _ => { allocSize := sz }

/-- `instrDesc::idIsSmallDsc`. -/
def idIsSmallDsc (id : instrDesc) : Bool :=
  id._idSmallDsc != false

/-- `instrDesc::idSetIsSmallDsc`. -/
def idSetIsSmallDsc (id : instrDesc) : instrDesc :=
  { id with _idSmallDsc := true }

/-- `instrDesc::fitsInSmallCns`. -/
def fitsInSmallCns (b : Build) (val : Int) : Bool :=
  decide (val ≥ ID_MIN_SMALL_CNS b) && decide (val ≤ ID_MAX_SMALL_CNS b)

/-- `instrDesc::idIsCall`. -/
def idIsCall (id : instrDesc) : Bool :=
  id._idCall != false

/-- `instrDesc::idIsLargeCns`. -/
def idIsLargeCns (id : instrDesc) : Bool :=
  id._idLargeCns != false && !idIsCall id

/-- `instrDesc::idSetIsLargeCns`. -/
def idSetIsLargeCns (id : instrDesc) : instrDesc :=
  { id with _idLargeCns := true }

/-- `instrDesc::idIsLargeDsp`. -/
def idIsLargeDsp (id : instrDesc) : Bool :=
  id._idLargeDsp != false

/-- `instrDesc::idSetIsLargeDsp`. -/
def idSetIsLargeDsp (id : instrDesc) : instrDesc :=
  { id with _idLargeDsp := true }

/-- The getter `instrDesc::idSmallCns()`. -/
def idSmallCns (id : instrDesc) : Int :=
  id._idSmallCns

/-- The setter `instrDesc::idSmallCns(value)`: both assertions, and the store
into the signed bit-field of width `ID_BIT_SMALL_CNS`. -/
def idSmallCnsSet (b : Build) (id : instrDesc) (value : Int) : Option instrDesc := do
  jitAssert b (fitsInSmallCns b value)
  let id1 := { id with _idSmallCns := toSigned (ID_BIT_SMALL_CNS b) value }
  jitAssert b (value == idSmallCns id1)
  pure id1

/-! ## Allocation helpers -/

/-- `emitter::emitAllocInstr`. -/
def emitAllocInstr (b : Build) (emitAllocAnyInstr : Allocator) (attr : Nat) : instrDesc :=
  emitAllocAnyInstr b.sizeofInstrDesc attr

/-- `emitter::emitAllocInstrCns(attr)`. -/
def emitAllocInstrCns0 (b : Build) (emitAllocAnyInstr : Allocator) (attr : Nat) : instrDesc :=
  emitAllocAnyInstr b.sizeofInstrDescCns attr

/-- `emitter::emitAllocInstrCns(attr, cns)`; `cns` has the unsigned type
`cnsval_size_t` and is stored into the signed member `idcCnsVal`. -/
def emitAllocInstrCns (b : Build) (emitAllocAnyInstr : Allocator) (attr : Nat) (cns : Nat) :
    instrDesc :=
  let result := emitAllocInstrCns0 b emitAllocAnyInstr attr
  let result := idSetIsLargeCns result
  { result with idcCnsVal := toSigned b.cnsvalBits cns }

/-- `emitter::emitAllocInstrDsp`. -/
def emitAllocInstrDsp (b : Build) (emitAllocAnyInstr : Allocator) (attr : Nat) : instrDesc :=
  emitAllocAnyInstr b.sizeofInstrDescDsp attr

/-- `emitter::emitNewInstrSmall`. -/
def emitNewInstrSmall (emitAllocAnyInstr : Allocator) (attr : Nat) : instrDesc :=
  let id := emitAllocAnyInstr SMALL_IDSC_SIZE attr
  idSetIsSmallDsc id

/-- `emitter::emitNewInstr`. -/
def emitNewInstr (b : Build) (emitAllocAnyInstr : Allocator) (attr : Nat) : instrDesc :=
  emitAllocInstr b emitAllocAnyInstr attr

/-- `emitter::emitNewInstrDsp`; `dsp` has type `target_ssize_t`. -/
def emitNewInstrDsp (b : Build) (emitAllocAnyInstr : Allocator) (attr : Nat) (dsp : Int) :
    instrDesc :=
  if dsp == 0 then
    emitAllocInstr b emitAllocAnyInstr attr
  else
    let id := emitAllocInstrDsp b emitAllocAnyInstr attr
    let id := idSetIsLargeDsp id
    { id with iddDspVal := dsp }

/-- `emitter::emitNewInstrCns`; `cns` has type `cnsval_ssize_t` and is converted
to `cnsval_size_t` when it is passed on to `emitAllocInstrCns`. -/
def emitNewInstrCns (b : Build) (emitAllocAnyInstr : Allocator) (attr : Nat) (cns : Int) :
    Option instrDesc :=
  if fitsInSmallCns b cns then
    let id := emitAllocInstr b emitAllocAnyInstr attr
    idSmallCnsSet b id cns
  else
    some (emitAllocInstrCns b emitAllocAnyInstr attr (toUnsigned b.cnsvalBits cns))

/-- `emitter::emitNewInstrSC`. -/
def emitNewInstrSC (b : Build) (emitAllocAnyInstr : Allocator) (attr : Nat) (cns : Int) :
    Option instrDesc :=
  if fitsInSmallCns b cns then
    let id := emitNewInstrSmall emitAllocAnyInstr attr
    idSmallCnsSet b id cns
  else
    some (emitAllocInstrCns b emitAllocAnyInstr attr (toUnsigned b.cnsvalBits cns))

/-- `emitter::emitGetInsCns` (xarch).  The result type `ssize_t` holds every
value of both branches. -/
def emitGetInsCns (id : instrDesc) : Int :=
  if idIsLargeCns id then id.idcCnsVal else idSmallCns id

/-- `emitter::emitGetInsDsp` (xarch). -/
def emitGetInsDsp (id : instrDesc) : Int :=
  if idIsLargeDsp id then
    (if idIsLargeCns id then id.iddcDspVal else id.iddDspVal)
  else 0

/-! ## Instruction groups and the emitter state -/

/-- The scalar members of `struct insGroup`. -/
structure insGroup where
  igNum : Nat := 0
  igOffs : Nat := 0
  igFuncIdx : Nat := 0
  igFlags : Nat := 0
  igSize : Nat := 0
  deriving DecidableEq, Repr

/-- `IGF_NOGCINTERRUPT`: this group is in a no-interrupt region. -/
def IGF_NOGCINTERRUPT : Nat := 0x0020

/-- `IGF_EXTEND`: this group is conceptually an extension of the previous one. -/
def IGF_EXTEND : Nat := 0x0100

/-- Whether one of the bits of `flag` is set in the group's `igFlags`. -/
def insGroup.hasFlag (g : insGroup) (flag : Nat) : Bool :=
  g.igFlags &&& flag != 0

/-- The members of `class emitter` that the peephole window and the hot/cold
offset mapping read.  `groups` gives the `insGroup` object at an address. -/
structure emitter where
  groups : Nat → insGroup
  emitLastIns : Nat := 0
  emitLastInsIG : Nat := 0
  emitCurIG : Nat := 0
  emitForceNewIG : Bool := false
  emitFirstColdIG : Nat := 0
  emitCodeBlock : Nat := 0
  emitColdCodeBlock : Nat := 0
  emitTotalHotCodeSize : Nat := 0
  emitTotalColdCodeSize : Nat := 0

/-! ## Peephole window -/

/-- `EMIT_MAX_PEEPHOLE_INS_COUNT`. -/
def EMIT_MAX_PEEPHOLE_INS_COUNT : Nat := 32

/-- `emitter::emitHasLastIns`. -/
def emitHasLastIns (e : emitter) : Bool :=
  e.emitLastIns != 0

/-- `emitter::isInsIGSafeForPeepholeOptimization`. -/
def isInsIGSafeForPeepholeOptimization (e : emitter) (prevInsIG curInsIG : Nat) : Bool :=
  if prevInsIG == curInsIG then
    true
  else
    ((e.groups curInsIG).igFlags &&& IGF_EXTEND != 0) &&
      ((e.groups prevInsIG).igFlags &&& IGF_NOGCINTERRUPT ==
        (e.groups curInsIG).igFlags &&& IGF_NOGCINTERRUPT)

/-- `emitter::emitCanPeepholeLastIns`. -/
def emitCanPeepholeLastIns (b : Build) (e : emitter) : Option Bool := do
  jitAssert b (emitHasLastIns e == (e.emitLastInsIG != 0))
  pure (emitHasLastIns e && !e.emitForceNewIG &&
    isInsIGSafeForPeepholeOptimization e e.emitLastInsIG e.emitCurIG)

/-- `enum emitPeepholeResult`. -/
inductive emitPeepholeResult where
  | PEEPHOLE_CONTINUE
  | PEEPHOLE_ABORT
  deriving DecidableEq, Repr

/-- One invocation of the visitor: the group the iteration was in, the record
that was passed, and what the visitor returned. -/
structure PeepholeVisit where
  ig : Nat
  id : Nat
  result : emitPeepholeResult
  deriving DecidableEq, Repr

/-- Outcome of an iteration: the visitor invocations in order, the final value
of the variables the visitor captured, and whether an assertion fired. -/
structure PeepholeRun (τ : Type) where
  visits : List PeepholeVisit
  captured : τ
  asserted : Bool

/-- The `for` loop of `emitPeepholeIterateLastInstrs`; the first argument is the
number of iterations left, `EMIT_MAX_PEEPHOLE_INS_COUNT - i`.  `emitPrevID`
(declared only) returns its `bool` together with the updated `ig` and `id`;
the visitor threads the variables it captured. -/
def peepholeLoop {τ : Type} (b : Build) (e : emitter) (emitPrevID : Nat → Nat → Bool × Nat × Nat)
    (action : τ → Nat → emitPeepholeResult × τ) : Nat → Nat → Nat → τ → PeepholeRun τ
  | 0, _, _, s => { visits := [], captured := s, asserted := false }
  | n + 1, curInsIG, id, s =>
    match jitAssert b (id != 0) with
    | none => { visits := [], captured := s, asserted := true }
    | some _ =>
      match action s id with
      | (emitPeepholeResult.PEEPHOLE_ABORT, s1) =>
        { visits := [⟨curInsIG, id, emitPeepholeResult.PEEPHOLE_ABORT⟩], captured := s1,
          asserted := false }
      | (emitPeepholeResult.PEEPHOLE_CONTINUE, s1) =>
        let savedInsIG := curInsIG
        match emitPrevID curInsIG id with
        | (true, curInsIG1, id1) =>
          if isInsIGSafeForPeepholeOptimization e curInsIG1 savedInsIG then
            let rest := peepholeLoop b e emitPrevID action n curInsIG1 id1 s1
            { visits := ⟨savedInsIG, id, emitPeepholeResult.PEEPHOLE_CONTINUE⟩ :: rest.visits,
              captured := rest.captured, asserted := rest.asserted }
          else
            { visits := [⟨savedInsIG, id, emitPeepholeResult.PEEPHOLE_CONTINUE⟩],
              captured := s1, asserted := false }
        | (false, _, _) =>
          { visits := [⟨savedInsIG, id, emitPeepholeResult.PEEPHOLE_CONTINUE⟩],
            captured := s1, asserted := false }

/-- `emitter::emitPeepholeIterateLastInstrs`.  `emitGetLastIns` (declared only)
is given by what it returns: its `bool`, the group and the record. -/
def emitPeepholeIterateLastInstrs {τ : Type} (b : Build) (e : emitter)
    (emitGetLastIns : Bool × Nat × Nat) (emitPrevID : Nat → Nat → Bool × Nat × Nat)
    (action : τ → Nat → emitPeepholeResult × τ) (s : τ) : PeepholeRun τ :=
  if b.DEBUG && emitCanPeepholeLastIns b e != some true then
    { visits := [], captured := s, asserted := true }
  else if b.EMIT_BACKWARDS_NAVIGATION then
    match emitGetLastIns with
    | (false, _, _) => { visits := [], captured := s, asserted := false }
    | (true, curInsIG, id) =>
      peepholeLoop b e emitPrevID action EMIT_MAX_PEEPHOLE_INS_COUNT curInsIG id s
  else
    match action s e.emitLastIns with
    | (r, s1) => { visits := [⟨e.emitLastInsIG, e.emitLastIns, r⟩], captured := s1,
                   asserted := false }

/-! ## Hot and cold code blocks -/

/-- Width of `UNATIVE_OFFSET` (an `unsigned`). -/
def UNATIVE_OFFSET_BITS : Nat := 32

/-- An amd64 build on a 64-bit host with backward navigation and assertions. -/
def sampleBuild : Build :=
  { target := Target.amd64, HOST_64BIT := true, EMIT_BACKWARDS_NAVIGATION := true, DEBUG := true,
    cnsvalBits := 64, targetBits := 64, sizeofInstrDesc := 16, sizeofInstrDescCns := 24,
    sizeofInstrDescDsp := 24 }

/-- Three groups: group 1 is in a no-interrupt region, group 2 extends it, and
group 3 is an extension group outside any no-interrupt region. -/
def sampleGroups : Nat → insGroup :=
  fun p =>
    if p == 1 then { igNum := 0, igFlags := IGF_NOGCINTERRUPT }
    else if p == 2 then { igNum := 1, igFlags := IGF_EXTEND ||| IGF_NOGCINTERRUPT }
    else if p == 3 then { igNum := 2, igFlags := IGF_EXTEND }
    else {}

/-- An emitter whose last instruction sits in group 2, with a hot block of 256
bytes and a cold block of 64 bytes. -/
def sampleEmitter : emitter :=
  { groups := sampleGroups, emitLastIns := 0x5000, emitLastInsIG := 2, emitCurIG := 2,
    emitForceNewIG := false, emitFirstColdIG := 3, emitCodeBlock := 0x1000,
    emitColdCodeBlock := 0x2000, emitTotalHotCodeSize := 0x100, emitTotalColdCodeSize := 0x40 }

/-- A backward step through three records: two in group 2, the oldest in
group 1. -/
def samplePrevID : Nat → Nat → Bool × Nat × Nat :=
  fun ig id =>
    if id == 0x5000 then (true, 2, 0x4FF8)
    else if id == 0x4FF8 then (true, 1, 0x4FF0)
    else (false, ig, id)

/-- A visitor that counts its invocations and aborts on the record at 0x4FF0. -/
def sampleAction : Nat → Nat → emitPeepholeResult × Nat :=
  fun count id =>
    (if id == 0x4FF0 then emitPeepholeResult.PEEPHOLE_ABORT
     else emitPeepholeResult.PEEPHOLE_CONTINUE, count + 1)
/-! ## Jumps across the hot/cold boundary -/

/-- `emitter::emitJumpCrossHotColdBoundary`.  The offsets are `size_t` values; the
sum inside the two assertions is computed in `UNATIVE_OFFSET`. -/
def emitJumpCrossHotColdBoundary (b : Build) (e : emitter) (srcOffset dstOffset : Nat) :
    Option Bool :=
  if e.emitTotalColdCodeSize == 0 then
    some false
  else do
    jitAssert b (srcOffset <
      (e.emitTotalHotCodeSize + e.emitTotalColdCodeSize) % 2 ^ UNATIVE_OFFSET_BITS)
    jitAssert b (dstOffset <
      (e.emitTotalHotCodeSize + e.emitTotalColdCodeSize) % 2 ^ UNATIVE_OFFSET_BITS)
    pure (decide (srcOffset < e.emitTotalHotCodeSize) !=
      decide (dstOffset < e.emitTotalHotCodeSize))

/-! ## Group flags -/

/-- `IGF_GC_VARS`: new set of live GC ref variables. -/
def IGF_GC_VARS : Nat := 0x0001

/-- `IGF_BYREF_REGS`: new set of live by-ref registers. -/
def IGF_BYREF_REGS : Nat := 0x0002

/-- `IGF_FUNCLET_PROLOG`: this group belongs to a funclet prolog. -/
def IGF_FUNCLET_PROLOG : Nat := 0x0004

/-- `IGF_FUNCLET_EPILOG`: this group belongs to a funclet epilog. -/
def IGF_FUNCLET_EPILOG : Nat := 0x0008

/-- `IGF_EPILOG`: this group belongs to a main function epilog. -/
def IGF_EPILOG : Nat := 0x0010

/-- `IGF_UPD_ISZ`: some instruction sizes updated. -/
def IGF_UPD_ISZ : Nat := 0x0040

/-- `IGF_PLACEHOLDER`: this is a placeholder group, to be filled in later. -/
def IGF_PLACEHOLDER : Nat := 0x0080

/-- `IGF_HAS_ALIGN`: this group contains alignment instruction(s) at the end. -/
def IGF_HAS_ALIGN : Nat := 0x0200

/-- `IGF_REMOVED_ALIGN`: the group was marked as having an alignment instruction
but was later unmarked without updating its size and offsets. -/
def IGF_REMOVED_ALIGN : Nat := 0x0400

/-- `IGF_HAS_REMOVABLE_JMP`: this group ends with an unconditional jump which is
a candidate for removal. -/
def IGF_HAS_REMOVABLE_JMP : Nat := 0x0800

/-- `IGF_HAS_REMOVED_INSTR` (arm64): this group has an instruction that was
removed. -/
def IGF_HAS_REMOVED_INSTR : Nat := 0x1000

/-- `IGF_PROPAGATE_MASK`: the flags propagated to new groups when they are
created; the `DEBUG` definition has one flag more. -/
def IGF_PROPAGATE_MASK (b : Build) : Nat :=
  if b.DEBUG then IGF_EPILOG ||| IGF_FUNCLET_PROLOG ||| IGF_FUNCLET_EPILOG
  else IGF_EPILOG ||| IGF_FUNCLET_PROLOG

/-- `emitter::emitIGisInEpilog`. -/
def emitIGisInEpilog (e : emitter) (ig : Nat) : Bool :=
  (ig != 0) && ((e.groups ig).igFlags &&& IGF_EPILOG != 0)

/-- `emitter::emitIGisInFuncletProlog`. -/
def emitIGisInFuncletProlog (e : emitter) (ig : Nat) : Bool :=
  (ig != 0) && ((e.groups ig).igFlags &&& IGF_FUNCLET_PROLOG != 0)

/-- `emitter::emitIGisInFuncletEpilog`. -/
def emitIGisInFuncletEpilog (e : emitter) (ig : Nat) : Bool :=
  (ig != 0) && ((e.groups ig).igFlags &&& IGF_FUNCLET_EPILOG != 0)

/-! ## Alignment flags -/

/-- Width of `unsigned short`, the type of `igFlags`. -/
def USHORT_BITS : Nat := 16

/-- Width of `int` and `unsigned`. -/
def UNSIGNED_BITS : Nat := 32

/-- The bit pattern of `~x` for an `int` constant `x`. -/
def complementInt (x : Nat) : Nat :=
  (2 ^ UNSIGNED_BITS - 1) ^^^ x

/-- `insGroup::endsWithAlignInstr`. -/
def insGroup.endsWithAlignInstr (g : insGroup) : Bool :=
  g.igFlags &&& IGF_HAS_ALIGN != 0

/-- `insGroup::hadAlignInstr`. -/
def insGroup.hadAlignInstr (g : insGroup) : Bool :=
  g.igFlags &&& IGF_REMOVED_ALIGN != 0

/-- The members that `struct instrDescAlign` adds to the descriptor; `idaIG` is
the address of the containing group. -/
structure instrDescAlign where
  idaNext : Nat := 0
  idaIG : Nat
  idaLoopHeadPredIG : Nat := 0
  deriving DecidableEq, Repr

/-- `instrDescAlign::removeAlignFlags`, as a change of the group objects: the two
compound assignments to `idaIG->igFlags`, each stored back into the
`unsigned short`. -/
def removeAlignFlags (groups : Nat → insGroup) (ida : instrDescAlign) : Nat → insGroup :=
  let g := groups ida.idaIG
  let g1 := { g with igFlags := (g.igFlags &&& complementInt IGF_HAS_ALIGN) % 2 ^ USHORT_BITS }
  let g2 := { g1 with igFlags := (g1.igFlags ||| IGF_REMOVED_ALIGN) % 2 ^ USHORT_BITS }
  Function.update groups ida.idaIG g2

/-! ## Position cookies -/

/-- `emitGetInsNumFromCodePos`. -/
def emitGetInsNumFromCodePos (codePos : Nat) : Nat :=
  codePos &&& 0xFFFF

/-- `emitGetInsOfsFromCodePos`. -/
def emitGetInsOfsFromCodePos (codePos : Nat) : Nat :=
  codePos >>> 16

/-- `emitter::emitSpecifiedOffset`; the arithmetic is that of `unsigned`. -/
def emitSpecifiedOffset (b : Build) (insCount igSize : Nat) : Option Nat := do
  let codePos := (insCount + (igSize <<< 16) % 2 ^ UNSIGNED_BITS) % 2 ^ UNSIGNED_BITS
  jitAssert b (emitGetInsOfsFromCodePos codePos == igSize)
  jitAssert b (emitGetInsNumFromCodePos codePos == insCount)
  pure codePos

/-! ## Operand sizes -/

/-- `OPSZ_COUNT` of `enum opSize`. -/
def OPSZ_COUNT (b : Build) : Nat :=
  if TARGET_XARCH b then 7
  else if b.target == Target.arm64 then 6
  else 5

/-- Declared width of the bit-field `_idOpSize`: 3 bits on xarch, arm64,
loongarch64 and riscv64, 2 bits otherwise (arm). -/
def ID_OPSIZE_BITS (b : Build) : Nat :=
  if TARGET_XARCH b then 3
  else if b.target == Target.arm64 then 3
  else if b.target == Target.loongarch64 || b.target == Target.riscv64 then 3
  else 2

/-- `EA_UNKNOWN` of `enum emitAttr`. -/
def EA_UNKNOWN : Nat := 0

/-- Modelled from the spec: `genLog2` is defined outside `emit.h`; on a power of
two it gives the exponent. -/
def genLog2 (value : Nat) : Nat :=
  Nat.log2 value

/-- `emitter::emitEncodeSize`.  `EA_SIZE_MASK` is defined outside `emit.h` and is
a parameter. -/
def emitEncodeSize (b : Build) (EA_SIZE_MASK : Nat) (size : Nat) : Option Nat := do
  jitAssert b ((size != EA_UNKNOWN) && (size &&& EA_SIZE_MASK == size))
  pure (genLog2 size)

/-- `emitter::emitDecodeSize`.  The table `emitSizeDecode` is only declared in
`emit.h` and is a parameter. -/
def emitDecodeSize (b : Build) (emitSizeDecode : Nat → Nat) (ensz : Nat) : Option Nat := do
  jitAssert b (decide (ensz < OPSZ_COUNT b))
  pure (emitSizeDecode ensz)

/-- The getter `instrDesc::idOpSize()`. -/
def idOpSize (b : Build) (emitSizeDecode : Nat → Nat) (id : instrDesc) : Option Nat :=
  emitDecodeSize b emitSizeDecode id._idOpSize

/-- The setter `instrDesc::idOpSize(opsz)`: the encoded size is stored into the
bit-field `_idOpSize`. -/
def idOpSizeSet (b : Build) (EA_SIZE_MASK : Nat) (id : instrDesc) (opsz : Nat) :
    Option instrDesc := do
  let ensz ← emitEncodeSize b EA_SIZE_MASK opsz
  pure { id with _idOpSize := ensz % 2 ^ ID_OPSIZE_BITS b }

/-- The decode table with `emitSizeDecode[i] = 2^i`. -/
def powerOfTwoSizeDecode : Nat → Nat :=
  fun i => 2 ^ i

/-- An arm build on a 32-bit host with assertions. -/
def sampleArmBuild : Build :=
  { target := Target.arm, HOST_64BIT := false, EMIT_BACKWARDS_NAVIGATION := false, DEBUG := true,
    cnsvalBits := 32, targetBits := 32, sizeofInstrDesc := 16, sizeofInstrDescCns := 20,
    sizeofInstrDescDsp := 20 }

/-- The release build of the sample configuration. -/
def sampleReleaseBuild : Build :=
  { sampleBuild with DEBUG := false }

/-! ## Stack depth -/

/-- The condition that `CHECK_STACK_DEPTH` asserts: `(int)emitCurStackLvl >= 0`. -/
def stackLvlNonNegative (emitCurStackLvl : Nat) : Bool :=
  decide (toSigned UNSIGNED_BITS (emitCurStackLvl : Int) ≥ 0)

/-- The macro `CHECK_STACK_DEPTH()`: an assertion when `EMIT_TRACK_STACK_DEPTH` is
set (a switch from outside `emit.h`), nothing otherwise. -/
def CHECK_STACK_DEPTH (b : Build) (EMIT_TRACK_STACK_DEPTH : Bool) (emitCurStackLvl : Nat) :
    Option Unit :=
  if EMIT_TRACK_STACK_DEPTH then jitAssert b (stackLvlNonNegative emitCurStackLvl)
  else some ()

/-- A change of the running stack depth: an amount pushed or popped. -/
inductive StackEvent where
  | push (amount : Nat)
  | pop (amount : Nat)
  deriving DecidableEq, Repr

/-- Modelled from the spec: the functions that move `emitCurStackLvl`
(`emitStackPush`, `emitStackPop` and their relatives) are only declared in
`emit.h`.  The "simple running stack-depth count" is the `unsigned` counter moved
up by a push and down by a pop, in `unsigned` arithmetic. -/
def stackLvlStep (emitCurStackLvl : Nat) : StackEvent → Nat
  | StackEvent.push amount => toUnsigned UNSIGNED_BITS ((emitCurStackLvl : Int) + amount)
  | StackEvent.pop amount => toUnsigned UNSIGNED_BITS ((emitCurStackLvl : Int) - amount)

/-- The counter after a sequence of pushes and pops. -/
def stackLvlRun (emitCurStackLvl : Nat) (events : List StackEvent) : Nat :=
  events.foldl stackLvlStep emitCurStackLvl

/-- The mathematical change of depth of one event. -/
def StackEvent.delta : StackEvent → Int
  | StackEvent.push amount => amount
  | StackEvent.pop amount => -(amount : Int)

/-- The mathematical depth after a sequence of pushes and pops: pushes minus
pops. -/
def netDepth (events : List StackEvent) : Int :=
  (events.map StackEvent.delta).sum

/-- An emitter in which group 1 belongs to a funclet epilog and group 2 carries
the flags propagated from group 1 in a release build. -/
def sampleFuncletEmitter : emitter :=
  { groups := fun p =>
      if p == 1 then { igNum := 0, igFlags := IGF_FUNCLET_EPILOG }
      else if p == 2 then
        { igNum := 1, igFlags := IGF_FUNCLET_EPILOG &&& IGF_PROPAGATE_MASK sampleReleaseBuild }
      else {} }

/-- An emitter in which group 1 belongs to an epilog and a funclet epilog and
also has a new set of GC variables, and group 2 carries the flags propagated
from group 1 in a `DEBUG` build. -/
def sampleEpilogEmitter : emitter :=
  { groups := fun p =>
      if p == 1 then { igNum := 0, igFlags := IGF_EPILOG ||| IGF_FUNCLET_EPILOG ||| IGF_GC_VARS }
      else if p == 2 then { igNum := 1, igFlags := IGF_EPILOG ||| IGF_FUNCLET_EPILOG }
      else {} }

/-! ## The instruction group buffer -/

/-- The members of `class emitter` that describe the scratch buffer of the
current group, together with the bytes in the buffer (`scratch`, by offset from
`emitCurIGfreeBase`) and the groups saved so far (`savedGroups`, each the bytes
that were copied out for it, in list order). -/
structure igBuffer where
  emitCurIG : Nat := 0
  emitCurIGfreeNext : Nat := 0
  emitCurIGfreeEndp : Nat := 0
  emitCurIGfreeBase : Nat := 0
  scratch : Nat → Nat := fun _ => 0
  savedGroups : List (List Nat) := []

/-- `emitter::emitCurIGnonEmpty`. -/
def emitCurIGnonEmpty (s : igBuffer) : Bool :=
  (s.emitCurIG != 0) && decide (s.emitCurIGfreeNext > s.emitCurIGfreeBase)

/-- The bytes of the scratch buffer that are in use. -/
def usedBytes (s : igBuffer) : List Nat :=
  (List.range (s.emitCurIGfreeNext - s.emitCurIGfreeBase)).map s.scratch

/-- Modelled from the spec: `emitSavIG` and `emitNxtIG` are only declared in
`emit.h`.  In the words of the spec, `flush()` "copies the exact used prefix into
a freshly, precisely sized permanent allocation, links it into the group list,
and resets the scratch buffer for the next chunk", and "flushing an empty
scratch buffer is a no-op (no zero-length group is created)". -/
def flush (s : igBuffer) : igBuffer :=
  if emitCurIGnonEmpty s then
    { s with savedGroups := s.savedGroups ++ [usedBytes s],
             emitCurIGfreeNext := s.emitCurIGfreeBase }
  else s

/-- A buffer with a current group and three bytes in use. -/
def sampleBuffer : igBuffer :=
  { emitCurIG := 2, emitCurIGfreeBase := 0x7000, emitCurIGfreeNext := 0x7003,
    emitCurIGfreeEndp := 0x7100, scratch := fun i => i + 1, savedGroups := [[9, 9]] }

/-! ## Code emission -/

/-- What the instruction encoder (an external collaborator) produces for one
record at a cursor: the bytes, and the offsets within these bytes of the
operands for which a relocation is recorded. -/
structure EncodedIns where
  bytes : List Nat
  relocs : List Nat
  deriving DecidableEq, Repr

/-- The state of the emission pass: the bytes written so far, the cursor
(cumulative offset), and for every record issued so far the offset it started
at and its realized encoded size; and the recorded relocations, as positions in
the image. -/
structure Emission where
  image : List Nat := []
  cursor : Nat := 0
  starts : List Nat := []
  sizes : List Nat := []
  relocations : List Nat := []
  deriving DecidableEq, Repr

/-- Modelled from the spec: `emitIssue1Instr` and `emitOutputInstr` are only
declared in `emit.h`.  One step of the "single forward pass: for every record,
invoke the architecture-specific instruction encoder (external collaborator) to
produce bytes at the current cursor, track cumulative offset, and record
relocations". -/
def issueRecord {ρ : Type} (encode : ρ → Nat → EncodedIns) (st : Emission) (r : ρ) : Emission :=
  let enc := encode r st.cursor
  { image := st.image ++ enc.bytes,
    cursor := st.cursor + enc.bytes.length,
    starts := st.starts ++ [st.cursor],
    sizes := st.sizes ++ [enc.bytes.length],
    relocations := st.relocations ++ enc.relocs.map (fun off => st.cursor + off) }

/-- Modelled from the spec: the pass over one group, record by record. -/
def issueGroup {ρ : Type} (encode : ρ → Nat → EncodedIns) (st : Emission) (group : List ρ) :
    Emission :=
  group.foldl (issueRecord encode) st

/-- Modelled from the spec: the code part of `emit(group-list, data-sections)`:
the single forward pass over the groups in list order, from an empty image. -/
def emitCode {ρ : Type} (encode : ρ → Nat → EncodedIns) (groups : List (List ρ)) : Emission :=
  groups.foldl (issueGroup encode) {}

/-- The contract assumed of the encoder: it records a relocation only for an
operand that lies inside the bytes it produced. -/
def EncoderRelocsInside {ρ : Type} (encode : ρ → Nat → EncodedIns) : Prop :=
  ∀ r cursor, ∀ off ∈ (encode r cursor).relocs, off < (encode r cursor).bytes.length

/-- What holds of the emission state once the records `done` have been issued:
the cursor is the end of the image, every record has its start and its size,
the size being what the encoder produced at that start, the image is as long as
the sizes add up to, every record starts where the ones before it end, and the
relocations lie within the image. -/
def EmissionInv {ρ : Type} (encode : ρ → Nat → EncodedIns) (done : List ρ) (st : Emission) :
    Prop :=
  st.cursor = st.image.length ∧
  st.starts.length = done.length ∧
  st.sizes = List.zipWith (fun r start => (encode r start).bytes.length) done st.starts ∧
  st.image.length = st.sizes.sum ∧
  (∀ k, k < st.starts.length → st.starts.getD k 0 = (st.sizes.take k).sum) ∧
  (∀ p ∈ st.relocations, p < st.image.length)

/-- A sample encoder: record `n` becomes `n` bytes, with a relocation recorded
for its last byte when `n` is larger than 4. -/
def sampleEncode : Nat → Nat → EncodedIns :=
  fun n cursor => { bytes := List.replicate n (cursor % 256),
                    relocs := if n > 4 then [n - 1] else [] }

/-! ## GC liveness -/

/-- The values of `GCtype` that `emit.h` uses. -/
inductive GCtype where
  | GCT_NONE
  | GCT_GCREF
  | GCT_BYREF
  deriving DecidableEq, Repr

/-- The liveness events of the tracker's contract: `regLiveNow(gcType, mask)`,
`regDead(mask)`, `varLiveNow(stackOffset, gcType)`, `varDead(stackOffset)`. -/
inductive LiveEvent where
  | regLiveNow (gcType : GCtype) (mask : Finset Nat)
  | regDead (mask : Finset Nat)
  | varLiveNow (stackOffset : Int) (gcType : GCtype)
  | varDead (stackOffset : Int)
  deriving DecidableEq

/-- The three live sets: GC-ref registers, by-ref registers, tracked stack
variables (by stack offset). -/
structure LiveSets where
  gcrefRegs : Finset Nat := ∅
  byrefRegs : Finset Nat := ∅
  gcVars : Finset Int := ∅
  deriving DecidableEq

/-- Modelled from the spec: the functions that update the live sets
(`emitGCregLiveUpd`, `emitGCregDeadUpd`, `emitGCvarLiveUpd`, `emitGCvarDeadUpd`,
...) are only declared in `emit.h`.  A register made live as a GC-ref enters the
GC-ref set and leaves the by-ref set, and the other way round for a by-ref; a
dead register leaves both; a stack variable enters or leaves the tracked set. -/
def applyLiveEvent (s : LiveSets) : LiveEvent → LiveSets
  | LiveEvent.regLiveNow GCtype.GCT_GCREF mask =>
    { s with gcrefRegs := s.gcrefRegs ∪ mask, byrefRegs := s.byrefRegs \ mask }
  | LiveEvent.regLiveNow GCtype.GCT_BYREF mask =>
    { s with byrefRegs := s.byrefRegs ∪ mask, gcrefRegs := s.gcrefRegs \ mask }
  | LiveEvent.regLiveNow GCtype.GCT_NONE _ => s
  | LiveEvent.regDead mask =>
    { s with gcrefRegs := s.gcrefRegs \ mask, byrefRegs := s.byrefRegs \ mask }
  | LiveEvent.varLiveNow stackOffset GCtype.GCT_NONE => { s with gcVars := s.gcVars.erase stackOffset }
  | LiveEvent.varLiveNow stackOffset _ => { s with gcVars := insert stackOffset s.gcVars }
  | LiveEvent.varDead stackOffset => { s with gcVars := s.gcVars.erase stackOffset }

/-- Modelled from the spec: replaying liveness events from a start state. -/
def replayLiveness (start : LiveSets) (events : List LiveEvent) : LiveSets :=
  events.foldl applyLiveEvent start

/-- Modelled from the spec: the tracker, run over the events of each position in
turn (the events "consulted after every instruction append").  It stores a
snapshot for a position only when the live state differs from what the
predecessor already encodes; "if unchanged, no redundant snapshot is stored
(inherits from predecessor)". -/
def trackLiveness (current : LiveSets) : List (List LiveEvent) → List (Option LiveSets)
  | [] => []
  | events :: rest =>
    let next := replayLiveness current events
    (if next = current then none else some next) :: trackLiveness next rest

/-- Modelled from the spec: the live sets recorded at position `P`: the last
snapshot stored for one of the first `P` positions, or the start state when
every one of them inherits. -/
def recordedAt (start : LiveSets) (table : List (Option LiveSets)) (P : Nat) : LiveSets :=
  (table.take P).foldl (fun s entry => entry.getD s) start

/-- A sample trace of three positions: r3 becomes a GC-ref, nothing happens, r3
dies and the stack slot at -8 becomes live. -/
def sampleTrace : List (List LiveEvent) :=
  [[LiveEvent.regLiveNow GCtype.GCT_GCREF {3}], [],
   [LiveEvent.regDead {3}, LiveEvent.varLiveNow (-8) GCtype.GCT_GCREF]]

/-! ## Jump resolution -/

/-- The two encodings of a jump, distinguished by how far they reach. -/
inductive JumpEncoding where
  | short
  | long
  deriving DecidableEq, Repr

/-- A record of the finalized list, as far as layout is concerned: a record of
a fixed size, or a jump to the record with index `target` together with its
currently assumed encoding. -/
inductive LayoutIns where
  | fixed (size : Nat)
  | jump (target : Nat) (encoding : JumpEncoding)
  deriving DecidableEq, Repr

/-- Size and range of the two jump encodings of a target. -/
structure JumpParams where
  shortSize : Nat
  longSize : Nat
  shortRange : Nat
  longRange : Nat
  deriving DecidableEq, Repr

/-- The size of a record under the current encodings. -/
def LayoutIns.size (p : JumpParams) : LayoutIns → Nat
  | LayoutIns.fixed size => size
  | LayoutIns.jump _ JumpEncoding.short => p.shortSize
  | LayoutIns.jump _ JumpEncoding.long => p.longSize

/-- The largest size a record can ever have: a jump counts with its long
encoding. -/
def LayoutIns.maxSize (p : JumpParams) : LayoutIns → Nat
  | LayoutIns.fixed size => size
  | LayoutIns.jump _ _ => p.longSize

/-- The range of an encoding. -/
def encodingRange (p : JumpParams) : JumpEncoding → Nat
  | JumpEncoding.short => p.shortRange
  | JumpEncoding.long => p.longRange

/-- Whether a record is a jump that is currently assumed short (1) or not (0). -/
def LayoutIns.shortJumps : LayoutIns → Nat
  | LayoutIns.jump _ JumpEncoding.short => 1
  | _ => 0

/-- Whether a record is a jump (1) or not (0). -/
def LayoutIns.jumps : LayoutIns → Nat
  | LayoutIns.jump _ _ => 1
  | _ => 0

/-- The number of jumps of a method. -/
def jumpCount (code : List LayoutIns) : Nat :=
  (code.map LayoutIns.jumps).sum

/-- The number of jumps that are currently assumed short. -/
def shortJumpCount (code : List LayoutIns) : Nat :=
  (code.map LayoutIns.shortJumps).sum

/-- Modelled from the spec: the offset of record `i` "given current instruction
sizes": the sizes of the records before it, added up. -/
def offsetOf (p : JumpParams) (code : List LayoutIns) (i : Nat) : Nat :=
  ((code.take i).map (LayoutIns.size p)).sum

/-- Modelled from the spec: the reach the jump at index `i` requires "given the
now-known source/target offsets": the distance between the end of the jump and
the offset of its target. -/
def requiredReach (p : JumpParams) (code : List LayoutIns) (i target : Nat) : Nat :=
  let src := offsetOf p code (i + 1)
  let dst := offsetOf p code target
  if dst ≤ src then src - dst else dst - src

/-- Modelled from the spec: the re-check of one record in a pass: a jump "whose
required reach exceeds the short-encoding range is promoted to long"; nothing
else changes. -/
def promoteIns (p : JumpParams) (whole : List LayoutIns) (i : Nat) : LayoutIns → LayoutIns
  | LayoutIns.jump target JumpEncoding.short =>
    if p.shortRange < requiredReach p whole i target then
      LayoutIns.jump target JumpEncoding.long
    else LayoutIns.jump target JumpEncoding.short
  | ins => ins

/-- The re-check of the records from index `i` on, against the offsets of the
layout `whole` computed at the start of the pass. -/
def promoteFrom (p : JumpParams) (whole : List LayoutIns) : Nat → List LayoutIns → List LayoutIns
  | _, [] => []
  | i, ins :: rest => promoteIns p whole i ins :: promoteFrom p whole (i + 1) rest

/-- Modelled from the spec: one pass of the resolver: it "recomputes group
offsets given current instruction sizes, then re-checks every jump's required
encoding". -/
def promotePass (p : JumpParams) (code : List LayoutIns) : List LayoutIns :=
  promoteFrom p code 0 code

/-- Modelled from the spec: passes are repeated until "a full pass produces no
promotions"; the result is the final layout and the number of passes that
promoted a jump.  The first argument bounds the number of passes. -/
def resolveJumps (p : JumpParams) : Nat → List LayoutIns → List LayoutIns × Nat
  | 0, code => (code, 0)
  | fuel + 1, code =>
    let next := promotePass p code
    if next = code then (code, 0)
    else
      let r := resolveJumps p fuel next
      (r.1, r.2 + 1)

/-- Modelled from the spec: `emitJumpDistBind` is only declared in `emit.h`.
Jump resolution as the spec describes it (section 4.4, without alignment and
jump removal): every jump starts with the encoding it was given, and promotion
passes are run, at most as many as the method has jumps. -/
def emitJumpDistBind (p : JumpParams) (code : List LayoutIns) : List LayoutIns × Nat :=
  resolveJumps p (jumpCount code) code

/-- The only change a pass makes to a record: none, or a short jump becomes a
long jump to the same target. -/
def PromotedFrom (before after : LayoutIns) : Prop :=
  after = before ∨
    ∃ target, before = LayoutIns.jump target JumpEncoding.short ∧
      after = LayoutIns.jump target JumpEncoding.long

/-- Sample encodings: 2-byte short jumps reaching 10 bytes, 5-byte long jumps
reaching 1000 bytes. -/
def sampleJumpParams : JumpParams :=
  { shortSize := 2, longSize := 5, shortRange := 10, longRange := 1000 }

/-- A sample method: two forward jumps over an 8-byte record, the promotion of
the second pushing the first out of the short range. -/
def sampleJumpCode : List LayoutIns :=
  [LayoutIns.jump 3 JumpEncoding.short, LayoutIns.jump 4 JumpEncoding.short,
   LayoutIns.fixed 8, LayoutIns.fixed 4, LayoutIns.fixed 1]

/-! ## Data sections -/

/-- `dataSection::MIN_DATA_ALIGN`. -/
def dataSection.MIN_DATA_ALIGN : Nat := 4

/-- `dataSection::MAX_DATA_ALIGN`. -/
def dataSection.MAX_DATA_ALIGN : Nat := 64

/-- `struct dataSecDsc`: the list of data sections (first and last entry, by
address), the running offset and the alignment in bytes. -/
structure dataSecDsc where
  dsdList : Nat
  dsdLast : Nat
  dsdOffs : Nat
  alignment : Nat
  deriving DecidableEq, Repr

/-- The constructor `dataSecDsc::dataSecDsc()`. -/
def dataSecDsc.construct : dataSecDsc :=
  { dsdList := 0, dsdLast := 0, dsdOffs := 0, alignment := 4 }

/-- `emitter::emitDataSize`, on the member `emitConsDsc`. -/
def emitDataSize (emitConsDsc : dataSecDsc) : Nat :=
  emitConsDsc.dsdOffs

/-! ## Calls and descriptor sizes -/

/-- `instrDesc::idSetIsCall`. -/
def idSetIsCall (id : instrDesc) : instrDesc :=
  { id with _idCall := true }

/-- `instrDesc::idIsLargeCall`. -/
def idIsLargeCall (id : instrDesc) : Bool :=
  idIsCall id && (id._idLargeCns == true)

/-- `instrDesc::idSetIsLargeCall`. -/
def idSetIsLargeCall (id : instrDesc) : instrDesc :=
  let id := idSetIsCall id
  { id with _idLargeCns := true }

/-- `instrDesc::idIsLclVarPair` (arm64). -/
def idIsLclVarPair (id : instrDesc) : Bool :=
  id._idLclVarPair != false

/-- `emitter::emitGetInstrDescSize`, the general purpose version.  The two arm64
sizes `sizeof(instrDescLclVarPair)` and `sizeof(instrDescLclVarPairCns)` are
parameters. -/
def emitGetInstrDescSize (b : Build) (sizeofInstrDescLclVarPair : Nat)
    (sizeofInstrDescLclVarPairCns : Nat) (id : instrDesc) : Nat :=
  if idIsSmallDsc id then
    SMALL_IDSC_SIZE
  else if idIsLargeCns id then
    (if b.target == Target.arm64 && idIsLclVarPair id then sizeofInstrDescLclVarPairCns
     else b.sizeofInstrDescCns)
  else
    (if b.target == Target.arm64 && idIsLclVarPair id then sizeofInstrDescLclVarPair
     else b.sizeofInstrDesc)

/-- The block that `emitAllocAnyInstr` returns is cleared, so the arm64 flag
`_idLclVarPair` of a new descriptor is off. -/
def ClearsLclVarPair (alloc : Allocator) : Prop :=
  ∀ sz attr, (alloc sz attr)._idLclVarPair = false

/-- An arm64 build on a 64-bit host with assertions. -/
def sampleArm64Build : Build :=
  { target := Target.arm64, HOST_64BIT := true, EMIT_BACKWARDS_NAVIGATION := false, DEBUG := true,
    cnsvalBits := 64, targetBits := 64, sizeofInstrDesc := 16, sizeofInstrDescCns := 24,
    sizeofInstrDescDsp := 24 }

/-! ## Instruction counts in `idAddrUnion` -/

/-- `iaut_ALIGNED_POINTER`. -/
def iaut_ALIGNED_POINTER : Nat := 0x0

/-- `iaut_DATA_OFFSET`. -/
def iaut_DATA_OFFSET : Nat := 0x1

/-- `iaut_INST_COUNT`. -/
def iaut_INST_COUNT : Nat := 0x2

/-- `iaut_UNUSED_TAG`. -/
def iaut_UNUSED_TAG : Nat := 0x3

/-- `iaut_MASK`. -/
def iaut_MASK : Nat := 0x3

/-- `iaut_SHIFT`. -/
def iaut_SHIFT : Nat := 2

/-- `idAddrUnion::iiaHasInstrCount`, on the `int` member `iiaEncodedInstrCount`;
the `&` acts on its 32-bit two's-complement pattern. -/
def iiaHasInstrCount (iiaEncodedInstrCount : Int) : Bool :=
  (toUnsigned UNSIGNED_BITS iiaEncodedInstrCount &&& iaut_MASK) == iaut_INST_COUNT

/-- `idAddrUnion::iiaGetInstrCount`; `>>` on an `int` is the arithmetic shift. -/
def iiaGetInstrCount (b : Build) (iiaEncodedInstrCount : Int) : Option Int := do
  jitAssert b (iiaHasInstrCount iiaEncodedInstrCount)
  pure (iiaEncodedInstrCount >>> iaut_SHIFT)

/-- `idAddrUnion::iiaSetInstrCount`: the new value of `iiaEncodedInstrCount`;
the `<<` and the `|` act on the 32-bit two's-complement pattern. -/
def iiaSetInstrCount (b : Build) (count : Int) : Option Int := do
  jitAssert b (decide (count.natAbs < 10))
  pure (toSigned UNSIGNED_BITS
    ((((toUnsigned UNSIGNED_BITS count <<< iaut_SHIFT) % 2 ^ UNSIGNED_BITS) |||
      iaut_INST_COUNT : Nat) : Int))

/-! ## Size of the previous descriptor -/

/-- `instrDesc::idPrevSize`. -/
def idPrevSize (id : instrDesc) : Nat :=
  id._idScaledPrevOffset * 4

/-- `instrDesc::idSetPrevSize`; the quotient is stored into the bit-field
`_idScaledPrevOffset` of width `ID_EXTRA_PREV_OFFSET_BITS`. -/
def idSetPrevSize (b : Build) (id : instrDesc) (prevInstrDescSizeInBytes : Nat) :
    Option instrDesc := do
  jitAssert b (prevInstrDescSizeInBytes % 4 == 0)
  let id1 := { id with _idScaledPrevOffset :=
    (prevInstrDescSizeInBytes / 4) % 2 ^ ID_EXTRA_PREV_OFFSET_BITS b }
  jitAssert b (idPrevSize id1 == prevInstrDescSizeInBytes)
  pure id1

/-! ## Code sizes -/

/-- The getter `instrDesc::idCodeSize()` of xarch, loongarch64 and riscv64. -/
def idCodeSize (id : instrDesc) : Nat :=
  id._idCodeSize

/-- The setter `instrDesc::idCodeSize(sz)` of xarch, with the 4-bit field
`_idCodeSize`. -/
def idCodeSizeSetXarch (b : Build) (id : instrDesc) (sz : Nat) : Option instrDesc := do
  jitAssert b (decide (sz ≤ 15))
  let id1 := { id with _idCodeSize := sz % 2 ^ 4 }
  jitAssert b (sz == id1._idCodeSize)
  pure id1

/-- The setter `instrDesc::idCodeSize(sz)` of loongarch64, with the 5-bit field
`_idCodeSize`. -/
def idCodeSizeSetLoongArch64 (b : Build) (id : instrDesc) (sz : Nat) : Option instrDesc := do
  jitAssert b (decide (sz ≤ 16))
  pure { id with _idCodeSize := sz % 2 ^ 5 }

/-- The setter `instrDesc::idCodeSize(sz)` of riscv64, with the 6-bit field
`_idCodeSize`. -/
def idCodeSizeSetRiscV64 (b : Build) (id : instrDesc) (sz : Nat) : Option instrDesc := do
  jitAssert b (decide (sz ≤ 32))
  pure { id with _idCodeSize := sz % 2 ^ 6 }

/-- The enumerators that the arm64 `idCodeSize()` compares with; their values
are defined outside `emit.h`. -/
structure Arm64Enums where
  IF_LARGEADR : Nat
  IF_LARGEJMP : Nat
  IF_LARGELDC : Nat
  IF_SN_0A : Nat
  INS_align : Nat
  INS_OPTS_NONE : Nat
  deriving DecidableEq, Repr

/-- The case labels of the `switch` are different enumerators. -/
def Arm64Enums.distinctFormats (c : Arm64Enums) : Prop :=
  c.IF_LARGEADR ≠ c.IF_LARGELDC ∧ c.IF_LARGEADR ≠ c.IF_SN_0A ∧
  c.IF_LARGEJMP ≠ c.IF_LARGELDC ∧ c.IF_LARGEJMP ≠ c.IF_SN_0A ∧
  c.IF_LARGELDC ≠ c.IF_SN_0A

/-- `INSTR_ENCODED_SIZE` (arm64). -/
def INSTR_ENCODED_SIZE : Nat := 4

/-- `instrDesc::idIsEmptyAlign` (arm64). -/
def idIsEmptyAlign (c : Arm64Enums) (id : instrDesc) : Bool :=
  (id._idIns == c.INS_align) && (id._idInsOpt == c.INS_OPTS_NONE)

/-- `instrDesc::idCodeSize()` of arm64: the `switch` on the format.
`isVectorRegister` is defined outside `emit.h` and is a parameter. -/
def idCodeSizeArm64 (c : Arm64Enums) (isVectorRegister : Nat → Bool) (id : instrDesc) : Nat :=
  if id._idInsFmt == c.IF_LARGEADR || id._idInsFmt == c.IF_LARGEJMP then
    8
  else if id._idInsFmt == c.IF_LARGELDC then
    (if isVectorRegister id._idReg1 then 12 else 8)
  else if id._idInsFmt == c.IF_SN_0A then
    (if idIsEmptyAlign c id then 0 else 4)
  else
    4

/-- Sample values for the arm64 enumerators. -/
def sampleArm64Enums : Arm64Enums :=
  { IF_LARGEADR := 10, IF_LARGEJMP := 11, IF_LARGELDC := 12, IF_SN_0A := 13, INS_align := 7,
    INS_OPTS_NONE := 0 }

/-! ## The table of small-constant widths -/

/-- The table in the comment of `emit.h` ("Small constant size (with/without prev
offset, assuming host==target)"). -/
def tabulatedSmallCnsBits (t : Target) (withPrevOffset : Bool) : Nat :=
  match t, withPrevOffset with
  | Target.x86, true => 8
  | Target.x86, false => 12
  | Target.amd64, true => 5
  | Target.amd64, false => 10
  | Target.arm, true => 10
  | Target.arm, false => 14
  | Target.arm64, true => 2
  | Target.arm64, false => 7
  | Target.loongarch64, true => 11
  | Target.loongarch64, false => 16
  | Target.riscv64, true => 11
  | Target.riscv64, false => 16

/-- Whether the target is a 64-bit target. -/
def targetIs64Bit (t : Target) : Bool :=
  match t with
  | Target.x86 => false
  | Target.arm => false
  | _ => true

/-- An x86 build hosted on a 64-bit machine, with backward navigation. -/
def sampleCrossX86Build : Build :=
  { target := Target.x86, HOST_64BIT := true, EMIT_BACKWARDS_NAVIGATION := true, DEBUG := true,
    cnsvalBits := 32, targetBits := 32, sizeofInstrDesc := 16, sizeofInstrDescCns := 24,
    sizeofInstrDescDsp := 24 }

/-! ## GC type of a register -/

/-- A register mask function with one bit per register, as a sample for the
parameter `genRegMask` of `emitRegGCtype`. -/
def singleBitRegMask (reg : Nat) : Nat :=
  1 <<< reg

/-- `needsGC`. -/
def needsGC (b : Build) (gcType : GCtype) : Option Bool :=
  if gcType == GCtype.GCT_NONE then
    some false
  else do
    jitAssert b (gcType == GCtype.GCT_GCREF || gcType == GCtype.GCT_BYREF)
    pure true

/-- `emitter::emitRegGCtype`, on the members `emitIssuing`, `emitThisGCrefRegs`
and `emitThisByrefRegs`.  `genRegMask` is defined outside `emit.h` and is a
parameter. -/
def emitRegGCtype (b : Build) (genRegMask : Nat → Nat) (emitIssuing : Bool)
    (emitThisGCrefRegs emitThisByrefRegs : Nat) (reg : Nat) : Option GCtype := do
  jitAssert b emitIssuing
  pure (if (emitThisGCrefRegs &&& genRegMask reg) != 0 then GCtype.GCT_GCREF
    else if (emitThisByrefRegs &&& genRegMask reg) != 0 then GCtype.GCT_BYREF
    else GCtype.GCT_NONE)

/-! ## EVEX contexts (xarch) -/

/-- The macro `_idEvexbContext`: `(_idCustom6 << 1) | _idCustom5`. -/
def _idEvexbContext (id : instrDesc) : Nat :=
  (id._idCustom6.toNat <<< 1) ||| id._idCustom5.toNat

/-- The macro `_idEvexDFV`:
`(_idCustom4 << 3) | (_idCustom3 << 2) | (_idCustom2 << 1) | _idCustom1`. -/
def _idEvexDFV (id : instrDesc) : Nat :=
  (id._idCustom4.toNat <<< 3) ||| (id._idCustom3.toNat <<< 2) ||| (id._idCustom2.toNat <<< 1) |||
    id._idCustom1.toNat

/-- `instrDesc::idGetEvexbContext`. -/
def idGetEvexbContext (id : instrDesc) : Nat :=
  _idEvexbContext id

/-- `instrDesc::idIsEvexbContextSet`. -/
def idIsEvexbContextSet (id : instrDesc) : Bool :=
  idGetEvexbContext id != 0

/-- `instrDesc::idSetEvexBroadcastBit`. -/
def idSetEvexBroadcastBit (b : Build) (id : instrDesc) : Option instrDesc := do
  jitAssert b (!idIsEvexbContextSet id)
  pure { id with _idCustom5 := true }

/-- `instrDesc::idSetEvexbContext`.  The enumerator `INS_OPTS_EVEX_b_MASK` is
defined outside `emit.h` and is a parameter; `value` is an `unsigned`. -/
def idSetEvexbContext (b : Build) (INS_OPTS_EVEX_b_MASK : Nat) (id : instrDesc)
    (instOptions : Nat) : Option instrDesc := do
  jitAssert b (!idIsEvexbContextSet id)
  let value := (instOptions &&& INS_OPTS_EVEX_b_MASK) % 2 ^ UNSIGNED_BITS
  pure { id with
    _idCustom5 := ((value >>> 0) &&& 1) != 0,
    _idCustom6 := ((value >>> 1) &&& 1) != 0 }

/-- `instrDesc::idIsEvexNdContextSet`; `_idEvexNdContext` is `_idCustom5`. -/
def idIsEvexNdContextSet (id : instrDesc) : Bool :=
  id._idCustom5 != false

/-- `instrDesc::idSetEvexNdContext`. -/
def idSetEvexNdContext (b : Build) (id : instrDesc) : Option instrDesc := do
  jitAssert b (!idIsEvexNdContextSet id)
  pure { id with _idCustom5 := true }

/-- `instrDesc::idIsEvexNfContextSet`; `_idEvexNfContext` is `_idCustom6`. -/
def idIsEvexNfContextSet (id : instrDesc) : Bool :=
  id._idCustom6 != false

/-- `instrDesc::idSetEvexNfContext`. -/
def idSetEvexNfContext (b : Build) (id : instrDesc) : Option instrDesc := do
  jitAssert b (!idIsEvexNfContextSet id)
  pure { id with _idCustom6 := true }

/-- `instrDesc::idGetEvexDFV`. -/
def idGetEvexDFV (id : instrDesc) : Nat :=
  _idEvexDFV id

/-- `instrDesc::idSetEvexDFV`.  The enumerator `INS_OPTS_EVEX_dfv_MASK` is
defined outside `emit.h` and is a parameter; `value` is an `unsigned`. -/
def idSetEvexDFV (b : Build) (INS_OPTS_EVEX_dfv_MASK : Nat) (id : instrDesc)
    (instOptions : Nat) : Option instrDesc := do
  let value := ((instOptions &&& INS_OPTS_EVEX_dfv_MASK) >>> 8) % 2 ^ UNSIGNED_BITS
  let id1 := { id with
    _idCustom1 := ((value >>> 0) &&& 1) != 0,
    _idCustom2 := ((value >>> 1) &&& 1) != 0,
    _idCustom3 := ((value >>> 2) &&& 1) != 0,
    _idCustom4 := ((value >>> 3) &&& 1) != 0 }
  jitAssert b (value == idGetEvexDFV id1)
  pure id1

/-! ## Theorems -/

theorem two_pow_pred_double (n : Nat) (hn : 1 ≤ n) : (2 : Int) ^ n = 2 * (2 : Int) ^ (n - 1) := by
  obtain ⟨k, rfl⟩ : ∃ k, n = k + 1 := ⟨n - 1, by omega⟩
  simp [pow_succ, mul_comm]

theorem toSigned_eq_self_iff (n : Nat) (hn : 1 ≤ n) (v : Int) :
    toSigned n v = v ↔ -(2 : Int) ^ (n - 1) ≤ v ∧ v ≤ (2 : Int) ^ (n - 1) - 1 := by
  have hd := two_pow_pred_double n hn
  have hp : (0 : Int) < (2 : Int) ^ (n - 1) := by positivity
  unfold toSigned
  rw [hd]
  generalize (2 : Int) ^ (n - 1) = p at hp ⊢
  have h0 : 0 ≤ (v + p) % (2 * p) := Int.emod_nonneg _ (by omega)
  have h1 : (v + p) % (2 * p) < 2 * p := Int.emod_lt_of_pos _ (by omega)
  constructor
  · intro h
    omega
  · rintro ⟨hlo, hhi⟩
    rw [Int.emod_eq_of_lt (by omega) (by omega)]
    omega


/-- Claim C1: the declared widths of the header bit-fields, from `_idIns` to
`_idSmallCns`, add up to 64 bits on x86, amd64, arm64, loongarch64 and riscv64,
with and without `_idScaledPrevOffset` and for either host word size.  On arm
they add up to 63 bits: `ID_EXTRA_BITFIELD_BITS` is 16 there, but without
`_idCustom4` only 15 bits are declared beyond the first 32, so the header
comment "arm: 48 bits" and "64 bits, all architectures" is one bit off. -/
theorem headerBits_by_target (b : Build) :
    headerBits b = if b.target = Target.arm then 63 else 64 := by
  obtain ⟨t, h64, nav, dbg, cb, tb, s1, s2, s3⟩ := b
  cases t <;> cases h64 <;> cases nav <;>
    simp [headerBits, headerFields, fieldsIns, fieldsFmt, fieldsOpSize, fieldsRegsEarly,
      fieldsFlags, fieldsRegsLate, fieldsCustom4, fieldsCustom567, fieldsTargetTail, fieldsReloc,
      fieldsPrevOffset, fieldsSmallCns, TARGET_XARCH, TARGET_ARMARCH, REGNUM_BITS,
      ID_BIT_SMALL_CNS, ID_EXTRA_BITS, ID_EXTRA_RELOC_BITS, ID_EXTRA_BITFIELD_BITS,
      ID_EXTRA_PREV_OFFSET_BITS]

theorem ID_BIT_SMALL_CNS_bounds (b : Build) :
    2 ≤ ID_BIT_SMALL_CNS b ∧ ID_BIT_SMALL_CNS b ≤ 16 := by
  obtain ⟨t, h64, nav, dbg, cb, tb, s1, s2, s3⟩ := b
  cases t <;> cases h64 <;> cases nav <;>
    simp [ID_BIT_SMALL_CNS, ID_EXTRA_BITS, ID_EXTRA_RELOC_BITS, ID_EXTRA_BITFIELD_BITS,
      ID_EXTRA_PREV_OFFSET_BITS]

theorem ID_MIN_SMALL_CNS_eq (b : Build) :
    ID_MIN_SMALL_CNS b = -(2 : Int) ^ (ID_BIT_SMALL_CNS b - 1) := by
  simp [ID_MIN_SMALL_CNS, ID_ADJ_SMALL_CNS, Nat.shiftLeft_eq]

theorem ID_MAX_SMALL_CNS_eq (b : Build) :
    ID_MAX_SMALL_CNS b = (2 : Int) ^ (ID_BIT_SMALL_CNS b - 1) - 1 := by
  have h := two_pow_pred_double (ID_BIT_SMALL_CNS b) (by have := ID_BIT_SMALL_CNS_bounds b; omega)
  simp only [ID_MAX_SMALL_CNS, ID_CNT_SMALL_CNS, ID_ADJ_SMALL_CNS, Nat.shiftLeft_eq, one_mul,
    Nat.cast_pow, Nat.cast_ofNat]
  omega

theorem fitsInSmallCns_iff (b : Build) (v : Int) :
    fitsInSmallCns b v = true ↔
      -(2 : Int) ^ (ID_BIT_SMALL_CNS b - 1) ≤ v ∧ v ≤ (2 : Int) ^ (ID_BIT_SMALL_CNS b - 1) - 1 := by
  simp [fitsInSmallCns, ID_MIN_SMALL_CNS_eq, ID_MAX_SMALL_CNS_eq]

theorem toSigned_of_fits (b : Build) (v : Int) (h : fitsInSmallCns b v = true) :
    toSigned (ID_BIT_SMALL_CNS b) v = v :=
  (toSigned_eq_self_iff _ (by have := ID_BIT_SMALL_CNS_bounds b; omega) v).2
    ((fitsInSmallCns_iff b v).1 h)

theorem idSmallCnsSet_of_fits (b : Build) (id : instrDesc) (v : Int)
    (h : fitsInSmallCns b v = true) :
    idSmallCnsSet b id v = some { id with _idSmallCns := v } := by
  simp [idSmallCnsSet, jitAssert, h, toSigned_of_fits b v h, idSmallCns]

theorem toSigned_toUnsigned (w : Nat) (hw : 1 ≤ w) (v : Int)
    (hv : -(2 : Int) ^ (w - 1) ≤ v ∧ v ≤ (2 : Int) ^ (w - 1) - 1) :
    toSigned w ((toUnsigned w v : Nat) : Int) = v := by
  have hpos : (0 : Int) < (2 : Int) ^ w := by positivity
  have hcast : ((toUnsigned w v : Nat) : Int) = v % (2 : Int) ^ w := by
    unfold toUnsigned
    exact Int.toNat_of_nonneg (Int.emod_nonneg _ (by omega))
  rw [hcast]
  have key : toSigned w (v % (2 : Int) ^ w) = toSigned w v := by
    unfold toSigned
    rw [Int.emod_add_emod]
  rw [key]
  exact (toSigned_eq_self_iff w hw v).2 hv

theorem zeroedAllocator_fresh : FreshAllocator zeroedAllocator := by
  intro sz attr
  exact ⟨rfl, rfl, rfl, rfl, rfl⟩

/-- Claim C4: with `n = ID_BIT_SMALL_CNS`, `fitsInSmallCns v` holds exactly when
`-2^(n-1) ≤ v ≤ 2^(n-1) - 1`; for such `v` the setter `idSmallCns(v)` passes
both assertions, changes only `_idSmallCns`, and the getter then returns `v`;
for every other `v` the value kept by the `n`-bit signed field differs from
`v`. -/
theorem fitsInSmallCns_exact (b : Build) (v : Int) :
    (fitsInSmallCns b v = true ↔
      -(2 : Int) ^ (ID_BIT_SMALL_CNS b - 1) ≤ v ∧ v ≤ (2 : Int) ^ (ID_BIT_SMALL_CNS b - 1) - 1) ∧
    (fitsInSmallCns b v = true → ∀ id : instrDesc,
      idSmallCnsSet b id v = some { id with _idSmallCns := v } ∧
      idSmallCns { id with _idSmallCns := v } = v) ∧
    (fitsInSmallCns b v = false → toSigned (ID_BIT_SMALL_CNS b) v ≠ v) := by
  refine ⟨fitsInSmallCns_iff b v, fun h id => ⟨idSmallCnsSet_of_fits b id v h, rfl⟩, ?_⟩
  intro h heq
  have h1 := (toSigned_eq_self_iff _ (by have := ID_BIT_SMALL_CNS_bounds b; omega) v).1 heq
  have h2 := (fitsInSmallCns_iff b v).2 h1
  rw [h] at h2
  exact Bool.noConfusion h2

/-- Claim C2: for an allocator that returns cleared blocks and every constant
`cns` of type `cnsval_ssize_t`, both `emitNewInstrSC` and `emitNewInstrCns`
return a descriptor (no assertion fires) on which `emitGetInsCns` gives back
`cns`: inline in `_idSmallCns` when `fitsInSmallCns cns`, otherwise flagged
`idIsLargeCns` with `idcCnsVal = cns`. -/
theorem emitNewInstrSC_emitGetInsCns (b : Build) (alloc : Allocator) (attr : Nat) (cns : Int)
    (halloc : FreshAllocator alloc) (hw : 1 ≤ b.cnsvalBits)
    (hcns : -(2 : Int) ^ (b.cnsvalBits - 1) ≤ cns ∧ cns ≤ (2 : Int) ^ (b.cnsvalBits - 1) - 1) :
    (∃ id, emitNewInstrSC b alloc attr cns = some id ∧ emitGetInsCns id = cns ∧
      (if fitsInSmallCns b cns then idIsLargeCns id = false ∧ id._idSmallCns = cns
       else idIsLargeCns id = true ∧ id.idcCnsVal = cns)) ∧
    (∃ id, emitNewInstrCns b alloc attr cns = some id ∧ emitGetInsCns id = cns ∧
      (if fitsInSmallCns b cns then idIsLargeCns id = false ∧ id._idSmallCns = cns
       else idIsLargeCns id = true ∧ id.idcCnsVal = cns)) := by
  have hrt := toSigned_toUnsigned b.cnsvalBits hw cns hcns
  by_cases hf : fitsInSmallCns b cns = true
  · have h8 := halloc SMALL_IDSC_SIZE attr
    have hd := halloc b.sizeofInstrDesc attr
    constructor
    · refine ⟨_, by simp only [emitNewInstrSC, hf, if_true]; exact idSmallCnsSet_of_fits b _ cns hf, ?_, ?_⟩
      · simp [emitGetInsCns, idIsLargeCns, idIsCall, idSmallCns, emitNewInstrSmall,
          idSetIsSmallDsc, h8.2.2.1]
      · simp [hf, idIsLargeCns, emitNewInstrSmall, idSetIsSmallDsc, h8.2.2.1]
    · refine ⟨_, by simp only [emitNewInstrCns, hf, if_true]; exact idSmallCnsSet_of_fits b _ cns hf, ?_, ?_⟩
      · simp [emitGetInsCns, idIsLargeCns, idIsCall, idSmallCns, emitAllocInstr, hd.2.2.1]
      · simp [hf, idIsLargeCns, emitAllocInstr, hd.2.2.1]
  · have hc := halloc b.sizeofInstrDescCns attr
    constructor
    · refine ⟨_, by simp only [emitNewInstrSC, hf]; rfl, ?_, ?_⟩
      · simp [emitGetInsCns, idIsLargeCns, idIsCall, emitAllocInstrCns, emitAllocInstrCns0,
          idSetIsLargeCns, hc.2.2.2.2, hrt]
      · simp [hf, idIsLargeCns, idIsCall, emitAllocInstrCns, emitAllocInstrCns0,
          idSetIsLargeCns, hc.2.2.2.2, hrt]
    · refine ⟨_, by simp only [emitNewInstrCns, hf]; rfl, ?_, ?_⟩
      · simp [emitGetInsCns, idIsLargeCns, idIsCall, emitAllocInstrCns, emitAllocInstrCns0,
          idSetIsLargeCns, hc.2.2.2.2, hrt]
      · simp [hf, idIsLargeCns, idIsCall, emitAllocInstrCns, emitAllocInstrCns0,
          idSetIsLargeCns, hc.2.2.2.2, hrt]

/-- Claim C3: `emitNewInstrSC` returns a small descriptor exactly when the
constant fits (`SMALL_IDSC_SIZE` bytes then, `sizeof(instrDescCns)` bytes
otherwise), and `emitNewInstrCns` never returns a small descriptor (it
allocates `sizeof(instrDesc)` bytes when the constant fits and
`sizeof(instrDescCns)` bytes otherwise). -/
theorem emitNewInstrSC_small_iff_fits (b : Build) (alloc : Allocator) (attr : Nat) (cns : Int)
    (halloc : FreshAllocator alloc) :
    (∃ id, emitNewInstrSC b alloc attr cns = some id ∧
      (idIsSmallDsc id = true ↔ fitsInSmallCns b cns = true) ∧
      id.allocSize = (if fitsInSmallCns b cns then SMALL_IDSC_SIZE else b.sizeofInstrDescCns)) ∧
    (∃ id, emitNewInstrCns b alloc attr cns = some id ∧ idIsSmallDsc id = false ∧
      id.allocSize = (if fitsInSmallCns b cns then b.sizeofInstrDesc
        else b.sizeofInstrDescCns)) := by
  by_cases hf : fitsInSmallCns b cns = true
  · have h8 := halloc SMALL_IDSC_SIZE attr
    have hd := halloc b.sizeofInstrDesc attr
    constructor
    · refine ⟨_, by simp only [emitNewInstrSC, hf, if_true]; exact idSmallCnsSet_of_fits b _ cns hf, ?_, ?_⟩
      · simp [hf, idIsSmallDsc, emitNewInstrSmall, idSetIsSmallDsc]
      · simp [hf, emitNewInstrSmall, idSetIsSmallDsc, h8.1]
    · refine ⟨_, by simp only [emitNewInstrCns, hf, if_true]; exact idSmallCnsSet_of_fits b _ cns hf, ?_, ?_⟩
      · simp [idIsSmallDsc, emitAllocInstr, hd.2.1]
      · simp [hf, emitAllocInstr, hd.1]
  · have hc := halloc b.sizeofInstrDescCns attr
    constructor
    · refine ⟨_, by simp only [emitNewInstrSC, hf]; rfl, ?_, ?_⟩
      · simp [hf, idIsSmallDsc, emitAllocInstrCns, emitAllocInstrCns0, idSetIsLargeCns, hc.2.1]
      · simp [hf, emitAllocInstrCns, emitAllocInstrCns0, idSetIsLargeCns, hc.1]
    · refine ⟨_, by simp only [emitNewInstrCns, hf]; rfl, ?_, ?_⟩
      · simp [idIsSmallDsc, emitAllocInstrCns, emitAllocInstrCns0, idSetIsLargeCns, hc.2.1]
      · simp [hf, emitAllocInstrCns, emitAllocInstrCns0, idSetIsLargeCns, hc.1]

/-- Claim C5: `emitGetInsDsp (emitNewInstrDsp attr dsp) = dsp`; the descriptor is
flagged `idIsLargeDsp` exactly when `dsp ≠ 0`; a zero displacement takes
`sizeof(instrDesc)` bytes, a non-zero one `sizeof(instrDescDsp)` bytes with
`iddDspVal = dsp`. -/
theorem emitNewInstrDsp_emitGetInsDsp (b : Build) (alloc : Allocator) (attr : Nat) (dsp : Int)
    (halloc : FreshAllocator alloc) :
    emitGetInsDsp (emitNewInstrDsp b alloc attr dsp) = dsp ∧
    (idIsLargeDsp (emitNewInstrDsp b alloc attr dsp) = true ↔ dsp ≠ 0) ∧
    (emitNewInstrDsp b alloc attr dsp).allocSize =
      (if dsp = 0 then b.sizeofInstrDesc else b.sizeofInstrDescDsp) ∧
    (dsp ≠ 0 → (emitNewInstrDsp b alloc attr dsp).iddDspVal = dsp) := by
  have hd := halloc b.sizeofInstrDesc attr
  have hp := halloc b.sizeofInstrDescDsp attr
  by_cases h0 : dsp = 0
  · subst h0
    simp [emitNewInstrDsp, emitGetInsDsp, idIsLargeDsp, emitAllocInstr, hd.1, hd.2.2.2.1]
  · simp [emitNewInstrDsp, emitGetInsDsp, idIsLargeDsp, idIsLargeCns, idIsCall, emitAllocInstrDsp,
      idSetIsLargeDsp, h0, hp.1, hp.2.2.1]

theorem and_NOGCINTERRUPT_eq_iff (a c : Nat) :
    (a &&& IGF_NOGCINTERRUPT = c &&& IGF_NOGCINTERRUPT) ↔
      ((a &&& IGF_NOGCINTERRUPT != 0) = (c &&& IGF_NOGCINTERRUPT != 0)) := by
  have ha := Nat.and_two_pow a 5
  have hc := Nat.and_two_pow c 5
  have e5 : IGF_NOGCINTERRUPT = 2 ^ 5 := by decide
  rw [e5, ha, hc]
  cases a.testBit 5 <;> cases c.testBit 5 <;> decide

theorem isInsIGSafeForPeepholeOptimization_eq_true_iff (e : emitter) (prevInsIG curInsIG : Nat) :
    isInsIGSafeForPeepholeOptimization e prevInsIG curInsIG = true ↔
      prevInsIG = curInsIG ∨
        ((e.groups curInsIG).hasFlag IGF_EXTEND = true ∧
          (e.groups prevInsIG).hasFlag IGF_NOGCINTERRUPT =
            (e.groups curInsIG).hasFlag IGF_NOGCINTERRUPT) := by
  unfold isInsIGSafeForPeepholeOptimization insGroup.hasFlag
  by_cases h : prevInsIG = curInsIG
  · simp [h]
  · simp only [beq_iff_eq, h, if_false, false_or, Bool.and_eq_true, ← and_NOGCINTERRUPT_eq_iff]

/-- Claim C6: `isInsIGSafeForPeepholeOptimization prevInsIG curInsIG` is true
exactly when the two groups are the same, or `curInsIG` has `IGF_EXTEND` and
both groups agree on `IGF_NOGCINTERRUPT`; across two different groups it is
false when the no-interrupt status differs and false when `curInsIG` is not an
extension group. -/
theorem isInsIGSafeForPeepholeOptimization_iff (e : emitter) (prevInsIG curInsIG : Nat) :
    (isInsIGSafeForPeepholeOptimization e prevInsIG curInsIG = true ↔
      prevInsIG = curInsIG ∨
        ((e.groups curInsIG).hasFlag IGF_EXTEND = true ∧
          (e.groups prevInsIG).hasFlag IGF_NOGCINTERRUPT =
            (e.groups curInsIG).hasFlag IGF_NOGCINTERRUPT)) ∧
    (prevInsIG ≠ curInsIG →
      (e.groups prevInsIG).hasFlag IGF_NOGCINTERRUPT ≠
        (e.groups curInsIG).hasFlag IGF_NOGCINTERRUPT →
      isInsIGSafeForPeepholeOptimization e prevInsIG curInsIG = false) ∧
    (prevInsIG ≠ curInsIG → (e.groups curInsIG).hasFlag IGF_EXTEND = false →
      isInsIGSafeForPeepholeOptimization e prevInsIG curInsIG = false) := by
  have key := isInsIGSafeForPeepholeOptimization_eq_true_iff e prevInsIG curInsIG
  refine ⟨key, ?_, ?_⟩
  · intro hne hbit
    cases hs : isInsIGSafeForPeepholeOptimization e prevInsIG curInsIG
    · rfl
    · rcases key.1 hs with h | h
      · exact absurd h hne
      · exact absurd h.2 hbit
  · intro hne hext
    cases hs : isInsIGSafeForPeepholeOptimization e prevInsIG curInsIG
    · rfl
    · rcases key.1 hs with h | h
      · exact absurd h hne
      · rw [hext] at h
        exact Bool.noConfusion h.1

/-- Claim C7: in a state where `emitLastIns` is non-null exactly when
`emitLastInsIG` is, `emitCanPeepholeLastIns` returns false when there is no
last instruction, false when `emitForceNewIG` is set, and otherwise the value
of `isInsIGSafeForPeepholeOptimization emitLastInsIG emitCurIG`. -/
theorem emitCanPeepholeLastIns_spec (b : Build) (e : emitter)
    (hcons : e.emitLastIns ≠ 0 ↔ e.emitLastInsIG ≠ 0) :
    (e.emitLastIns = 0 → emitCanPeepholeLastIns b e = some false) ∧
    (e.emitForceNewIG = true → emitCanPeepholeLastIns b e = some false) ∧
    (e.emitLastIns ≠ 0 → e.emitForceNewIG = false →
      emitCanPeepholeLastIns b e =
        some (isInsIGSafeForPeepholeOptimization e e.emitLastInsIG e.emitCurIG)) := by
  have hb : (emitHasLastIns e == (e.emitLastInsIG != 0)) = true := by
    unfold emitHasLastIns
    by_cases h : e.emitLastIns = 0
    · have h2 : e.emitLastInsIG = 0 := by
        by_contra hc
        exact (hcons.2 hc) h
      simp [h, h2]
    · have h2 : e.emitLastInsIG ≠ 0 := hcons.1 h
      have h3 : (e.emitLastIns != 0) = true := by simpa using h
      have h4 : (e.emitLastInsIG != 0) = true := by simpa using h2
      rw [h3, h4]
      rfl
  have hassert : jitAssert b (emitHasLastIns e == (e.emitLastInsIG != 0)) = some () := by
    rw [hb]
    simp [jitAssert]
  unfold emitCanPeepholeLastIns
  rw [hassert]
  refine ⟨?_, ?_, ?_⟩
  · intro h
    simp [emitHasLastIns, h]
  · intro h
    simp [h]
  · intro h hf
    simp [emitHasLastIns, h, hf]

/-- One step of the loop: it visits nothing (assertion), or visits the current
record and stops, or visits it and goes on from the record `emitPrevID` gives. -/
theorem peepholeLoop_step {τ : Type} (b : Build) (e : emitter)
    (prev : Nat → Nat → Bool × Nat × Nat) (action : τ → Nat → emitPeepholeResult × τ)
    (n ig id : Nat) (s : τ) :
    (peepholeLoop b e prev action (n + 1) ig id s).visits = [] ∨
    ((peepholeLoop b e prev action (n + 1) ig id s).visits =
        [⟨ig, id, emitPeepholeResult.PEEPHOLE_ABORT⟩]) ∨
    ((peepholeLoop b e prev action (n + 1) ig id s).visits =
        [⟨ig, id, emitPeepholeResult.PEEPHOLE_CONTINUE⟩] ∧
      ((prev ig id).1 = false ∨
        isInsIGSafeForPeepholeOptimization e (prev ig id).2.1 ig = false)) ∨
    (∃ s1, (prev ig id).1 = true ∧
      isInsIGSafeForPeepholeOptimization e (prev ig id).2.1 ig = true ∧
      (peepholeLoop b e prev action (n + 1) ig id s).visits =
        ⟨ig, id, emitPeepholeResult.PEEPHOLE_CONTINUE⟩ ::
          (peepholeLoop b e prev action n (prev ig id).2.1 (prev ig id).2.2 s1).visits) := by
  simp only [peepholeLoop]
  cases hA : jitAssert b (id != 0) with
  | none => left; rfl
  | some u =>
    rcases hact : action s id with ⟨res, s1⟩
    cases res with
    | PEEPHOLE_ABORT => right; left; simp [hact]
    | PEEPHOLE_CONTINUE =>
      rcases hp : prev ig id with ⟨ok, ig1, id1⟩
      cases ok with
      | false => right; right; left; simp [hact, hp]
      | true =>
        by_cases hs : isInsIGSafeForPeepholeOptimization e ig1 ig = true
        · right; right; right
          exact ⟨s1, by simp [hact, hp, hs]⟩
        · right; right; left
          simp [hact, hp, hs]

theorem singleton_split {α : Type} {x v : α} {pre post : List α} (h : [x] = pre ++ v :: post) :
    pre = [] ∧ v = x ∧ post = [] := by
  cases pre with
  | nil =>
    simp only [List.nil_append, List.cons.injEq] at h
    exact ⟨rfl, h.1.symm, h.2.symm⟩
  | cons p pre1 =>
    simp only [List.cons_append, List.cons.injEq] at h
    have := h.2
    cases pre1 <;> simp at this

theorem cons_split {α : Type} {x v : α} {l pre post : List α} (h : x :: l = pre ++ v :: post) :
    (pre = [] ∧ v = x ∧ post = l) ∨ ∃ pre1, pre = x :: pre1 ∧ l = pre1 ++ v :: post := by
  cases pre with
  | nil =>
    simp only [List.nil_append, List.cons.injEq] at h
    exact Or.inl ⟨rfl, h.1.symm, h.2.symm⟩
  | cons p pre1 =>
    simp only [List.cons_append, List.cons.injEq] at h
    exact Or.inr ⟨pre1, by rw [h.1], h.2⟩

/-- The trace of the loop: its length, its first visit, and what holds between
a visit and whatever follows it. -/
theorem peepholeLoop_trace {τ : Type} (b : Build) (e : emitter)
    (prev : Nat → Nat → Bool × Nat × Nat) (action : τ → Nat → emitPeepholeResult × τ) :
    ∀ (n ig id : Nat) (s : τ),
      (peepholeLoop b e prev action n ig id s).visits.length ≤ n ∧
      (∀ v rest, (peepholeLoop b e prev action n ig id s).visits = v :: rest →
        v.ig = ig ∧ v.id = id) ∧
      (∀ pre v post, (peepholeLoop b e prev action n ig id s).visits = pre ++ v :: post →
        v.result = emitPeepholeResult.PEEPHOLE_ABORT → post = []) ∧
      (∀ pre v post, (peepholeLoop b e prev action n ig id s).visits = pre ++ v :: post →
        ((prev v.ig v.id).1 = false ∨
          isInsIGSafeForPeepholeOptimization e (prev v.ig v.id).2.1 v.ig = false) → post = []) ∧
      (∀ pre v w post,
        (peepholeLoop b e prev action n ig id s).visits = pre ++ v :: w :: post →
        v.result = emitPeepholeResult.PEEPHOLE_CONTINUE ∧
        prev v.ig v.id = (true, w.ig, w.id) ∧
        isInsIGSafeForPeepholeOptimization e w.ig v.ig = true) := by
  intro n
  induction n with
  | zero =>
    intro ig id s
    simp [peepholeLoop]
  | succ n ih =>
    intro ig id s
    rcases peepholeLoop_step b e prev action n ig id s with h | h | ⟨h, hstop⟩ | ⟨s1, hok, hsafe, h⟩
    · rw [h]
      simp
    · rw [h]
      refine ⟨by simp, ?_, ?_, ?_, ?_⟩
      · intro v rest hv
        simp only [List.cons.injEq] at hv
        rw [← hv.1]
        exact ⟨rfl, rfl⟩
      · intro pre v post hv _
        exact (singleton_split hv).2.2
      · intro pre v post hv _
        exact (singleton_split hv).2.2
      · intro pre v w post hv
        have := (singleton_split hv).2.2
        simp at this
    · rw [h]
      refine ⟨by simp, ?_, ?_, ?_, ?_⟩
      · intro v rest hv
        simp only [List.cons.injEq] at hv
        rw [← hv.1]
        exact ⟨rfl, rfl⟩
      · intro pre v post hv _
        exact (singleton_split hv).2.2
      · intro pre v post hv _
        exact (singleton_split hv).2.2
      · intro pre v w post hv
        have := (singleton_split hv).2.2
        simp at this
    · obtain ⟨ihlen, ihhead, ihabort, ihstop, ihchain⟩ := ih (prev ig id).2.1 (prev ig id).2.2 s1
      rw [h]
      refine ⟨by simp; exact ihlen, ?_, ?_, ?_, ?_⟩
      · intro v rest hv
        simp only [List.cons.injEq] at hv
        rw [← hv.1]
        exact ⟨rfl, rfl⟩
      · intro pre v post hv hres
        rcases cons_split hv with ⟨_, hv1, _⟩ | ⟨pre1, _, hrest⟩
        · rw [hv1] at hres
          exact emitPeepholeResult.noConfusion hres
        · exact ihabort pre1 v post hrest hres
      · intro pre v post hv hcond
        rcases cons_split hv with ⟨_, hv1, _⟩ | ⟨pre1, _, hrest⟩
        · rw [hv1] at hcond
          rcases hcond with hc | hc
          · rw [hok] at hc
            exact Bool.noConfusion hc
          · rw [hsafe] at hc
            exact Bool.noConfusion hc
        · exact ihstop pre1 v post hrest hcond
      · intro pre v w post hv
        rcases cons_split hv with ⟨_, hv1, hpost⟩ | ⟨pre1, _, hrest⟩
        · have hw := ihhead w post hpost.symm
          rw [hv1]
          refine ⟨rfl, ?_, ?_⟩
          · rw [hw.1, hw.2, ← hok]
          · rw [hw.1]
            exact hsafe
        · exact ihchain pre1 v w post hrest

/-- Claim C8: in a state where `emitCanPeepholeLastIns` holds,
`emitPeepholeIterateLastInstrs` (a total function, so it terminates for every
visitor and every `emitPrevID`, `emitGetLastIns`) invokes the visitor at most
`EMIT_MAX_PEEPHOLE_INS_COUNT = 32` times, exactly once and on `emitLastIns`
without backward navigation, and never again after the visitor has returned
`PEEPHOLE_ABORT`. -/
theorem emitPeepholeIterateLastInstrs_bounded {τ : Type} (b : Build) (e : emitter)
    (emitGetLastIns : Bool × Nat × Nat) (emitPrevID : Nat → Nat → Bool × Nat × Nat)
    (action : τ → Nat → emitPeepholeResult × τ) (s : τ)
    (hcan : emitCanPeepholeLastIns b e = some true) :
    EMIT_MAX_PEEPHOLE_INS_COUNT = 32 ∧
    (emitPeepholeIterateLastInstrs b e emitGetLastIns emitPrevID action s).visits.length ≤
      EMIT_MAX_PEEPHOLE_INS_COUNT ∧
    (b.EMIT_BACKWARDS_NAVIGATION = false →
      (emitPeepholeIterateLastInstrs b e emitGetLastIns emitPrevID action s).visits =
        [⟨e.emitLastInsIG, e.emitLastIns, (action s e.emitLastIns).1⟩]) ∧
    (∀ pre v post,
      (emitPeepholeIterateLastInstrs b e emitGetLastIns emitPrevID action s).visits =
        pre ++ v :: post →
      v.result = emitPeepholeResult.PEEPHOLE_ABORT → post = []) := by
  have hentry : (b.DEBUG && emitCanPeepholeLastIns b e != some true) = false := by
    rw [hcan]
    simp
  unfold emitPeepholeIterateLastInstrs
  rw [hentry]
  simp only [Bool.false_eq_true, if_false]
  refine ⟨rfl, ?_, ?_, ?_⟩
  · cases hnav : b.EMIT_BACKWARDS_NAVIGATION with
    | false => simp [EMIT_MAX_PEEPHOLE_INS_COUNT]
    | true =>
      rcases emitGetLastIns with ⟨ok, ig, id⟩
      cases ok with
      | false => simp
      | true =>
        simp only [if_true]
        exact (peepholeLoop_trace b e emitPrevID action _ ig id s).1
  · intro hnav
    simp [hnav]
  · intro pre v post hv hres
    cases hnav : b.EMIT_BACKWARDS_NAVIGATION with
    | false =>
      rw [hnav] at hv
      simp only [Bool.false_eq_true, if_false] at hv
      exact (singleton_split hv).2.2
    | true =>
      rw [hnav] at hv
      rcases emitGetLastIns with ⟨ok, ig, id⟩
      cases ok with
      | false => simp at hv
      | true =>
        simp only [if_true] at hv
        exact (peepholeLoop_trace b e emitPrevID action _ ig id s).2.2.1 pre v post hv hres

/-- Claim C9: with backward navigation, whenever a record `v` (in group `v.ig`)
and then a record `w` (in group `w.ig`) are visited one after the other, `w` is
what `emitPrevID` gave for `v` and
`isInsIGSafeForPeepholeOptimization w.ig v.ig` holds, that is, the two groups
are the same or `v.ig` is an `IGF_EXTEND` group with the same
`IGF_NOGCINTERRUPT` bit as `w.ig`; and a visit for which `emitPrevID` reports
no previous record, or steps into a group failing that check, is the last. -/
theorem emitPeepholeIterateLastInstrs_crossing {τ : Type} (b : Build) (e : emitter)
    (emitGetLastIns : Bool × Nat × Nat) (emitPrevID : Nat → Nat → Bool × Nat × Nat)
    (action : τ → Nat → emitPeepholeResult × τ) (s : τ)
    (hnav : b.EMIT_BACKWARDS_NAVIGATION = true) :
    (∀ pre v w post,
      (emitPeepholeIterateLastInstrs b e emitGetLastIns emitPrevID action s).visits =
        pre ++ v :: w :: post →
      emitPrevID v.ig v.id = (true, w.ig, w.id) ∧
      isInsIGSafeForPeepholeOptimization e w.ig v.ig = true ∧
      (w.ig = v.ig ∨
        ((e.groups v.ig).hasFlag IGF_EXTEND = true ∧
          (e.groups w.ig).hasFlag IGF_NOGCINTERRUPT =
            (e.groups v.ig).hasFlag IGF_NOGCINTERRUPT))) ∧
    (∀ pre v post,
      (emitPeepholeIterateLastInstrs b e emitGetLastIns emitPrevID action s).visits =
        pre ++ v :: post →
      ((emitPrevID v.ig v.id).1 = false ∨
        isInsIGSafeForPeepholeOptimization e (emitPrevID v.ig v.id).2.1 v.ig = false) →
      post = []) := by
  unfold emitPeepholeIterateLastInstrs
  rw [hnav]
  simp only [if_true]
  by_cases hentry : (b.DEBUG && emitCanPeepholeLastIns b e != some true) = true
  · rw [if_pos hentry]
    constructor
    · intro pre v w post hv
      simp at hv
    · intro pre v post hv
      simp at hv
  · rw [if_neg hentry]
    rcases emitGetLastIns with ⟨ok, ig, id⟩
    cases ok with
    | false =>
      constructor
      · intro pre v w post hv
        simp at hv
      · intro pre v post hv
        simp at hv
    | true =>
      have ht := peepholeLoop_trace b e emitPrevID action EMIT_MAX_PEEPHOLE_INS_COUNT ig id s
      constructor
      · intro pre v w post hv
        have h := ht.2.2.2.2 pre v w post hv
        exact ⟨h.2.1, h.2.2, (isInsIGSafeForPeepholeOptimization_eq_true_iff e w.ig v.ig).1 h.2.2⟩
      · intro pre v post hv hcond
        exact ht.2.2.2.1 pre v post hv hcond

theorem toUnsigned_of_lt (w n : Nat) (h : n < 2 ^ w) : toUnsigned w (n : Int) = n := by
  unfold toUnsigned
  have h2 : ((n : Int)) % (2 : Int) ^ w = (n : Int) := by
    apply Int.emod_eq_of_lt (by omega)
    exact_mod_cast h
  rw [h2]
  exact Int.toNat_ofNat n

/-- Instance of C2: the constant 1000 does not fit the 5-bit slot of the sample
build and comes back from the large-constant descriptor. -/
theorem emitNewInstrSC_emitGetInsCns_witness :
    FreshAllocator zeroedAllocator ∧
    (∃ id, emitNewInstrSC sampleBuild zeroedAllocator 4 1000 = some id ∧
      emitGetInsCns id = 1000) ∧
    (∃ id, emitNewInstrCns sampleBuild zeroedAllocator 4 1000 = some id ∧
      emitGetInsCns id = 1000) := by
  have h := emitNewInstrSC_emitGetInsCns sampleBuild zeroedAllocator 4 1000
    zeroedAllocator_fresh (by decide) (by decide)
  obtain ⟨⟨id1, h1, h2, _⟩, ⟨id2, h3, h4, _⟩⟩ := h
  exact ⟨zeroedAllocator_fresh, ⟨id1, h1, h2⟩, ⟨id2, h3, h4⟩⟩

/-- Instance of C3: the constant 3 fits, so `emitNewInstrSC` gives a small
8-byte descriptor and `emitNewInstrCns` a 16-byte one. -/
theorem emitNewInstrSC_small_iff_fits_witness :
    FreshAllocator zeroedAllocator ∧
    (∃ id, emitNewInstrSC sampleBuild zeroedAllocator 4 3 = some id ∧
      idIsSmallDsc id = true ∧ id.allocSize = 8) ∧
    (∃ id, emitNewInstrCns sampleBuild zeroedAllocator 4 3 = some id ∧
      idIsSmallDsc id = false ∧ id.allocSize = 16) := by
  have h := emitNewInstrSC_small_iff_fits sampleBuild zeroedAllocator 4 3 zeroedAllocator_fresh
  have hf : fitsInSmallCns sampleBuild 3 = true := by decide
  obtain ⟨⟨id1, h1, h2, h3⟩, ⟨id2, h4, h5, h6⟩⟩ := h
  rw [if_pos hf] at h3 h6
  exact ⟨zeroedAllocator_fresh, ⟨id1, h1, h2.2 hf, h3⟩, ⟨id2, h4, h5, h6⟩⟩

/-- Instance of C4: on the sample build (5-bit slot) 15 fits and is stored
unchanged, 16 does not fit and is not preserved by the field. -/
theorem fitsInSmallCns_exact_witness :
    fitsInSmallCns sampleBuild 15 = true ∧
    idSmallCnsSet sampleBuild {} 15 = some { _idSmallCns := 15 } ∧
    fitsInSmallCns sampleBuild 16 = false ∧
    toSigned (ID_BIT_SMALL_CNS sampleBuild) 16 ≠ 16 := by
  have hf : fitsInSmallCns sampleBuild 15 = true := by decide
  have hn : fitsInSmallCns sampleBuild 16 = false := by decide
  exact ⟨hf, ((fitsInSmallCns_exact sampleBuild 15).2.1 hf {}).1, hn,
    (fitsInSmallCns_exact sampleBuild 16).2.2 hn⟩

/-- Instance of C5: the displacement -40 is promoted and read back. -/
theorem emitNewInstrDsp_emitGetInsDsp_witness :
    FreshAllocator zeroedAllocator ∧
    emitGetInsDsp (emitNewInstrDsp sampleBuild zeroedAllocator 4 (-40)) = -40 ∧
    idIsLargeDsp (emitNewInstrDsp sampleBuild zeroedAllocator 4 (-40)) = true := by
  have h := emitNewInstrDsp_emitGetInsDsp sampleBuild zeroedAllocator 4 (-40)
    zeroedAllocator_fresh
  exact ⟨zeroedAllocator_fresh, h.1, h.2.1.2 (by decide)⟩

/-- Instance of C6: from extension group 2 one may look back into group 1 (both
in a no-interrupt region), from extension group 3 one may not. -/
theorem isInsIGSafeForPeepholeOptimization_iff_witness :
    isInsIGSafeForPeepholeOptimization sampleEmitter 1 2 = true ∧
    isInsIGSafeForPeepholeOptimization sampleEmitter 1 3 = false :=
  ⟨(isInsIGSafeForPeepholeOptimization_iff sampleEmitter 1 2).1.2
      (Or.inr ⟨by decide, by decide⟩),
    (isInsIGSafeForPeepholeOptimization_iff sampleEmitter 1 3).2.1 (by decide) (by decide)⟩

/-- Instance of C7: the sample emitter has a last instruction and no forced new
group. -/
theorem emitCanPeepholeLastIns_spec_witness :
    (sampleEmitter.emitLastIns ≠ 0 ↔ sampleEmitter.emitLastInsIG ≠ 0) ∧
    emitCanPeepholeLastIns sampleBuild sampleEmitter =
      some (isInsIGSafeForPeepholeOptimization sampleEmitter sampleEmitter.emitLastInsIG
        sampleEmitter.emitCurIG) :=
  ⟨by decide,
    (emitCanPeepholeLastIns_spec sampleBuild sampleEmitter (by decide)).2.2 (by decide) rfl⟩

/-- Instance of C8: the sample iteration stays within the bound. -/
theorem emitPeepholeIterateLastInstrs_bounded_witness :
    emitCanPeepholeLastIns sampleBuild sampleEmitter = some true ∧
    (emitPeepholeIterateLastInstrs sampleBuild sampleEmitter (true, 2, 0x5000) samplePrevID
      sampleAction 0).visits.length ≤ EMIT_MAX_PEEPHOLE_INS_COUNT :=
  ⟨by decide,
    (emitPeepholeIterateLastInstrs_bounded sampleBuild sampleEmitter (true, 2, 0x5000)
      samplePrevID sampleAction 0 (by decide)).2.1⟩

/-- Instance of C9: the sample iteration visits two records of group 2 and then
one of group 1, and the crossing from group 2 back into group 1 is a safe one. -/
theorem emitPeepholeIterateLastInstrs_crossing_witness :
    (emitPeepholeIterateLastInstrs sampleBuild sampleEmitter (true, 2, 0x5000) samplePrevID
      sampleAction 0).visits =
      [⟨2, 0x5000, emitPeepholeResult.PEEPHOLE_CONTINUE⟩,
       ⟨2, 0x4FF8, emitPeepholeResult.PEEPHOLE_CONTINUE⟩,
       ⟨1, 0x4FF0, emitPeepholeResult.PEEPHOLE_ABORT⟩] ∧
    samplePrevID 2 0x4FF8 = (true, 1, 0x4FF0) ∧
    isInsIGSafeForPeepholeOptimization sampleEmitter 1 2 = true := by
  have hv : (emitPeepholeIterateLastInstrs sampleBuild sampleEmitter (true, 2, 0x5000)
      samplePrevID sampleAction 0).visits =
      [⟨2, 0x5000, emitPeepholeResult.PEEPHOLE_CONTINUE⟩] ++
        ⟨2, 0x4FF8, emitPeepholeResult.PEEPHOLE_CONTINUE⟩ ::
        ⟨1, 0x4FF0, emitPeepholeResult.PEEPHOLE_ABORT⟩ :: [] := by decide
  have h := (emitPeepholeIterateLastInstrs_crossing sampleBuild sampleEmitter (true, 2, 0x5000)
    samplePrevID sampleAction 0 rfl).1 _ _ _ _ hv
  exact ⟨hv, h.1, h.2.1⟩

theorem jitAssert_true (b : Build) : jitAssert b true = some () := by
  simp [jitAssert]

theorem jitAssert_of_release (b : Build) (c : Bool) (h : b.DEBUG = false) :
    jitAssert b c = some () := by
  simp [jitAssert, h]

theorem jitAssert_of_debug_imp (b : Build) (c : Bool) (h : b.DEBUG = true → c = true) :
    jitAssert b c = some () := by
  cases hd : b.DEBUG with
  | false => exact jitAssert_of_release b c hd
  | true => rw [h hd]; exact jitAssert_true b

/-- Claim C11: `emitJumpCrossHotColdBoundary` returns false whenever there is no
cold code; otherwise, for two offsets below
`emitTotalHotCodeSize + emitTotalColdCodeSize` (a sum that fits `UNATIVE_OFFSET`
where the assertions are compiled in), it returns true exactly when one offset
is below `emitTotalHotCodeSize` and the other is not; the result is the same
with the arguments exchanged and is never true for equal arguments. -/
theorem emitJumpCrossHotColdBoundary_spec (b : Build) (e : emitter) (srcOffset dstOffset : Nat) :
    (e.emitTotalColdCodeSize = 0 →
      emitJumpCrossHotColdBoundary b e srcOffset dstOffset = some false) ∧
    (e.emitTotalColdCodeSize ≠ 0 →
      srcOffset < e.emitTotalHotCodeSize + e.emitTotalColdCodeSize →
      dstOffset < e.emitTotalHotCodeSize + e.emitTotalColdCodeSize →
      (b.DEBUG = true →
        e.emitTotalHotCodeSize + e.emitTotalColdCodeSize < 2 ^ UNATIVE_OFFSET_BITS) →
      (∃ r, emitJumpCrossHotColdBoundary b e srcOffset dstOffset = some r ∧
        (r = true ↔
          ((srcOffset < e.emitTotalHotCodeSize ∧ ¬ dstOffset < e.emitTotalHotCodeSize) ∨
           (¬ srcOffset < e.emitTotalHotCodeSize ∧ dstOffset < e.emitTotalHotCodeSize))) ∧
        (srcOffset = dstOffset → r = false))) ∧
    emitJumpCrossHotColdBoundary b e srcOffset dstOffset =
      emitJumpCrossHotColdBoundary b e dstOffset srcOffset ∧
    emitJumpCrossHotColdBoundary b e srcOffset srcOffset ≠ some true := by
  refine ⟨?_, ?_, ?_, ?_⟩
  · intro h
    simp [emitJumpCrossHotColdBoundary, h]
  · intro hc hs hd hdbg
    have hA : ∀ x, x < e.emitTotalHotCodeSize + e.emitTotalColdCodeSize →
        jitAssert b (decide (x <
          (e.emitTotalHotCodeSize + e.emitTotalColdCodeSize) % 2 ^ UNATIVE_OFFSET_BITS)) =
          some () := by
      intro x hx
      apply jitAssert_of_debug_imp
      intro hdb
      rw [Nat.mod_eq_of_lt (hdbg hdb)]
      simpa using hx
    refine ⟨decide (srcOffset < e.emitTotalHotCodeSize) !=
      decide (dstOffset < e.emitTotalHotCodeSize), ?_, ?_, ?_⟩
    · simp only [emitJumpCrossHotColdBoundary, beq_iff_eq, hc, if_false, hA _ hs, hA _ hd,
        Option.pure_def, Option.bind_eq_bind, Option.some_bind]
    · by_cases h1 : srcOffset < e.emitTotalHotCodeSize <;>
        by_cases h2 : dstOffset < e.emitTotalHotCodeSize <;> simp [h1, h2]
    · intro heq
      subst heq
      simp
  · unfold emitJumpCrossHotColdBoundary
    by_cases hc : (e.emitTotalColdCodeSize == 0) = true
    · simp [hc]
    · simp only [hc, if_false, Option.pure_def, Option.bind_eq_bind]
      cases h1 : jitAssert b (decide (srcOffset <
          (e.emitTotalHotCodeSize + e.emitTotalColdCodeSize) % 2 ^ UNATIVE_OFFSET_BITS)) <;>
        cases h2 : jitAssert b (decide (dstOffset <
          (e.emitTotalHotCodeSize + e.emitTotalColdCodeSize) % 2 ^ UNATIVE_OFFSET_BITS)) <;>
        simp
      cases decide (srcOffset < e.emitTotalHotCodeSize) <;>
        cases decide (dstOffset < e.emitTotalHotCodeSize) <;> rfl
  · unfold emitJumpCrossHotColdBoundary
    by_cases hc : (e.emitTotalColdCodeSize == 0) = true
    · simp [hc]
    · simp only [hc, if_false, Option.pure_def, Option.bind_eq_bind]
      cases h1 : jitAssert b (decide (srcOffset <
          (e.emitTotalHotCodeSize + e.emitTotalColdCodeSize) % 2 ^ UNATIVE_OFFSET_BITS)) <;>
        simp

/-- Instance of C11: in the sample emitter a jump from hot offset 0x10 to cold
offset 0x120 crosses the boundary, a jump between two hot offsets does not. -/
theorem emitJumpCrossHotColdBoundary_spec_witness :
    emitJumpCrossHotColdBoundary sampleBuild sampleEmitter 0x10 0x120 = some true ∧
    emitJumpCrossHotColdBoundary sampleBuild sampleEmitter 0x10 0x20 = some false := by
  obtain ⟨r, h1, h2, _⟩ := (emitJumpCrossHotColdBoundary_spec sampleBuild sampleEmitter
    0x10 0x120).2.1 (by decide) (by decide) (by decide) (fun _ => by decide)
  obtain ⟨r2, h3, h4, _⟩ := (emitJumpCrossHotColdBoundary_spec sampleBuild sampleEmitter
    0x10 0x20).2.1 (by decide) (by decide) (by decide) (fun _ => by decide)
  have hr : r = true := h2.2 (Or.inl ⟨by decide, by decide⟩)
  have hr2 : r2 = false := by
    cases r2 with
    | false => rfl
    | true =>
      rcases h4.1 rfl with h | h
      · exact absurd (show (0x20 : Nat) < sampleEmitter.emitTotalHotCodeSize by decide) h.2
      · exact absurd (show (0x10 : Nat) < sampleEmitter.emitTotalHotCodeSize by decide) h.1
  rw [h1, h3, hr, hr2]
  exact ⟨rfl, rfl⟩

/-- Bit `i` of a flag word after the two assignments of `removeAlignFlags`. -/
theorem removeAlign_testBit (f i : Nat) :
    ((((f &&& complementInt IGF_HAS_ALIGN) % 2 ^ USHORT_BITS) ||| IGF_REMOVED_ALIGN) %
        2 ^ USHORT_BITS).testBit i =
      (decide (i < 16) && ((f.testBit i && !decide (i = 9)) || decide (i = 10))) := by
  have h9 : IGF_HAS_ALIGN = 2 ^ 9 := rfl
  have h10 : IGF_REMOVED_ALIGN = 2 ^ 10 := rfl
  have h16 : USHORT_BITS = 16 := rfl
  have h32 : UNSIGNED_BITS = 32 := rfl
  simp only [complementInt, h9, h10, h16, h32, Nat.testBit_mod_two_pow, Nat.testBit_or,
    Nat.testBit_and, Nat.testBit_xor, Nat.testBit_two_pow_sub_one, Nat.testBit_two_pow]
  by_cases a : i < 16 <;> by_cases c : i = 9 <;> by_cases d : i = 10 <;>
    cases f.testBit i <;> simp [a, c, d] <;> omega

theorem and_two_pow_ne_zero_iff (f i : Nat) : (f &&& 2 ^ i != 0) = f.testBit i := by
  rw [Nat.and_two_pow]
  cases f.testBit i <;> simp

/-- Claim C12: after `removeAlignFlags()` the containing group no longer ends
with an align instruction and is marked as having had one; every other flag bit
of the 16-bit flag word keeps its value; `igNum`, `igOffs`, `igFuncIdx` and
`igSize` of the group and all other groups are unchanged; and applying
`removeAlignFlags()` twice gives the same state as applying it once. -/
theorem removeAlignFlags_spec (groups : Nat → insGroup) (ida : instrDescAlign) :
    (removeAlignFlags groups ida ida.idaIG).endsWithAlignInstr = false ∧
    (removeAlignFlags groups ida ida.idaIG).hadAlignInstr = true ∧
    (∀ i, i < USHORT_BITS → 2 ^ i ≠ IGF_HAS_ALIGN → 2 ^ i ≠ IGF_REMOVED_ALIGN →
      (removeAlignFlags groups ida ida.idaIG).igFlags.testBit i =
        (groups ida.idaIG).igFlags.testBit i) ∧
    (removeAlignFlags groups ida ida.idaIG).igNum = (groups ida.idaIG).igNum ∧
    (removeAlignFlags groups ida ida.idaIG).igOffs = (groups ida.idaIG).igOffs ∧
    (removeAlignFlags groups ida ida.idaIG).igFuncIdx = (groups ida.idaIG).igFuncIdx ∧
    (removeAlignFlags groups ida ida.idaIG).igSize = (groups ida.idaIG).igSize ∧
    (∀ p, p ≠ ida.idaIG → removeAlignFlags groups ida p = groups p) ∧
    removeAlignFlags (removeAlignFlags groups ida) ida = removeAlignFlags groups ida := by
  have hflags : (removeAlignFlags groups ida ida.idaIG).igFlags =
      ((((groups ida.idaIG).igFlags &&& complementInt IGF_HAS_ALIGN) % 2 ^ USHORT_BITS) |||
        IGF_REMOVED_ALIGN) % 2 ^ USHORT_BITS := by
    simp [removeAlignFlags]
  have h9 : IGF_HAS_ALIGN = 2 ^ 9 := rfl
  have h10 : IGF_REMOVED_ALIGN = 2 ^ 10 := rfl
  refine ⟨?_, ?_, ?_, ?_, ?_, ?_, ?_, ?_, ?_⟩
  · unfold insGroup.endsWithAlignInstr
    rw [h9, and_two_pow_ne_zero_iff, hflags, removeAlign_testBit]
    simp
  · unfold insGroup.hadAlignInstr
    rw [h10, and_two_pow_ne_zero_iff, hflags, removeAlign_testBit]
    simp
  · intro i hi hne9 hne10
    have hi16 : i < 16 := hi
    have c9 : i ≠ 9 := by
      intro h
      exact hne9 (by rw [h, h9])
    have c10 : i ≠ 10 := by
      intro h
      exact hne10 (by rw [h, h10])
    rw [hflags, removeAlign_testBit]
    simp [hi16, c9, c10]
  · simp [removeAlignFlags]
  · simp [removeAlignFlags]
  · simp [removeAlignFlags]
  · simp [removeAlignFlags]
  · intro p hp
    simp [removeAlignFlags, Function.update, hp]
  · funext p
    by_cases hp : p = ida.idaIG
    · subst hp
      have hrest : ∀ g : Nat → insGroup,
          removeAlignFlags g ida ida.idaIG =
            { g ida.idaIG with igFlags :=
                ((((g ida.idaIG).igFlags &&& complementInt IGF_HAS_ALIGN) % 2 ^ USHORT_BITS) |||
                  IGF_REMOVED_ALIGN) % 2 ^ USHORT_BITS } := by
        intro g
        simp [removeAlignFlags]
      rw [hrest (removeAlignFlags groups ida), hrest groups]
      simp only [insGroup.mk.injEq, true_and, and_true]
      apply Nat.eq_of_testBit_eq
      intro i
      rw [removeAlign_testBit, removeAlign_testBit]
      by_cases a : i < 16 <;> by_cases c : i = 9 <;> by_cases d : i = 10 <;>
        cases (groups ida.idaIG).igFlags.testBit i <;> simp [a, c, d]
    · simp [removeAlignFlags, Function.update, hp]

/-- Instance of C12: group 2 of the sample groups ends up without
`IGF_HAS_ALIGN`, with `IGF_REMOVED_ALIGN`, and keeps its `IGF_EXTEND` bit. -/
theorem removeAlignFlags_spec_witness :
    (removeAlignFlags sampleGroups ⟨0, 2, 0⟩ 2).endsWithAlignInstr = false ∧
    (removeAlignFlags sampleGroups ⟨0, 2, 0⟩ 2).hadAlignInstr = true ∧
    (removeAlignFlags sampleGroups ⟨0, 2, 0⟩ 2).igFlags.testBit 8 =
      (sampleGroups 2).igFlags.testBit 8 :=
  ⟨(removeAlignFlags_spec sampleGroups ⟨0, 2, 0⟩).1,
    (removeAlignFlags_spec sampleGroups ⟨0, 2, 0⟩).2.1,
    (removeAlignFlags_spec sampleGroups ⟨0, 2, 0⟩).2.2.1 8 (by decide) (by decide) (by decide)⟩

/-- Claim C13: for `insCount ≤ 0xFFFF` and `igSize ≤ 0xFFFF` the cookie returned
by `emitSpecifiedOffset` (both assertions hold) gives back `insCount` through
`emitGetInsNumFromCodePos` and `igSize` through `emitGetInsOfsFromCodePos`, and
another pair in that range with the same cookie is the same pair. -/
theorem emitSpecifiedOffset_roundtrip (b : Build) (insCount igSize : Nat)
    (hCount : insCount ≤ 0xFFFF) (hSize : igSize ≤ 0xFFFF) :
    (∃ codePos, emitSpecifiedOffset b insCount igSize = some codePos ∧
      emitGetInsNumFromCodePos codePos = insCount ∧
      emitGetInsOfsFromCodePos codePos = igSize) ∧
    (∀ insCount2 igSize2, insCount2 ≤ 0xFFFF → igSize2 ≤ 0xFFFF →
      emitSpecifiedOffset b insCount igSize = emitSpecifiedOffset b insCount2 igSize2 →
      insCount = insCount2 ∧ igSize = igSize2) := by
  have key : ∀ c s : Nat, c ≤ 0xFFFF → s ≤ 0xFFFF →
      emitSpecifiedOffset b c s = some (c + s * 65536) ∧
      emitGetInsNumFromCodePos (c + s * 65536) = c ∧
      emitGetInsOfsFromCodePos (c + s * 65536) = s := by
    intro c s hc hs
    have hpos : (c + (s <<< 16) % 2 ^ UNSIGNED_BITS) % 2 ^ UNSIGNED_BITS = c + s * 65536 := by
      have h32 : UNSIGNED_BITS = 32 := rfl
      rw [h32, Nat.shiftLeft_eq]
      omega
    have hnum : emitGetInsNumFromCodePos (c + s * 65536) = c := by
      unfold emitGetInsNumFromCodePos
      have : (0xFFFF : Nat) = 2 ^ 16 - 1 := by norm_num
      rw [this, Nat.and_pow_two_sub_one_eq_mod]
      omega
    have hofs : emitGetInsOfsFromCodePos (c + s * 65536) = s := by
      unfold emitGetInsOfsFromCodePos
      rw [Nat.shiftRight_eq_div_pow]
      omega
    refine ⟨?_, hnum, hofs⟩
    unfold emitSpecifiedOffset
    simp only [hpos, hnum, hofs, beq_self_eq_true, jitAssert_true, Option.pure_def,
      Option.bind_eq_bind, Option.some_bind]
  refine ⟨⟨_, key insCount igSize hCount hSize⟩, ?_⟩
  intro c2 s2 hc2 hs2 heq
  rw [(key insCount igSize hCount hSize).1, (key c2 s2 hc2 hs2).1] at heq
  have h := Option.some.inj heq
  omega

/-- Instance of C13: instruction 3 at byte 40 of its group. -/
theorem emitSpecifiedOffset_roundtrip_witness :
    ∃ codePos, emitSpecifiedOffset sampleBuild 3 40 = some codePos ∧
      emitGetInsNumFromCodePos codePos = 3 ∧ emitGetInsOfsFromCodePos codePos = 40 :=
  (emitSpecifiedOffset_roundtrip sampleBuild 3 40 (by decide) (by decide)).1

theorem and_flag_ne_zero_iff (f i : Nat) (flag : Nat) (h : flag = 2 ^ i) :
    (f &&& flag != 0) = f.testBit i := by
  rw [h]
  exact and_two_pow_ne_zero_iff f i

theorem IGF_PROPAGATE_MASK_testBit (b : Build) (i : Nat) :
    (IGF_PROPAGATE_MASK b).testBit i =
      (decide (i = 4) || decide (i = 2) || (b.DEBUG && decide (i = 3))) := by
  have h4 : IGF_EPILOG = 2 ^ 4 := rfl
  have h2 : IGF_FUNCLET_PROLOG = 2 ^ 2 := rfl
  have h3 : IGF_FUNCLET_EPILOG = 2 ^ 3 := rfl
  unfold IGF_PROPAGATE_MASK
  cases b.DEBUG <;>
    simp only [h4, h2, h3, Bool.false_eq_true, if_false, if_true, Nat.testBit_or,
      Nat.testBit_two_pow, Bool.false_and, Bool.true_and, Bool.or_false, eq_comm]

/-- Counterexample to C14 as stated: in a non-`DEBUG` build `IGF_FUNCLET_EPILOG`
is not part of `IGF_PROPAGATE_MASK`, so a successor that takes the propagated
flags of a funclet-epilog group is not in a funclet epilog. -/
theorem IGF_PROPAGATE_MASK_release_counterexample :
    sampleReleaseBuild.DEBUG = false ∧
    IGF_FUNCLET_EPILOG &&& IGF_PROPAGATE_MASK sampleReleaseBuild ≠ IGF_FUNCLET_EPILOG ∧
    (sampleFuncletEmitter.groups 2).igFlags =
      (sampleFuncletEmitter.groups 1).igFlags &&& IGF_PROPAGATE_MASK sampleReleaseBuild ∧
    emitIGisInFuncletEpilog sampleFuncletEmitter 1 = true ∧
    emitIGisInFuncletEpilog sampleFuncletEmitter 2 = false := by
  decide

/-- Claim C14, amended: `IGF_EPILOG` and `IGF_FUNCLET_PROLOG` are contained in
`IGF_PROPAGATE_MASK` in every build, `IGF_FUNCLET_EPILOG` only in a `DEBUG`
build.  So a successor whose flags are `g->igFlags & IGF_PROPAGATE_MASK`
satisfies `emitIGisInEpilog` and `emitIGisInFuncletProlog` exactly when `g`
does, and `emitIGisInFuncletEpilog` exactly when `g` does in a `DEBUG` build,
never in a non-`DEBUG` build.  No other `IGF_*` flag is in the mask. -/
theorem IGF_PROPAGATE_MASK_spec (b : Build) (e : emitter) (g succ : Nat)
    (hg : g ≠ 0) (hsucc : succ ≠ 0)
    (hflags : (e.groups succ).igFlags = (e.groups g).igFlags &&& IGF_PROPAGATE_MASK b) :
    IGF_EPILOG &&& IGF_PROPAGATE_MASK b = IGF_EPILOG ∧
    IGF_FUNCLET_PROLOG &&& IGF_PROPAGATE_MASK b = IGF_FUNCLET_PROLOG ∧
    IGF_FUNCLET_EPILOG &&& IGF_PROPAGATE_MASK b =
      (if b.DEBUG then IGF_FUNCLET_EPILOG else 0) ∧
    emitIGisInEpilog e succ = emitIGisInEpilog e g ∧
    emitIGisInFuncletProlog e succ = emitIGisInFuncletProlog e g ∧
    emitIGisInFuncletEpilog e succ = (b.DEBUG && emitIGisInFuncletEpilog e g) ∧
    (∀ flag ∈ [IGF_GC_VARS, IGF_BYREF_REGS, IGF_NOGCINTERRUPT, IGF_UPD_ISZ, IGF_PLACEHOLDER,
        IGF_EXTEND, IGF_HAS_ALIGN, IGF_REMOVED_ALIGN, IGF_HAS_REMOVABLE_JMP,
        IGF_HAS_REMOVED_INSTR], flag &&& IGF_PROPAGATE_MASK b = 0) := by
  have hg1 : (g != 0) = true := by simpa using hg
  have hs1 : (succ != 0) = true := by simpa using hsucc
  have h4 : IGF_EPILOG = 2 ^ 4 := rfl
  have h2 : IGF_FUNCLET_PROLOG = 2 ^ 2 := rfl
  have h3 : IGF_FUNCLET_EPILOG = 2 ^ 3 := rfl
  refine ⟨?_, ?_, ?_, ?_, ?_, ?_, ?_⟩
  · unfold IGF_PROPAGATE_MASK
    cases b.DEBUG <;> decide
  · unfold IGF_PROPAGATE_MASK
    cases b.DEBUG <;> decide
  · unfold IGF_PROPAGATE_MASK
    cases b.DEBUG <;> decide
  · unfold emitIGisInEpilog
    rw [hg1, hs1, hflags, and_flag_ne_zero_iff _ 4 _ h4, and_flag_ne_zero_iff _ 4 _ h4,
      Nat.testBit_and, IGF_PROPAGATE_MASK_testBit]
    simp
  · unfold emitIGisInFuncletProlog
    rw [hg1, hs1, hflags, and_flag_ne_zero_iff _ 2 _ h2, and_flag_ne_zero_iff _ 2 _ h2,
      Nat.testBit_and, IGF_PROPAGATE_MASK_testBit]
    simp
  · unfold emitIGisInFuncletEpilog
    rw [hg1, hs1, hflags, and_flag_ne_zero_iff _ 3 _ h3, and_flag_ne_zero_iff _ 3 _ h3,
      Nat.testBit_and, IGF_PROPAGATE_MASK_testBit]
    cases b.DEBUG <;> simp
  · intro flag hmem
    unfold IGF_PROPAGATE_MASK
    simp only [List.mem_cons, List.mem_singleton, List.not_mem_nil, or_false] at hmem
    rcases hmem with h | h | h | h | h | h | h | h | h | h <;> subst h <;>
      cases b.DEBUG <;> decide

/-- Instance of C14 (amended): a `DEBUG` build, where the epilog and funclet
epilog flags of group 1 reach its successor, group 2. -/
theorem IGF_PROPAGATE_MASK_spec_witness :
    (sampleEpilogEmitter.groups 2).igFlags =
      (sampleEpilogEmitter.groups 1).igFlags &&& IGF_PROPAGATE_MASK sampleBuild ∧
    emitIGisInEpilog sampleEpilogEmitter 2 = true ∧
    emitIGisInFuncletEpilog sampleEpilogEmitter 2 = true := by
  have h := IGF_PROPAGATE_MASK_spec sampleBuild sampleEpilogEmitter 1 2 (by decide) (by decide)
    (by decide)
  refine ⟨by decide, ?_, ?_⟩
  · rw [h.2.2.2.1]
    decide
  · rw [h.2.2.2.2.2.1]
    decide

theorem OPSZ_COUNT_le (b : Build) : OPSZ_COUNT b ≤ 7 := by
  obtain ⟨t, h64, nav, dbg, cb, tb, s1, s2, s3⟩ := b
  cases t <;> simp [OPSZ_COUNT, TARGET_XARCH]

theorem OPSZ_COUNT_fits_unless_arm (b : Build) (h : b.target ≠ Target.arm) :
    OPSZ_COUNT b ≤ 2 ^ ID_OPSIZE_BITS b := by
  obtain ⟨t, h64, nav, dbg, cb, tb, s1, s2, s3⟩ := b
  cases t <;> simp [OPSZ_COUNT, ID_OPSIZE_BITS, TARGET_XARCH] at h ⊢

theorem genLog2_two_pow (k : Nat) : genLog2 (2 ^ k) = k := by
  unfold genLog2
  exact Nat.log2_two_pow

/-- Counterexample to C15 as stated: on arm the size 16 (log2 = 4, below
`OPSZ_COUNT = 5`) does not fit the 2-bit field `_idOpSize`; after `idOpSize(16)`
the getter returns 1. -/
theorem idOpSize_arm_counterexample :
    sampleArmBuild.target = Target.arm ∧
    genLog2 16 = 4 ∧ 4 < OPSZ_COUNT sampleArmBuild ∧
    ID_OPSIZE_BITS sampleArmBuild = 2 ∧
    (idOpSizeSet sampleArmBuild 0x7F {} 16).bind (idOpSize sampleArmBuild powerOfTwoSizeDecode) =
      some 1 := by
  have h : genLog2 16 = 4 := genLog2_two_pow 4
  refine ⟨rfl, h, by decide, by decide, ?_⟩
  simp only [idOpSizeSet, emitEncodeSize, h, Option.pure_def, Option.bind_eq_bind]
  decide

/-- Claim C15, amended: with `emitSizeDecode[i] = 2^i`, for every size `2^k` with
`k < OPSZ_COUNT` (and within `EA_SIZE_MASK` where the assertion is compiled in)
`emitDecodeSize (emitEncodeSize (2^k)) = 2^k`; the header pair `idOpSize(2^k)`,
`idOpSize()` returns `2^k` whenever `k` fits the `_idOpSize` bit-field, which is
every such `k` on x86, amd64, arm64, loongarch64 and riscv64 (3 bits) and
`k ≤ 3`, the sizes 1, 2, 4, 8, on arm (2 bits). -/
theorem idOpSize_roundtrip (b : Build) (emitSizeDecode : Nat → Nat) (EA_SIZE_MASK : Nat)
    (id : instrDesc) (k : Nat)
    (htable : ∀ i, i < OPSZ_COUNT b → emitSizeDecode i = 2 ^ i)
    (hk : k < OPSZ_COUNT b)
    (hmask : b.DEBUG = true → 2 ^ k &&& EA_SIZE_MASK = 2 ^ k) :
    (emitEncodeSize b EA_SIZE_MASK (2 ^ k)).bind (emitDecodeSize b emitSizeDecode) =
      some (2 ^ k) ∧
    (k < 2 ^ ID_OPSIZE_BITS b →
      (idOpSizeSet b EA_SIZE_MASK id (2 ^ k)).bind (idOpSize b emitSizeDecode) = some (2 ^ k)) ∧
    (b.target ≠ Target.arm → k < 2 ^ ID_OPSIZE_BITS b) ∧
    (b.target = Target.arm → (k < 2 ^ ID_OPSIZE_BITS b ↔ k ≤ 3)) := by
  have hpos : (2 : Nat) ^ k ≠ 0 := by positivity
  have hA1 : jitAssert b ((2 ^ k != EA_UNKNOWN) && (2 ^ k &&& EA_SIZE_MASK == 2 ^ k)) =
      some () := by
    apply jitAssert_of_debug_imp
    intro hd
    have h1 : (2 ^ k != EA_UNKNOWN) = true := by
      simp [EA_UNKNOWN]
    rw [h1, hmask hd]
    simp
  have hA2 : jitAssert b (decide (k < OPSZ_COUNT b)) = some () := by
    apply jitAssert_of_debug_imp
    intro _
    simp [hk]
  have henc : emitEncodeSize b EA_SIZE_MASK (2 ^ k) = some k := by
    simp only [emitEncodeSize, hA1, genLog2_two_pow, Option.pure_def, Option.bind_eq_bind,
      Option.some_bind]
  have hdec : emitDecodeSize b emitSizeDecode k = some (2 ^ k) := by
    simp only [emitDecodeSize, hA2, htable k hk, Option.pure_def, Option.bind_eq_bind,
      Option.some_bind]
  refine ⟨?_, ?_, ?_, ?_⟩
  · rw [henc, Option.some_bind, hdec]
  · intro hfit
    simp only [idOpSizeSet, henc, Option.pure_def, Option.bind_eq_bind, Option.some_bind,
      idOpSize, Nat.mod_eq_of_lt hfit, hdec]
  · intro harm
    exact lt_of_lt_of_le hk (OPSZ_COUNT_fits_unless_arm b harm)
  · intro harm
    have hbits : ID_OPSIZE_BITS b = 2 := by
      obtain ⟨t, h64, nav, dbg, cb, tb, s1, s2, s3⟩ := b
      simp only at harm
      subst harm
      simp [ID_OPSIZE_BITS, TARGET_XARCH]
    rw [hbits]
    omega

/-- Instance of C15 (amended): size 8 on the arm build, size 64 on the amd64
build. -/
theorem idOpSize_roundtrip_witness :
    (idOpSizeSet sampleArmBuild 0x7F {} 8).bind (idOpSize sampleArmBuild powerOfTwoSizeDecode) =
      some 8 ∧
    (idOpSizeSet sampleBuild 0x7F {} 64).bind (idOpSize sampleBuild powerOfTwoSizeDecode) =
      some 64 :=
  ⟨(idOpSize_roundtrip sampleArmBuild powerOfTwoSizeDecode 0x7F {} 3 (fun _ _ => rfl)
      (by decide) (fun _ => by decide)).2.1 (by decide),
    (idOpSize_roundtrip sampleBuild powerOfTwoSizeDecode 0x7F {} 6 (fun _ _ => rfl)
      (by decide) (fun _ => by decide)).2.1 (by decide)⟩

theorem toUnsigned_cast (w : Nat) (v : Int) :
    ((toUnsigned w v : Nat) : Int) = v % (2 : Int) ^ w := by
  unfold toUnsigned
  exact Int.toNat_of_nonneg (Int.emod_nonneg _ (by positivity))

theorem toUnsigned_emod (w : Nat) (v c : Int) :
    toUnsigned w (((toUnsigned w v : Nat) : Int) + c) = toUnsigned w (v + c) := by
  rw [toUnsigned_cast]
  unfold toUnsigned
  rw [Int.emod_add_emod]

theorem stackLvlStep_eq (lvl : Nat) (ev : StackEvent) :
    stackLvlStep lvl ev = toUnsigned UNSIGNED_BITS ((lvl : Int) + ev.delta) := by
  cases ev with
  | push amount => rfl
  | pop amount =>
    show toUnsigned UNSIGNED_BITS ((lvl : Int) - amount) =
      toUnsigned UNSIGNED_BITS ((lvl : Int) + -(amount : Int))
    rw [Int.sub_eq_add_neg]

theorem toUnsigned_lt (w : Nat) (v : Int) : toUnsigned w v < 2 ^ w := by
  have h := toUnsigned_cast w v
  have h2 : v % (2 : Int) ^ w < (2 : Int) ^ w := Int.emod_lt_of_pos _ (by positivity)
  have h3 : ((toUnsigned w v : Nat) : Int) < ((2 ^ w : Nat) : Int) := by
    rw [h]
    exact_mod_cast h2
  exact_mod_cast h3

/-- The counter after a sequence of events is the mathematical depth reduced
modulo `2^32`. -/
theorem stackLvlRun_eq (events : List StackEvent) :
    ∀ lvl : Nat, lvl < 2 ^ UNSIGNED_BITS → stackLvlRun lvl events =
      toUnsigned UNSIGNED_BITS ((lvl : Int) + netDepth events) := by
  induction events with
  | nil =>
    intro lvl hlvl
    simp only [stackLvlRun, List.foldl_nil, netDepth, List.map_nil, List.sum_nil, add_zero]
    exact (toUnsigned_of_lt _ _ hlvl).symm
  | cons ev rest ih =>
    intro lvl _
    have hrun : stackLvlRun lvl (ev :: rest) = stackLvlRun (stackLvlStep lvl ev) rest := rfl
    have hstep : stackLvlStep lvl ev < 2 ^ UNSIGNED_BITS := by
      rw [stackLvlStep_eq]
      exact toUnsigned_lt _ _
    rw [hrun, ih _ hstep, stackLvlStep_eq, toUnsigned_emod]
    have hnet : netDepth (ev :: rest) = ev.delta + netDepth rest := by
      simp [netDepth]
    rw [hnet, add_assoc]

theorem stackLvlNonNegative_iff (lvl : Nat) (h : lvl < 2 ^ UNSIGNED_BITS) :
    stackLvlNonNegative lvl = true ↔ lvl < 2 ^ 31 := by
  have h32 : UNSIGNED_BITS = 32 := rfl
  rw [h32] at h
  unfold stackLvlNonNegative toSigned
  rw [h32]
  simp only [decide_eq_true_eq, ge_iff_le]
  norm_num
  omega

/-- Claim C16: on the 32-bit counter the condition asserted by
`CHECK_STACK_DEPTH`, `(int)emitCurStackLvl >= 0`, holds exactly when the counter
is below `2^31`; popping `k` from a depth `d < 2^31` with `d < k ≤ d + 2^31`
leaves a wrapped counter that fails the check (the assertion fires in a `DEBUG`
build that tracks the stack depth); and as long as the pops never exceed the
pushes and the depth stays below `2^31`, the counter is the depth and passes
the check at every point. -/
theorem CHECK_STACK_DEPTH_spec :
    (∀ lvl, lvl < 2 ^ UNSIGNED_BITS → (stackLvlNonNegative lvl = true ↔ lvl < 2 ^ 31)) ∧
    (∀ (b : Build) (lvl : Nat), lvl < 2 ^ UNSIGNED_BITS → b.DEBUG = true →
      (CHECK_STACK_DEPTH b true lvl = some () ↔ lvl < 2 ^ 31)) ∧
    (∀ d k, d < 2 ^ 31 → d < k → k ≤ d + 2 ^ 31 →
      stackLvlNonNegative (stackLvlStep d (StackEvent.pop k)) = false ∧
      ∀ b : Build, b.DEBUG = true →
        CHECK_STACK_DEPTH b true (stackLvlStep d (StackEvent.pop k)) = none) ∧
    (∀ events : List StackEvent,
      (∀ done rest, events = done ++ rest → 0 ≤ netDepth done ∧ netDepth done < 2 ^ 31) →
      ∀ done rest, events = done ++ rest →
        ((stackLvlRun 0 done : Nat) : Int) = netDepth done ∧
        stackLvlNonNegative (stackLvlRun 0 done) = true ∧
        ∀ b : Build, CHECK_STACK_DEPTH b true (stackLvlRun 0 done) = some ()) := by
  have h32 : UNSIGNED_BITS = 32 := rfl
  refine ⟨stackLvlNonNegative_iff, ?_, ?_, ?_⟩
  · intro b lvl hlvl hd
    rw [← stackLvlNonNegative_iff lvl hlvl]
    unfold CHECK_STACK_DEPTH jitAssert
    cases stackLvlNonNegative lvl <;> simp [hd]
  · intro d k hd hdk hk
    have hval : stackLvlStep d (StackEvent.pop k) = 2 ^ 32 - (k - d) := by
      show toUnsigned UNSIGNED_BITS ((d : Int) - k) = 2 ^ 32 - (k - d)
      unfold toUnsigned
      rw [h32]
      have : ((d : Int) - k) % (2 : Int) ^ 32 = ((2 ^ 32 - (k - d) : Nat) : Int) := by
        norm_num
        omega
      rw [this]
      exact Int.toNat_ofNat _
    have hlt : stackLvlStep d (StackEvent.pop k) < 2 ^ UNSIGNED_BITS := by
      rw [hval, h32]
      omega
    have hfalse : stackLvlNonNegative (stackLvlStep d (StackEvent.pop k)) = false := by
      cases hc : stackLvlNonNegative (stackLvlStep d (StackEvent.pop k)) with
      | false => rfl
      | true =>
        have := (stackLvlNonNegative_iff _ hlt).1 hc
        rw [hval] at this
        omega
    refine ⟨hfalse, ?_⟩
    intro b hdb
    simp [CHECK_STACK_DEPTH, jitAssert, hfalse, hdb]
  · intro events hall done rest hsplit
    obtain ⟨h0, h1⟩ := hall done rest hsplit
    have hrun := stackLvlRun_eq done 0 (by positivity)
    have hcast : ((stackLvlRun 0 done : Nat) : Int) = netDepth done := by
      rw [hrun, toUnsigned_cast, h32]
      simp only [Nat.cast_zero, zero_add]
      exact Int.emod_eq_of_lt h0 (by omega)
    have hlt : stackLvlRun 0 done < 2 ^ 31 := by
      have : ((stackLvlRun 0 done : Nat) : Int) < 2 ^ 31 := by
        rw [hcast]
        exact h1
      exact_mod_cast this
    have hnn : stackLvlNonNegative (stackLvlRun 0 done) = true :=
      (stackLvlNonNegative_iff _ (by rw [h32]; omega)).2 hlt
    refine ⟨hcast, hnn, ?_⟩
    intro b
    simp [CHECK_STACK_DEPTH, hnn, jitAssert_true]

/-- Instance of C16: after pushing 8 and popping 12 the counter has wrapped and
the check fails; after pushing 8 and popping 8 it passes. -/
theorem CHECK_STACK_DEPTH_spec_witness :
    stackLvlNonNegative (stackLvlStep 8 (StackEvent.pop 12)) = false ∧
    stackLvlNonNegative (stackLvlRun 0 [StackEvent.push 8, StackEvent.pop 8]) = true :=
  ⟨(CHECK_STACK_DEPTH_spec.2.2.1 8 12 (by decide) (by decide) (by decide)).1,
    (CHECK_STACK_DEPTH_spec.2.2.2 [StackEvent.push 8, StackEvent.pop 8]
      (by
        intro done rest h
        have hlen : done.length ≤ 2 := by
          have := congrArg List.length h
          simp at this
          omega
        match done, hlen with
        | [], _ => decide
        | [a], _ =>
          simp only [List.singleton_append, List.cons.injEq] at h
          rw [← h.1]
          decide
        | [a, c], _ =>
          simp only [List.cons_append, List.cons.injEq] at h
          rw [← h.1, ← h.2.1]
          decide)
      [StackEvent.push 8, StackEvent.pop 8] [] rfl).2.1⟩

/-! ## Statements about the parts modelled from the specification -/

theorem usedBytes_length (s : igBuffer) :
    (usedBytes s).length = s.emitCurIGfreeNext - s.emitCurIGfreeBase := by
  simp [usedBytes]

theorem flush_of_empty (s : igBuffer) (h : emitCurIGnonEmpty s = false) : flush s = s := by
  simp [flush, h]

/-- Claim C20: `emitCurIGnonEmpty()` is false exactly when there is no current
group or `emitCurIGfreeNext` is not beyond `emitCurIGfreeBase`; in that case a
flush leaves the buffer state and the list of saved groups unchanged.  No flush
ever adds a zero-length group, and a second flush right after a flush changes
nothing. -/
theorem flush_empty_noop (s : igBuffer) (hempty : emitCurIGnonEmpty s = false) :
    (s.emitCurIG = 0 ∨ s.emitCurIGfreeNext ≤ s.emitCurIGfreeBase) ∧
    flush s = s ∧
    (flush s).savedGroups = s.savedGroups ∧
    (∀ t : igBuffer, emitCurIGnonEmpty t = false ↔
      (t.emitCurIG = 0 ∨ t.emitCurIGfreeNext ≤ t.emitCurIGfreeBase)) ∧
    (∀ t : igBuffer, ∀ g ∈ (flush t).savedGroups, g ∈ t.savedGroups ∨ 0 < g.length) ∧
    (∀ t : igBuffer, flush (flush t) = flush t) := by
  have hiff : ∀ t : igBuffer, emitCurIGnonEmpty t = false ↔
      (t.emitCurIG = 0 ∨ t.emitCurIGfreeNext ≤ t.emitCurIGfreeBase) := by
    intro t
    unfold emitCurIGnonEmpty
    by_cases h0 : t.emitCurIG = 0
    · simp [h0]
    · simp [h0]
  refine ⟨(hiff s).1 hempty, flush_of_empty s hempty, by rw [flush_of_empty s hempty], hiff,
    ?_, ?_⟩
  · intro t g hg
    by_cases hne : emitCurIGnonEmpty t = true
    · simp only [flush, hne, if_true, List.mem_append, List.mem_singleton] at hg
      rcases hg with hg | hg
      · exact Or.inl hg
      · right
        rw [hg, usedBytes_length]
        simp only [emitCurIGnonEmpty, Bool.and_eq_true, decide_eq_true_eq] at hne
        omega
    · simp only [flush, hne, if_false] at hg
      exact Or.inl hg
  · intro t
    by_cases hne : emitCurIGnonEmpty t = true
    · apply flush_of_empty
      simp only [flush, hne, if_true]
      simp [emitCurIGnonEmpty]
    · have hf : flush t = t := flush_of_empty t (by simpa using hne)
      rw [hf, hf]

/-- Instance of C20: the sample buffer right after a flush is empty, and
flushing it again leaves the two saved groups as they are. -/
theorem flush_empty_noop_witness :
    emitCurIGnonEmpty (flush sampleBuffer) = false ∧
    (flush (flush sampleBuffer)).savedGroups = [[9, 9], [1, 2, 3]] := by
  have hempty : emitCurIGnonEmpty (flush sampleBuffer) = false := by decide
  have h := (flush_empty_noop (flush sampleBuffer) hempty).2.2.1
  refine ⟨hempty, ?_⟩
  rw [h]
  decide

theorem issueRecord_inv {ρ : Type} (encode : ρ → Nat → EncodedIns)
    (henc : EncoderRelocsInside encode) (done : List ρ) (st : Emission) (r : ρ)
    (h : EmissionInv encode done st) :
    EmissionInv encode (done ++ [r]) (issueRecord encode st r) := by
  obtain ⟨hcur, hlen, hsizes, hsum, hstarts, hrel⟩ := h
  have hsl : st.sizes.length = st.starts.length := by
    rw [hsizes, List.length_zipWith, hlen, Nat.min_self]
  refine ⟨?_, ?_, ?_, ?_, ?_, ?_⟩
  · simp [issueRecord, hcur]
  · simp [issueRecord, hlen]
  · simp only [issueRecord]
    rw [List.zipWith_append _ _ _ _ _ hlen.symm, ← hsizes]
    rfl
  · simp [issueRecord, hsum]
  · intro k hk
    simp only [issueRecord, List.length_append, List.length_singleton] at hk
    simp only [issueRecord]
    by_cases hlt : k < st.starts.length
    · rw [List.getD_append _ _ _ _ hlt, List.take_append_of_le_length (by omega)]
      exact hstarts k hlt
    · have hk2 : k = st.starts.length := by omega
      rw [List.getD_append_right _ _ _ _ (by omega), hk2, Nat.sub_self,
        List.take_append_of_le_length (by omega), ← hsl, List.take_length]
      simp only [List.getD_cons_zero]
      rw [hcur, hsum]
  · intro p hp
    simp only [issueRecord, List.mem_append, List.mem_map] at hp
    simp only [issueRecord, List.length_append]
    rcases hp with hp | ⟨off, hoff, rfl⟩
    · have := hrel p hp
      omega
    · have := henc r st.cursor off hoff
      omega

theorem issueRecords_inv {ρ : Type} (encode : ρ → Nat → EncodedIns)
    (henc : EncoderRelocsInside encode) (records : List ρ) :
    ∀ (done : List ρ) (st : Emission), EmissionInv encode done st →
      EmissionInv encode (done ++ records) (records.foldl (issueRecord encode) st) := by
  induction records with
  | nil =>
    intro done st h
    simpa using h
  | cons r rest ih =>
    intro done st h
    have h1 := issueRecord_inv encode henc done st r h
    have h2 := ih (done ++ [r]) (issueRecord encode st r) h1
    simpa using h2

theorem emitCode_eq_foldl {ρ : Type} (encode : ρ → Nat → EncodedIns) (groups : List (List ρ)) :
    emitCode encode groups = groups.flatten.foldl (issueRecord encode) {} := by
  unfold emitCode
  rw [List.foldl_flatten]
  rfl

/-- Claim C17: the emission pass over any list of groups, with any encoder,
ends with an image whose size is the sum of the realized encoded sizes of the
records, each size being the number of bytes the encoder produced for the
record at the offset where it starts; record `k` starts where the records
before it end (no gap, no overlap); and, for an encoder that records a
relocation only for an operand inside the bytes it produced, every recorded
relocation lies within the image. -/
theorem emitCode_size_is_sum {ρ : Type} (encode : ρ → Nat → EncodedIns)
    (groups : List (List ρ)) (henc : EncoderRelocsInside encode) :
    (emitCode encode groups).image.length = (emitCode encode groups).sizes.sum ∧
    (emitCode encode groups).cursor = (emitCode encode groups).image.length ∧
    (emitCode encode groups).sizes =
      List.zipWith (fun r start => (encode r start).bytes.length) groups.flatten
        (emitCode encode groups).starts ∧
    (emitCode encode groups).starts.length = groups.flatten.length ∧
    (∀ k, k < groups.flatten.length →
      (emitCode encode groups).starts.getD k 0 =
        ((emitCode encode groups).sizes.take k).sum) ∧
    (∀ p ∈ (emitCode encode groups).relocations, p < (emitCode encode groups).image.length) := by
  have hinit : EmissionInv encode ([] : List ρ) {} := by
    refine ⟨rfl, rfl, rfl, rfl, ?_, ?_⟩
    · intro k hk
      simp at hk
    · intro p hp
      simp at hp
  have h := issueRecords_inv encode henc groups.flatten [] {} hinit
  rw [List.nil_append, ← emitCode_eq_foldl] at h
  obtain ⟨hcur, hlen, hsizes, hsum, hstarts, hrel⟩ := h
  refine ⟨hsum, hcur, hsizes, hlen, ?_, hrel⟩
  intro k hk
  exact hstarts k (by rw [hlen]; exact hk)

/-- Instance of C17: four records in three groups with the sample encoder give
14 bytes, and the two recorded relocations lie within them. -/
theorem emitCode_size_is_sum_witness :
    EncoderRelocsInside sampleEncode ∧
    (emitCode sampleEncode [[1, 5], [], [2, 6]]).image.length = 1 + 5 + 2 + 6 ∧
    (emitCode sampleEncode [[1, 5], [], [2, 6]]).relocations = [5, 13] := by
  have henc : EncoderRelocsInside sampleEncode := by
    intro r cursor off hoff
    unfold sampleEncode at hoff ⊢
    by_cases h : r > 4
    · simp only [h, if_true, List.mem_singleton] at hoff
      simp only [List.length_replicate]
      omega
    · simp [h] at hoff
  have h := (emitCode_size_is_sum sampleEncode [[1, 5], [], [2, 6]] henc).1
  refine ⟨henc, ?_, by decide⟩
  rw [h]
  decide

theorem replayLiveness_append (start : LiveSets) (first second : List LiveEvent) :
    replayLiveness start (first ++ second) =
      replayLiveness (replayLiveness start first) second := by
  simp [replayLiveness, List.foldl_append]

theorem recordedAt_zero (start : LiveSets) (table : List (Option LiveSets)) :
    recordedAt start table 0 = start := by
  simp [recordedAt]

theorem recordedAt_track_succ (start : LiveSets) (events : List LiveEvent)
    (rest : List (List LiveEvent)) (P : Nat) :
    recordedAt start (trackLiveness start (events :: rest)) (P + 1) =
      recordedAt (replayLiveness start events)
        (trackLiveness (replayLiveness start events) rest) P := by
  simp only [recordedAt, trackLiveness, List.take_succ_cons, List.foldl_cons]
  by_cases h : replayLiveness start events = start
  · simp [h]
  · simp [h]

theorem recordedAt_track (trace : List (List LiveEvent)) :
    ∀ (start : LiveSets) (P : Nat),
      recordedAt start (trackLiveness start trace) P =
        replayLiveness start (trace.take P).flatten := by
  induction trace with
  | nil =>
    intro start P
    simp [recordedAt, trackLiveness, replayLiveness]
  | cons events rest ih =>
    intro start P
    cases P with
    | zero => simp [recordedAt_zero, replayLiveness]
    | succ P =>
      rw [recordedAt_track_succ, ih, List.take_succ_cons, List.flatten_cons,
        replayLiveness_append]

/-- Claim C19: for every position `P`, the live sets recorded at `P` (the last
stored snapshot, positions without a change inheriting from their predecessor)
are exactly what replaying the events of the first `P` positions from the start
gives; they depend on nothing but these events, and a replay can be resumed
from any intermediate result. -/
theorem liveness_replay_roundtrip (start : LiveSets) (trace : List (List LiveEvent)) (P : Nat) :
    recordedAt start (trackLiveness start trace) P =
      replayLiveness start (trace.take P).flatten ∧
    (recordedAt start (trackLiveness start trace) P).gcrefRegs =
      (replayLiveness start (trace.take P).flatten).gcrefRegs ∧
    (recordedAt start (trackLiveness start trace) P).byrefRegs =
      (replayLiveness start (trace.take P).flatten).byrefRegs ∧
    (recordedAt start (trackLiveness start trace) P).gcVars =
      (replayLiveness start (trace.take P).flatten).gcVars ∧
    (∀ other : List (List LiveEvent), other.take P = trace.take P →
      recordedAt start (trackLiveness start other) P =
        recordedAt start (trackLiveness start trace) P) ∧
    (∀ first second : List LiveEvent,
      replayLiveness start (first ++ second) =
        replayLiveness (replayLiveness start first) second) := by
  have h := recordedAt_track trace start P
  refine ⟨h, by rw [h], by rw [h], by rw [h], ?_, replayLiveness_append start⟩
  intro other hother
  rw [h, recordedAt_track other start P, hother]

/-- Instance of C19: at position 2 of the sample trace register 3 is the one
live GC-ref, whether looked up or replayed. -/
theorem liveness_replay_roundtrip_witness :
    recordedAt {} (trackLiveness {} sampleTrace) 2 =
      replayLiveness {} (sampleTrace.take 2).flatten ∧
    (replayLiveness {} (sampleTrace.take 2).flatten).gcrefRegs = {3} :=
  ⟨(liveness_replay_roundtrip {} sampleTrace 2).1, by decide⟩

theorem promoteIns_promoted (p : JumpParams) (whole : List LayoutIns) (i : Nat)
    (ins : LayoutIns) : PromotedFrom ins (promoteIns p whole i ins) := by
  cases ins with
  | fixed size => exact Or.inl rfl
  | jump target encoding =>
    cases encoding with
    | long => exact Or.inl rfl
    | short =>
      by_cases h : p.shortRange < requiredReach p whole i target
      · exact Or.inr ⟨target, rfl, by simp [promoteIns, h]⟩
      · exact Or.inl (by simp [promoteIns, h])

theorem promoteIns_shortJumps (p : JumpParams) (whole : List LayoutIns) (i : Nat)
    (ins : LayoutIns) :
    (promoteIns p whole i ins).shortJumps ≤ ins.shortJumps ∧
    (promoteIns p whole i ins ≠ ins →
      (promoteIns p whole i ins).shortJumps < ins.shortJumps) := by
  cases ins with
  | fixed size => exact ⟨le_refl _, fun h => absurd rfl h⟩
  | jump target encoding =>
    cases encoding with
    | long => exact ⟨le_refl _, fun h => absurd rfl h⟩
    | short =>
      by_cases h : p.shortRange < requiredReach p whole i target
      · simp [promoteIns, h, LayoutIns.shortJumps]
      · simp [promoteIns, h, LayoutIns.shortJumps]

theorem promoteFrom_promoted (p : JumpParams) (whole : List LayoutIns) (l : List LayoutIns) :
    ∀ i, List.Forall₂ PromotedFrom l (promoteFrom p whole i l) := by
  induction l with
  | nil =>
    intro i
    exact List.Forall₂.nil
  | cons ins rest ih =>
    intro i
    exact List.Forall₂.cons (promoteIns_promoted p whole i ins) (ih (i + 1))

theorem promoteFrom_shortJumpCount (p : JumpParams) (whole : List LayoutIns)
    (l : List LayoutIns) :
    ∀ i, shortJumpCount (promoteFrom p whole i l) ≤ shortJumpCount l ∧
      (promoteFrom p whole i l ≠ l →
        shortJumpCount (promoteFrom p whole i l) < shortJumpCount l) := by
  induction l with
  | nil =>
    intro i
    exact ⟨le_refl _, fun h => absurd rfl h⟩
  | cons ins rest ih =>
    intro i
    obtain ⟨h1, h2⟩ := promoteIns_shortJumps p whole i ins
    obtain ⟨h3, h4⟩ := ih (i + 1)
    have hcons : shortJumpCount (promoteFrom p whole i (ins :: rest)) =
        (promoteIns p whole i ins).shortJumps +
          shortJumpCount (promoteFrom p whole (i + 1) rest) := by
      simp [promoteFrom, shortJumpCount]
    have hcons2 : shortJumpCount (ins :: rest) = ins.shortJumps + shortJumpCount rest := by
      simp [shortJumpCount]
    rw [hcons, hcons2]
    refine ⟨by omega, ?_⟩
    intro hne
    by_cases hhead : promoteIns p whole i ins = ins
    · have htail : promoteFrom p whole (i + 1) rest ≠ rest := by
        intro heq
        apply hne
        simp [promoteFrom, hhead, heq]
      have := h4 htail
      omega
    · have := h2 hhead
      omega

theorem promoteFrom_of_no_short (p : JumpParams) (whole : List LayoutIns) (l : List LayoutIns)
    (h : shortJumpCount l = 0) (i : Nat) : promoteFrom p whole i l = l := by
  by_contra hne
  have := (promoteFrom_shortJumpCount p whole l i).2 hne
  omega

theorem promoteFrom_fixed (p : JumpParams) (whole : List LayoutIns) (l : List LayoutIns) :
    ∀ i, promoteFrom p whole i l = l →
      ∀ j target, l[j]? = some (LayoutIns.jump target JumpEncoding.short) →
        requiredReach p whole (i + j) target ≤ p.shortRange := by
  induction l with
  | nil =>
    intro i _ j target hj
    simp at hj
  | cons ins rest ih =>
    intro i hfix j target hj
    simp only [promoteFrom, List.cons.injEq] at hfix
    cases j with
    | zero =>
      simp only [List.getElem?_cons_zero, Option.some.injEq] at hj
      subst hj
      by_contra hgt
      have hlt : p.shortRange < requiredReach p whole i target := by
        simpa using hgt
      have := hfix.1
      simp [promoteIns, hlt] at this
    | succ j =>
      simp only [List.getElem?_cons_succ] at hj
      have := ih (i + 1) hfix.2 j target hj
      have harith : i + (j + 1) = i + 1 + j := by omega
      rw [harith]
      exact this

theorem PromotedFrom_trans (a c d : LayoutIns) (h1 : PromotedFrom a c) (h2 : PromotedFrom c d) :
    PromotedFrom a d := by
  rcases h1 with h1 | ⟨t, ha, hc⟩
  · rw [h1] at h2
    exact h2
  · rcases h2 with h2 | ⟨t2, hc2, _⟩
    · rw [h2]
      exact Or.inr ⟨t, ha, hc⟩
    · rw [hc] at hc2
      cases hc2

theorem forall₂_PromotedFrom_trans (l1 : List LayoutIns) :
    ∀ l2 l3 : List LayoutIns, List.Forall₂ PromotedFrom l1 l2 →
      List.Forall₂ PromotedFrom l2 l3 → List.Forall₂ PromotedFrom l1 l3 := by
  induction l1 with
  | nil =>
    intro l2 l3 h12 h23
    cases h12
    cases h23
    exact List.Forall₂.nil
  | cons a rest ih =>
    intro l2 l3 h12 h23
    cases h12 with
    | cons hac hrest =>
      cases h23 with
      | cons hcd hrest2 =>
        exact List.Forall₂.cons (PromotedFrom_trans _ _ _ hac hcd) (ih _ _ hrest hrest2)

theorem forall₂_PromotedFrom_refl (l : List LayoutIns) : List.Forall₂ PromotedFrom l l := by
  induction l with
  | nil => exact List.Forall₂.nil
  | cons a rest ih => exact List.Forall₂.cons (Or.inl rfl) ih

/-- The resolver on a method whose short jumps are at most as many as the
passes allowed: it ends in a layout that a further pass leaves alone, after at
most as many promoting passes as there were short jumps. -/
theorem resolveJumps_spec (p : JumpParams) :
    ∀ (fuel : Nat) (code : List LayoutIns), shortJumpCount code ≤ fuel →
      promotePass p (resolveJumps p fuel code).1 = (resolveJumps p fuel code).1 ∧
      (resolveJumps p fuel code).2 ≤ shortJumpCount code ∧
      List.Forall₂ PromotedFrom code (resolveJumps p fuel code).1 ∧
      (resolveJumps p fuel code).1 = (promotePass p)^[(resolveJumps p fuel code).2] code := by
  intro fuel
  induction fuel with
  | zero =>
    intro code h
    have h0 : shortJumpCount code = 0 := by omega
    refine ⟨?_, Nat.zero_le _, forall₂_PromotedFrom_refl code, rfl⟩
    exact promoteFrom_of_no_short p code code h0 0
  | succ fuel ih =>
    intro code h
    by_cases hfix : promotePass p code = code
    · have hr : resolveJumps p (fuel + 1) code = (code, 0) := by
        simp [resolveJumps, hfix]
      rw [hr]
      exact ⟨hfix, Nat.zero_le _, forall₂_PromotedFrom_refl code, rfl⟩
    · have hr : resolveJumps p (fuel + 1) code =
          ((resolveJumps p fuel (promotePass p code)).1,
            (resolveJumps p fuel (promotePass p code)).2 + 1) := by
        simp [resolveJumps, hfix]
      have hlt : shortJumpCount (promotePass p code) < shortJumpCount code :=
        (promoteFrom_shortJumpCount p code code 0).2 hfix
      obtain ⟨h1, h2, h3, h4⟩ := ih (promotePass p code) (by omega)
      rw [hr]
      refine ⟨h1, by simp only; omega, ?_, ?_⟩
      · exact forall₂_PromotedFrom_trans _ _ _ (promoteFrom_promoted p code code 0) h3
      · simp only [Function.iterate_succ, Function.comp_apply]
        exact h4

theorem shortJumpCount_le_jumpCount (code : List LayoutIns) :
    shortJumpCount code ≤ jumpCount code := by
  induction code with
  | nil => simp [shortJumpCount, jumpCount]
  | cons ins rest ih =>
    have h : ins.shortJumps ≤ ins.jumps := by
      cases ins with
      | fixed size => simp [LayoutIns.shortJumps, LayoutIns.jumps]
      | jump target encoding => cases encoding <;> simp [LayoutIns.shortJumps, LayoutIns.jumps]
    simp only [shortJumpCount, jumpCount, List.map_cons, List.sum_cons] at ih ⊢
    omega

theorem offsetOf_le_total (p : JumpParams) (code : List LayoutIns) (i : Nat) :
    offsetOf p code i ≤ (code.map (LayoutIns.size p)).sum := by
  unfold offsetOf
  have h : (code.map (LayoutIns.size p)).sum =
      ((code.take i).map (LayoutIns.size p)).sum + ((code.drop i).map (LayoutIns.size p)).sum := by
    rw [← List.sum_append, ← List.map_append, List.take_append_drop]
  omega

theorem requiredReach_le_total (p : JumpParams) (code : List LayoutIns) (i target : Nat) :
    requiredReach p code i target ≤ (code.map (LayoutIns.size p)).sum := by
  have h1 := offsetOf_le_total p code (i + 1)
  have h2 := offsetOf_le_total p code target
  unfold requiredReach
  simp only
  split <;> omega

theorem total_le_maxTotal (p : JumpParams) (hsize : p.shortSize ≤ p.longSize)
    (code : List LayoutIns) :
    (code.map (LayoutIns.size p)).sum ≤ (code.map (LayoutIns.maxSize p)).sum := by
  induction code with
  | nil => simp
  | cons ins rest ih =>
    have h : ins.size p ≤ ins.maxSize p := by
      cases ins with
      | fixed size => simp [LayoutIns.size, LayoutIns.maxSize]
      | jump target encoding =>
        cases encoding <;> simp [LayoutIns.size, LayoutIns.maxSize, hsize]
    simp only [List.map_cons, List.sum_cons]
    omega

theorem maxTotal_of_promoted (p : JumpParams) (l1 : List LayoutIns) :
    ∀ l2, List.Forall₂ PromotedFrom l1 l2 →
      (l2.map (LayoutIns.maxSize p)).sum = (l1.map (LayoutIns.maxSize p)).sum := by
  induction l1 with
  | nil =>
    intro l2 h
    cases h
    rfl
  | cons a rest ih =>
    intro l2 h
    cases h with
    | cons hab hrest =>
      have hm : ∀ c d : LayoutIns, PromotedFrom c d → d.maxSize p = c.maxSize p := by
        intro c d hcd
        rcases hcd with hcd | ⟨t, hc, hd⟩
        · rw [hcd]
        · rw [hc, hd]
          rfl
      simp only [List.map_cons, List.sum_cons, hm _ _ hab, ih _ hrest]

/-- Claim C18: for a method with `N` jumps, resolution ends after at most `N`
promoting passes in a layout that a further pass leaves unchanged; it is the
result of exactly that many passes, each of which changes nothing but the
encoding of some jumps from short to long; and in the final layout the reach
required by every short jump is within the short range and, provided a long
jump reaches across the largest possible method, the reach required by every
long jump is within the long range. -/
theorem emitJumpDistBind_terminates (p : JumpParams) (code : List LayoutIns)
    (hsize : p.shortSize ≤ p.longSize)
    (hlong : (code.map (LayoutIns.maxSize p)).sum ≤ p.longRange) :
    (emitJumpDistBind p code).2 ≤ jumpCount code ∧
    promotePass p (emitJumpDistBind p code).1 = (emitJumpDistBind p code).1 ∧
    (emitJumpDistBind p code).1 = (promotePass p)^[(emitJumpDistBind p code).2] code ∧
    List.Forall₂ PromotedFrom code (emitJumpDistBind p code).1 ∧
    (∀ i target encoding,
      (emitJumpDistBind p code).1[i]? = some (LayoutIns.jump target encoding) →
      requiredReach p (emitJumpDistBind p code).1 i target ≤ encodingRange p encoding) := by
  obtain ⟨hfix, hpasses, hrel, hiter⟩ :=
    resolveJumps_spec p (jumpCount code) code (shortJumpCount_le_jumpCount code)
  refine ⟨le_trans hpasses (shortJumpCount_le_jumpCount code), hfix, hiter, hrel, ?_⟩
  intro i target encoding hget
  cases encoding with
  | short =>
    have := promoteFrom_fixed p _ _ 0 hfix i target hget
    simpa [encodingRange] using this
  | long =>
    have h1 := requiredReach_le_total p (emitJumpDistBind p code).1 i target
    have h2 := total_le_maxTotal p hsize (emitJumpDistBind p code).1
    have h3 : ((emitJumpDistBind p code).1.map (LayoutIns.maxSize p)).sum =
        (code.map (LayoutIns.maxSize p)).sum := maxTotal_of_promoted p code _ hrel
    show requiredReach p (emitJumpDistBind p code).1 i target ≤ p.longRange
    omega

/-- Instance of C18: the sample method has two jumps; resolution takes two
promoting passes and ends with both jumps long. -/
theorem emitJumpDistBind_terminates_witness :
    jumpCount sampleJumpCode = 2 ∧
    emitJumpDistBind sampleJumpParams sampleJumpCode =
      ([LayoutIns.jump 3 JumpEncoding.long, LayoutIns.jump 4 JumpEncoding.long,
        LayoutIns.fixed 8, LayoutIns.fixed 4, LayoutIns.fixed 1], 2) ∧
    (emitJumpDistBind sampleJumpParams sampleJumpCode).2 ≤ jumpCount sampleJumpCode ∧
    requiredReach sampleJumpParams (emitJumpDistBind sampleJumpParams sampleJumpCode).1 0 3 ≤
      encodingRange sampleJumpParams JumpEncoding.long := by
  have h := emitJumpDistBind_terminates sampleJumpParams sampleJumpCode (by decide) (by decide)
  exact ⟨by decide, by decide, h.1, h.2.2.2.2 0 3 JumpEncoding.long (by decide)⟩

/-! ## Data sections, calls and descriptor sizes -/

/-- Claim C21: `MIN_DATA_ALIGN = 4` and `MAX_DATA_ALIGN = 64` are powers of two
with `MIN_DATA_ALIGN ≤ MAX_DATA_ALIGN`; a freshly constructed `dataSecDsc` has
an empty list (`dsdList` and `dsdLast` null), `dsdOffs = 0` and
`alignment = MIN_DATA_ALIGN`, so `emitDataSize()` is 0. -/
theorem dataSecDsc_construct_spec :
    dataSection.MIN_DATA_ALIGN = 4 ∧ dataSection.MAX_DATA_ALIGN = 64 ∧
    dataSection.MIN_DATA_ALIGN = 2 ^ 2 ∧ dataSection.MAX_DATA_ALIGN = 2 ^ 6 ∧
    dataSection.MIN_DATA_ALIGN ≤ dataSection.MAX_DATA_ALIGN ∧
    dataSecDsc.construct.dsdList = 0 ∧ dataSecDsc.construct.dsdLast = 0 ∧
    dataSecDsc.construct.dsdOffs = 0 ∧
    dataSecDsc.construct.alignment = dataSection.MIN_DATA_ALIGN ∧
    emitDataSize dataSecDsc.construct = 0 := by
  decide

/-- Claim C22: `idIsLargeCns()` and `idIsLargeCall()` are never both true; when
`_idLargeCns` is set exactly one of them is true (`idIsLargeCall()` if
`idIsCall()`, `idIsLargeCns()` otherwise); when it is clear both are false; and
after `idSetIsLargeCall()`, `idIsCall()` and `idIsLargeCall()` are true and
`idIsLargeCns()` is false. -/
theorem idIsLargeCns_idIsLargeCall_exclusive (id : instrDesc) :
    ¬ (idIsLargeCns id = true ∧ idIsLargeCall id = true) ∧
    (id._idLargeCns = true →
      (idIsLargeCall id != idIsLargeCns id) = true ∧
      idIsLargeCall id = idIsCall id ∧ idIsLargeCns id = !idIsCall id) ∧
    (id._idLargeCns = false → idIsLargeCns id = false ∧ idIsLargeCall id = false) ∧
    idIsCall (idSetIsLargeCall id) = true ∧
    idIsLargeCall (idSetIsLargeCall id) = true ∧
    idIsLargeCns (idSetIsLargeCall id) = false := by
  refine ⟨?_, ?_, ?_, ?_, ?_, ?_⟩
  · cases h1 : id._idLargeCns <;> cases h2 : id._idCall <;>
      simp [idIsLargeCns, idIsLargeCall, idIsCall, h1, h2]
  · intro h
    cases h2 : id._idCall <;> simp [idIsLargeCns, idIsLargeCall, idIsCall, h, h2]
  · intro h
    simp [idIsLargeCns, idIsLargeCall, h]
  · simp [idIsCall, idSetIsLargeCall, idSetIsCall]
  · simp [idIsLargeCall, idIsCall, idSetIsLargeCall, idSetIsCall]
  · simp [idIsLargeCns, idIsCall, idSetIsLargeCall, idSetIsCall]

/-- Instance of C22: a descriptor with `_idLargeCns` set and `_idCall` clear is a
large-constant descriptor and not a large call; with `_idLargeCns` clear it is
neither. -/
theorem idIsLargeCns_idIsLargeCall_exclusive_witness :
    (idIsLargeCall { _idLargeCns := true } = idIsCall { _idLargeCns := true } ∧
      idIsLargeCns { _idLargeCns := true } = !idIsCall { _idLargeCns := true }) ∧
    (idIsLargeCns { _idCall := true } = false ∧ idIsLargeCall { _idCall := true } = false) :=
  ⟨((idIsLargeCns_idIsLargeCall_exclusive { _idLargeCns := true }).2.1 rfl).2,
    (idIsLargeCns_idIsLargeCall_exclusive { _idCall := true }).2.2.1 rfl⟩

theorem zeroedAllocator_clearsLclVarPair : ClearsLclVarPair zeroedAllocator := by
  intro sz attr
  rfl

theorem emitGetInstrDescSize_plain (b : Build) (p q : Nat) (id : instrDesc)
    (h1 : id._idSmallDsc = false) (h2 : id._idLargeCns = false)
    (h3 : id._idLclVarPair = false) :
    emitGetInstrDescSize b p q id = b.sizeofInstrDesc := by
  simp [emitGetInstrDescSize, idIsSmallDsc, idIsLargeCns, idIsLclVarPair, h1, h2, h3]

theorem emitGetInstrDescSize_small (b : Build) (p q : Nat) (id : instrDesc)
    (h1 : id._idSmallDsc = true) :
    emitGetInstrDescSize b p q id = SMALL_IDSC_SIZE := by
  simp [emitGetInstrDescSize, idIsSmallDsc, h1]

theorem emitGetInstrDescSize_largeCns (b : Build) (p q : Nat) (id : instrDesc)
    (h1 : id._idSmallDsc = false) (h2 : id._idLargeCns = true) (h4 : id._idCall = false)
    (h3 : id._idLclVarPair = false) :
    emitGetInstrDescSize b p q id = b.sizeofInstrDescCns := by
  simp [emitGetInstrDescSize, idIsSmallDsc, idIsLargeCns, idIsCall, idIsLclVarPair, h1, h2, h3,
    h4]

/-- Claim C23: for each of `emitNewInstrSmall`, `emitNewInstr`, `emitNewInstrCns`
and `emitNewInstrSC`, `emitGetInstrDescSize` of the returned descriptor is the
byte size the constructor requested from `emitAllocAnyInstr` (`SMALL_IDSC_SIZE`,
`sizeof(instrDesc)` or `sizeof(instrDescCns)`). -/
theorem emitGetInstrDescSize_constructors (b : Build) (p q : Nat) (alloc : Allocator)
    (attr : Nat) (cns : Int) (halloc : FreshAllocator alloc) (hpair : ClearsLclVarPair alloc) :
    (emitGetInstrDescSize b p q (emitNewInstrSmall alloc attr) =
        (emitNewInstrSmall alloc attr).allocSize ∧
      (emitNewInstrSmall alloc attr).allocSize = SMALL_IDSC_SIZE) ∧
    (emitGetInstrDescSize b p q (emitNewInstr b alloc attr) =
        (emitNewInstr b alloc attr).allocSize ∧
      (emitNewInstr b alloc attr).allocSize = b.sizeofInstrDesc) ∧
    (∃ id, emitNewInstrCns b alloc attr cns = some id ∧
      emitGetInstrDescSize b p q id = id.allocSize ∧
      id.allocSize = (if fitsInSmallCns b cns then b.sizeofInstrDesc
        else b.sizeofInstrDescCns)) ∧
    (∃ id, emitNewInstrSC b alloc attr cns = some id ∧
      emitGetInstrDescSize b p q id = id.allocSize ∧
      id.allocSize = (if fitsInSmallCns b cns then SMALL_IDSC_SIZE
        else b.sizeofInstrDescCns)) := by
  have h8 := halloc SMALL_IDSC_SIZE attr
  have hd := halloc b.sizeofInstrDesc attr
  have hc := halloc b.sizeofInstrDescCns attr
  have p8 := hpair SMALL_IDSC_SIZE attr
  have pd := hpair b.sizeofInstrDesc attr
  have pc := hpair b.sizeofInstrDescCns attr
  have hsmall : emitGetInstrDescSize b p q (emitNewInstrSmall alloc attr) = SMALL_IDSC_SIZE :=
    emitGetInstrDescSize_small b p q _ (by simp [emitNewInstrSmall, idSetIsSmallDsc])
  have hsmallsz : (emitNewInstrSmall alloc attr).allocSize = SMALL_IDSC_SIZE := by
    simp [emitNewInstrSmall, idSetIsSmallDsc, h8.1]
  have hplain : emitGetInstrDescSize b p q (emitNewInstr b alloc attr) = b.sizeofInstrDesc :=
    emitGetInstrDescSize_plain b p q _ (by simp [emitNewInstr, emitAllocInstr, hd.2.1])
      (by simp [emitNewInstr, emitAllocInstr, hd.2.2.1]) (by simp [emitNewInstr, emitAllocInstr, pd])
  have hplainsz : (emitNewInstr b alloc attr).allocSize = b.sizeofInstrDesc := by
    simp [emitNewInstr, emitAllocInstr, hd.1]
  have hlarge : ∀ u : Nat,
      emitGetInstrDescSize b p q (emitAllocInstrCns b alloc attr u) = b.sizeofInstrDescCns ∧
      (emitAllocInstrCns b alloc attr u).allocSize = b.sizeofInstrDescCns := by
    intro u
    refine ⟨emitGetInstrDescSize_largeCns b p q _ ?_ ?_ ?_ ?_, ?_⟩
    · simp [emitAllocInstrCns, emitAllocInstrCns0, idSetIsLargeCns, hc.2.1]
    · simp [emitAllocInstrCns, emitAllocInstrCns0, idSetIsLargeCns]
    · simp [emitAllocInstrCns, emitAllocInstrCns0, idSetIsLargeCns, hc.2.2.2.2]
    · simp [emitAllocInstrCns, emitAllocInstrCns0, idSetIsLargeCns, pc]
    · simp [emitAllocInstrCns, emitAllocInstrCns0, idSetIsLargeCns, hc.1]
  refine ⟨⟨by rw [hsmall, hsmallsz], hsmallsz⟩, ⟨by rw [hplain, hplainsz], hplainsz⟩, ?_, ?_⟩
  · by_cases hf : fitsInSmallCns b cns = true
    · refine ⟨_, by simp only [emitNewInstrCns, hf, if_true]; exact idSmallCnsSet_of_fits b _ cns hf,
        ?_, ?_⟩
      · have hg : emitGetInstrDescSize b p q
            { emitAllocInstr b alloc attr with _idSmallCns := cns } = b.sizeofInstrDesc :=
          emitGetInstrDescSize_plain b p q _ (by simp [emitAllocInstr, hd.2.1])
            (by simp [emitAllocInstr, hd.2.2.1]) (by simp [emitAllocInstr, pd])
        rw [hg]
        simp [emitAllocInstr, hd.1]
      · simp [hf, emitAllocInstr, hd.1]
    · refine ⟨_, by simp only [emitNewInstrCns, hf]; rfl, ?_, ?_⟩
      · rw [(hlarge _).1, (hlarge _).2]
      · simp [hf, (hlarge _).2]
  · by_cases hf : fitsInSmallCns b cns = true
    · refine ⟨_, by simp only [emitNewInstrSC, hf, if_true]; exact idSmallCnsSet_of_fits b _ cns hf,
        ?_, ?_⟩
      · have hg : emitGetInstrDescSize b p q
            { emitNewInstrSmall alloc attr with _idSmallCns := cns } = SMALL_IDSC_SIZE :=
          emitGetInstrDescSize_small b p q _ (by simp [emitNewInstrSmall, idSetIsSmallDsc])
        rw [hg]
        simp [emitNewInstrSmall, idSetIsSmallDsc, h8.1]
      · simp [hf, emitNewInstrSmall, idSetIsSmallDsc, h8.1]
    · refine ⟨_, by simp only [emitNewInstrSC, hf]; rfl, ?_, ?_⟩
      · rw [(hlarge _).1, (hlarge _).2]
      · simp [hf, (hlarge _).2]

/-- Instance of C23 on the arm64 sample build: the four constructors with the
constant 100000, which does not fit the small-constant field. -/
theorem emitGetInstrDescSize_constructors_witness :
    FreshAllocator zeroedAllocator ∧ ClearsLclVarPair zeroedAllocator ∧
    emitGetInstrDescSize sampleArm64Build 24 32 (emitNewInstrSmall zeroedAllocator 4) =
      (emitNewInstrSmall zeroedAllocator 4).allocSize ∧
    emitGetInstrDescSize sampleArm64Build 24 32 (emitNewInstr sampleArm64Build zeroedAllocator 4) =
      (emitNewInstr sampleArm64Build zeroedAllocator 4).allocSize ∧
    (∃ id, emitNewInstrCns sampleArm64Build zeroedAllocator 4 100000 = some id ∧
      emitGetInstrDescSize sampleArm64Build 24 32 id = id.allocSize) ∧
    (∃ id, emitNewInstrSC sampleArm64Build zeroedAllocator 4 100000 = some id ∧
      emitGetInstrDescSize sampleArm64Build 24 32 id = id.allocSize) := by
  have h := emitGetInstrDescSize_constructors sampleArm64Build 24 32 zeroedAllocator 4 100000
    zeroedAllocator_fresh zeroedAllocator_clearsLclVarPair
  obtain ⟨h1, h2, ⟨id3, h3, h3b, _⟩, ⟨id4, h4, h4b, _⟩⟩ := h
  exact ⟨zeroedAllocator_fresh, zeroedAllocator_clearsLclVarPair, h1.1, h2.1, ⟨id3, h3, h3b⟩,
    ⟨id4, h4, h4b⟩⟩

/-- Counterexample to C24 as stated: on the amd64 sample build a descriptor made
by `emitNewInstrDsp` with the displacement 8 occupies `sizeof(instrDescDsp)`,
24 bytes, while `emitGetInstrDescSize` returns `sizeof(instrDesc)`, 16. -/
theorem emitGetInstrDescSize_dsp_counterexample :
    (emitNewInstrDsp sampleBuild zeroedAllocator 4 8).allocSize = 24 ∧
    sampleBuild.sizeofInstrDescDsp = 24 ∧
    emitGetInstrDescSize sampleBuild 24 32 (emitNewInstrDsp sampleBuild zeroedAllocator 4 8) = 16 ∧
    emitGetInstrDescSize sampleBuild 24 32 (emitNewInstrDsp sampleBuild zeroedAllocator 4 8) ≠
      (emitNewInstrDsp sampleBuild zeroedAllocator 4 8).allocSize := by
  decide

/-- Claim C24, amended: `emitGetInstrDescSize` of `emitNewInstrDsp(attr, dsp)` is
`sizeof(instrDesc)` for every displacement.  This is the allocated size when
`dsp == 0`; when `dsp != 0` the allocated size is `sizeof(instrDescDsp)`, and
the two agree only if `sizeof(instrDescDsp) = sizeof(instrDesc)`. -/
theorem emitGetInstrDescSize_emitNewInstrDsp (b : Build) (p q : Nat) (alloc : Allocator)
    (attr : Nat) (dsp : Int) (halloc : FreshAllocator alloc) (hpair : ClearsLclVarPair alloc) :
    emitGetInstrDescSize b p q (emitNewInstrDsp b alloc attr dsp) = b.sizeofInstrDesc ∧
    (dsp = 0 → emitGetInstrDescSize b p q (emitNewInstrDsp b alloc attr dsp) =
      (emitNewInstrDsp b alloc attr dsp).allocSize) ∧
    (dsp ≠ 0 → (emitNewInstrDsp b alloc attr dsp).allocSize = b.sizeofInstrDescDsp ∧
      (emitGetInstrDescSize b p q (emitNewInstrDsp b alloc attr dsp) =
          (emitNewInstrDsp b alloc attr dsp).allocSize ↔
        b.sizeofInstrDescDsp = b.sizeofInstrDesc)) := by
  have hd := halloc b.sizeofInstrDesc attr
  have hp := halloc b.sizeofInstrDescDsp attr
  have pd := hpair b.sizeofInstrDesc attr
  have pp := hpair b.sizeofInstrDescDsp attr
  have hsize : emitGetInstrDescSize b p q (emitNewInstrDsp b alloc attr dsp) =
      b.sizeofInstrDesc := by
    by_cases h0 : dsp = 0
    · exact emitGetInstrDescSize_plain b p q _ (by simp [emitNewInstrDsp, h0, emitAllocInstr, hd.2.1])
        (by simp [emitNewInstrDsp, h0, emitAllocInstr, hd.2.2.1])
        (by simp [emitNewInstrDsp, h0, emitAllocInstr, pd])
    · exact emitGetInstrDescSize_plain b p q _
        (by simp [emitNewInstrDsp, h0, emitAllocInstrDsp, idSetIsLargeDsp, hp.2.1])
        (by simp [emitNewInstrDsp, h0, emitAllocInstrDsp, idSetIsLargeDsp, hp.2.2.1])
        (by simp [emitNewInstrDsp, h0, emitAllocInstrDsp, idSetIsLargeDsp, pp])
  refine ⟨hsize, ?_, ?_⟩
  · intro h0
    rw [hsize]
    simp [emitNewInstrDsp, h0, emitAllocInstr, hd.1]
  · intro h0
    have hsz : (emitNewInstrDsp b alloc attr dsp).allocSize = b.sizeofInstrDescDsp := by
      simp [emitNewInstrDsp, h0, emitAllocInstrDsp, idSetIsLargeDsp, hp.1]
    refine ⟨hsz, ?_⟩
    rw [hsize, hsz]
    exact eq_comm

/-- Instance of the amended C24: on the amd64 sample build the size function
gives 16 for the displacements 0 and 8; 16 bytes were allocated for the first
and 24 for the second. -/
theorem emitGetInstrDescSize_emitNewInstrDsp_witness :
    FreshAllocator zeroedAllocator ∧ ClearsLclVarPair zeroedAllocator ∧
    emitGetInstrDescSize sampleBuild 24 32 (emitNewInstrDsp sampleBuild zeroedAllocator 4 0) =
      (emitNewInstrDsp sampleBuild zeroedAllocator 4 0).allocSize ∧
    emitGetInstrDescSize sampleBuild 24 32 (emitNewInstrDsp sampleBuild zeroedAllocator 4 8) =
      sampleBuild.sizeofInstrDesc ∧
    (emitNewInstrDsp sampleBuild zeroedAllocator 4 8).allocSize =
      sampleBuild.sizeofInstrDescDsp :=
  ⟨zeroedAllocator_fresh, zeroedAllocator_clearsLclVarPair,
    (emitGetInstrDescSize_emitNewInstrDsp sampleBuild 24 32 zeroedAllocator 4 0
      zeroedAllocator_fresh zeroedAllocator_clearsLclVarPair).2.1 rfl,
    (emitGetInstrDescSize_emitNewInstrDsp sampleBuild 24 32 zeroedAllocator 4 8
      zeroedAllocator_fresh zeroedAllocator_clearsLclVarPair).1,
    ((emitGetInstrDescSize_emitNewInstrDsp sampleBuild 24 32 zeroedAllocator 4 8
      zeroedAllocator_fresh zeroedAllocator_clearsLclVarPair).2.2 (by decide)).1⟩

/-! ## Instruction counts, previous sizes and code sizes -/

theorem iiaHasInstrCount_iff (v : Int) : iiaHasInstrCount v = true ↔ v % 4 = 2 := by
  have hmask : toUnsigned UNSIGNED_BITS v &&& iaut_MASK = toUnsigned UNSIGNED_BITS v % 4 :=
    Nat.and_pow_two_sub_one_eq_mod _ 2
  have hcast : ((toUnsigned UNSIGNED_BITS v : Nat) : Int) = v % (2 : Int) ^ 32 := by
    unfold toUnsigned UNSIGNED_BITS
    exact Int.toNat_of_nonneg (Int.emod_nonneg _ (by norm_num))
  have hmod : ((toUnsigned UNSIGNED_BITS v % 4 : Nat) : Int) = v % 4 := by
    rw [Int.natCast_mod, hcast]
    exact Int.emod_emod_of_dvd v (by norm_num)
  simp only [iiaHasInstrCount, hmask, iaut_INST_COUNT, beq_iff_eq]
  omega

/-- Claim C25: for every `count` with `|count| < 10`, negative counts included,
`iiaSetInstrCount(count)` passes its assertion, afterwards `iiaHasInstrCount()`
is true and `iiaGetInstrCount()` passes its assertion and returns `count`; and
`iiaHasInstrCount()` is false for every stored value whose low two bits are
`iaut_ALIGNED_POINTER`, `iaut_DATA_OFFSET` or `iaut_UNUSED_TAG`. -/
theorem iiaSetInstrCount_roundtrip (b : Build) :
    (∀ count : Int, count.natAbs < 10 →
      ∃ v, iiaSetInstrCount b count = some v ∧ iiaHasInstrCount v = true ∧
        iiaGetInstrCount b v = some count) ∧
    (∀ v : Int, v % 4 = (iaut_ALIGNED_POINTER : Int) ∨ v % 4 = (iaut_DATA_OFFSET : Int) ∨
        v % 4 = (iaut_UNUSED_TAG : Int) → iiaHasInstrCount v = false) := by
  constructor
  · intro count h
    have hset : iiaSetInstrCount b count = some (toSigned UNSIGNED_BITS
        ((((toUnsigned UNSIGNED_BITS count <<< iaut_SHIFT) % 2 ^ UNSIGNED_BITS) |||
          iaut_INST_COUNT : Nat) : Int)) := by
      simp [iiaSetInstrCount, jitAssert, h]
    have hb : -9 ≤ count ∧ count ≤ 9 := by omega
    obtain ⟨h1, h2⟩ := hb
    have hval : toSigned UNSIGNED_BITS
        ((((toUnsigned UNSIGNED_BITS count <<< iaut_SHIFT) % 2 ^ UNSIGNED_BITS) |||
          iaut_INST_COUNT : Nat) : Int) = 4 * count + 2 := by
      interval_cases count <;> decide
    rw [hval] at hset
    have hhas : iiaHasInstrCount (4 * count + 2) = true :=
      (iiaHasInstrCount_iff _).2 (by omega)
    refine ⟨_, hset, hhas, ?_⟩
    simp only [iiaGetInstrCount, hhas, jitAssert_true, Option.some_bind, iaut_SHIFT,
      Int.shiftRight_eq_div_pow]
    have h4 : (4 * count + 2) / (((2 ^ 2 : Nat) : Int)) = count := by
      norm_num
      omega
    rw [h4]
    rfl
  · intro v hv
    have h := iiaHasInstrCount_iff v
    simp only [iaut_ALIGNED_POINTER, iaut_DATA_OFFSET, iaut_UNUSED_TAG] at hv
    cases hc : iiaHasInstrCount v with
    | false => rfl
    | true => have := h.1 hc; omega

/-- Instance of C25: the count -9 is stored as -34 (pattern `0xFFFFFFDE`), is
tagged as an instruction count and reads back as -9; the value 12 has the tag
`iaut_ALIGNED_POINTER`. -/
theorem iiaSetInstrCount_roundtrip_witness :
    (∃ v, iiaSetInstrCount sampleBuild (-9) = some v ∧ iiaHasInstrCount v = true ∧
      iiaGetInstrCount sampleBuild v = some (-9)) ∧
    iiaHasInstrCount 12 = false :=
  ⟨(iiaSetInstrCount_roundtrip sampleBuild).1 (-9) (by decide),
    (iiaSetInstrCount_roundtrip sampleBuild).2 12 (Or.inl (by decide))⟩

/-- Claim C26: for every byte size `s` that is a multiple of 4 with
`s / 4 < 2 ^ ID_EXTRA_PREV_OFFSET_BITS`, `idSetPrevSize(s)` passes both of its
assertions and `idPrevSize()` then returns `s`; with backward navigation this
holds for every multiple of 4 up to 64 on a 64-bit host (5-bit field) and up to
60 on a 32-bit host (4-bit field); and `idPrevSize() == 0` exactly when the
stored field is zero. -/
theorem idSetPrevSize_roundtrip (b : Build) (id : instrDesc) :
    (∀ s : Nat, s % 4 = 0 → s / 4 < 2 ^ ID_EXTRA_PREV_OFFSET_BITS b →
      ∃ id1, idSetPrevSize b id s = some id1 ∧ idPrevSize id1 = s ∧
        id1._idScaledPrevOffset = s / 4) ∧
    (b.EMIT_BACKWARDS_NAVIGATION = true → ∀ s : Nat, s % 4 = 0 →
      s ≤ (if b.HOST_64BIT then 64 else 60) →
      s / 4 < 2 ^ ID_EXTRA_PREV_OFFSET_BITS b) ∧
    (idPrevSize id = 0 ↔ id._idScaledPrevOffset = 0) := by
  refine ⟨?_, ?_, ?_⟩
  · intro s h4 hfit
    have hmod : s / 4 % 2 ^ ID_EXTRA_PREV_OFFSET_BITS b = s / 4 := Nat.mod_eq_of_lt hfit
    have hback : s / 4 * 4 = s := by omega
    refine ⟨{ id with _idScaledPrevOffset := s / 4 }, ?_, ?_, rfl⟩
    · simp [idSetPrevSize, jitAssert, h4, hmod, idPrevSize, hback]
    · simp [idPrevSize, hback]
  · intro hnav s h4 hle
    cases h64 : b.HOST_64BIT <;> simp [ID_EXTRA_PREV_OFFSET_BITS, hnav, h64] at hle ⊢ <;> omega
  · simp [idPrevSize]

/-- Instance of C26: on the sample build (64-bit host, 5-bit field) the size 64
is stored as 16 and read back as 64. -/
theorem idSetPrevSize_roundtrip_witness :
    (∃ id1, idSetPrevSize sampleBuild {} 64 = some id1 ∧ idPrevSize id1 = 64 ∧
      id1._idScaledPrevOffset = 64 / 4) ∧
    64 / 4 < 2 ^ ID_EXTRA_PREV_OFFSET_BITS sampleBuild :=
  ⟨(idSetPrevSize_roundtrip sampleBuild {}).1 64 (by decide) (by decide),
    (idSetPrevSize_roundtrip sampleBuild {}).2.1 rfl 64 (by decide) (by decide)⟩

/-- Claim C27: every size accepted by the setter's assertion is stored without
truncation: for `sz ≤ 15` on xarch (4-bit field), `sz ≤ 16` on loongarch64
(5-bit field) and `sz ≤ 32` on riscv64 (6-bit field), `idCodeSize(sz)` passes
its assertions and `idCodeSize()` then returns `sz`. -/
theorem idCodeSize_roundtrip (b : Build) (id : instrDesc) (sz : Nat) :
    (sz ≤ 15 → ∃ id1, idCodeSizeSetXarch b id sz = some id1 ∧ idCodeSize id1 = sz) ∧
    (sz ≤ 16 → ∃ id1, idCodeSizeSetLoongArch64 b id sz = some id1 ∧ idCodeSize id1 = sz) ∧
    (sz ≤ 32 → ∃ id1, idCodeSizeSetRiscV64 b id sz = some id1 ∧ idCodeSize id1 = sz) := by
  refine ⟨?_, ?_, ?_⟩
  · intro h
    have hmod : sz % 16 = sz := Nat.mod_eq_of_lt (by omega)
    exact ⟨{ id with _idCodeSize := sz }, by simp [idCodeSizeSetXarch, jitAssert, h, hmod], rfl⟩
  · intro h
    have hmod : sz % 32 = sz := Nat.mod_eq_of_lt (by omega)
    exact ⟨{ id with _idCodeSize := sz }, by simp [idCodeSizeSetLoongArch64, jitAssert, h, hmod],
      rfl⟩
  · intro h
    have hmod : sz % 64 = sz := Nat.mod_eq_of_lt (by omega)
    exact ⟨{ id with _idCodeSize := sz }, by simp [idCodeSizeSetRiscV64, jitAssert, h, hmod], rfl⟩

/-- Instance of C27: the largest accepted sizes 15, 16 and 32. -/
theorem idCodeSize_roundtrip_witness :
    (∃ id1, idCodeSizeSetXarch sampleBuild {} 15 = some id1 ∧ idCodeSize id1 = 15) ∧
    (∃ id1, idCodeSizeSetLoongArch64 sampleBuild {} 16 = some id1 ∧ idCodeSize id1 = 16) ∧
    (∃ id1, idCodeSizeSetRiscV64 sampleBuild {} 32 = some id1 ∧ idCodeSize id1 = 32) :=
  ⟨(idCodeSize_roundtrip sampleBuild {} 15).1 (by decide),
    (idCodeSize_roundtrip sampleBuild {} 16).2.1 (by decide),
    (idCodeSize_roundtrip sampleBuild {} 32).2.2 (by decide)⟩

/-- Claim C28: on arm64 `idCodeSize()` is one of 0, 4, 8, 12, a multiple of
`INSTR_ENCODED_SIZE`; it is 0 exactly for format `IF_SN_0A` with instruction
`INS_align` and option `INS_OPTS_NONE`; 8 exactly for `IF_LARGEADR`,
`IF_LARGEJMP` and for `IF_LARGELDC` whose `idReg1` is not a vector register; 12
exactly for `IF_LARGELDC` whose `idReg1` is a vector register; 4 in every other
case. -/
theorem idCodeSizeArm64_spec (c : Arm64Enums) (isVectorRegister : Nat → Bool) (id : instrDesc)
    (hc : c.distinctFormats) :
    (idCodeSizeArm64 c isVectorRegister id = 0 ∨ idCodeSizeArm64 c isVectorRegister id = 4 ∨
      idCodeSizeArm64 c isVectorRegister id = 8 ∨ idCodeSizeArm64 c isVectorRegister id = 12) ∧
    INSTR_ENCODED_SIZE ∣ idCodeSizeArm64 c isVectorRegister id ∧
    (idCodeSizeArm64 c isVectorRegister id = 0 ↔
      id._idInsFmt = c.IF_SN_0A ∧ id._idIns = c.INS_align ∧ id._idInsOpt = c.INS_OPTS_NONE) ∧
    (idCodeSizeArm64 c isVectorRegister id = 8 ↔
      id._idInsFmt = c.IF_LARGEADR ∨ id._idInsFmt = c.IF_LARGEJMP ∨
      (id._idInsFmt = c.IF_LARGELDC ∧ isVectorRegister id._idReg1 = false)) ∧
    (idCodeSizeArm64 c isVectorRegister id = 12 ↔
      id._idInsFmt = c.IF_LARGELDC ∧ isVectorRegister id._idReg1 = true) ∧
    (idCodeSizeArm64 c isVectorRegister id = 4 ↔
      id._idInsFmt ≠ c.IF_LARGEADR ∧ id._idInsFmt ≠ c.IF_LARGEJMP ∧
      id._idInsFmt ≠ c.IF_LARGELDC ∧
      ¬ (id._idInsFmt = c.IF_SN_0A ∧ id._idIns = c.INS_align ∧
        id._idInsOpt = c.INS_OPTS_NONE)) := by
  obtain ⟨d1, d2, d3, d4, d5⟩ := hc
  by_cases h1 : id._idInsFmt = c.IF_LARGEADR
  · have e : idCodeSizeArm64 c isVectorRegister id = 8 := by simp [idCodeSizeArm64, h1]
    rw [e]
    simp [INSTR_ENCODED_SIZE, h1, d1, d2]
    omega
  by_cases h2 : id._idInsFmt = c.IF_LARGEJMP
  · have e : idCodeSizeArm64 c isVectorRegister id = 8 := by simp [idCodeSizeArm64, h2]
    rw [e]
    simp [INSTR_ENCODED_SIZE, h2, d3, d4]
    omega
  by_cases h3 : id._idInsFmt = c.IF_LARGELDC
  · have g1 : ¬ c.IF_LARGELDC = c.IF_LARGEADR := fun h => d1 h.symm
    have g2 : ¬ c.IF_LARGELDC = c.IF_LARGEJMP := fun h => d3 h.symm
    cases hv : isVectorRegister id._idReg1
    · have e : idCodeSizeArm64 c isVectorRegister id = 8 := by
        simp [idCodeSizeArm64, h3, hv, g1, g2]
      rw [e]
      simp [INSTR_ENCODED_SIZE, h3, hv, d5, g1, g2]
      omega
    · have e : idCodeSizeArm64 c isVectorRegister id = 12 := by
        simp [idCodeSizeArm64, h3, hv, g1, g2]
      rw [e]
      simp [INSTR_ENCODED_SIZE, h3, hv, d5, g1, g2]
      omega
  by_cases h4 : id._idInsFmt = c.IF_SN_0A
  · have g1 : ¬ c.IF_SN_0A = c.IF_LARGEADR := fun h => d2 h.symm
    have g2 : ¬ c.IF_SN_0A = c.IF_LARGEJMP := fun h => d4 h.symm
    have g3 : ¬ c.IF_SN_0A = c.IF_LARGELDC := fun h => d5 h.symm
    by_cases h5 : id._idIns = c.INS_align ∧ id._idInsOpt = c.INS_OPTS_NONE
    · have e : idCodeSizeArm64 c isVectorRegister id = 0 := by
        simp [idCodeSizeArm64, h4, idIsEmptyAlign, h5.1, h5.2, g1, g2, g3]
      rw [e]
      simp [INSTR_ENCODED_SIZE, h4, h5.1, h5.2, g1, g2, g3]
    · have e : idCodeSizeArm64 c isVectorRegister id = 4 := by
        simp only [idCodeSizeArm64, idIsEmptyAlign]
        simp [h4, g1, g2, g3]
        intro ha hb
        exact absurd ⟨ha, hb⟩ h5
      rw [e]
      simp [INSTR_ENCODED_SIZE, h4, g1, g2, g3]
      tauto
  · have e : idCodeSizeArm64 c isVectorRegister id = 4 := by
      simp [idCodeSizeArm64, h1, h2, h3, h4]
    rw [e]
    simp [INSTR_ENCODED_SIZE, h1, h2, h3, h4]

theorem sampleArm64Enums_distinct : sampleArm64Enums.distinctFormats := by
  refine ⟨?_, ?_, ?_, ?_, ?_⟩ <;> decide

/-- Instance of C28 with sample enumerators: a large load of a constant into a
vector register takes 12 bytes, an empty align takes none. -/
theorem idCodeSizeArm64_spec_witness :
    sampleArm64Enums.distinctFormats ∧
    idCodeSizeArm64 sampleArm64Enums (fun r => decide (32 ≤ r))
      { _idInsFmt := 12, _idReg1 := 40 } = 12 ∧
    idCodeSizeArm64 sampleArm64Enums (fun r => decide (32 ≤ r))
      { _idInsFmt := 13, _idIns := 7, _idInsOpt := 0 } = 0 :=
  ⟨sampleArm64Enums_distinct,
    (idCodeSizeArm64_spec sampleArm64Enums (fun r => decide (32 ≤ r))
      { _idInsFmt := 12, _idReg1 := 40 } sampleArm64Enums_distinct).2.2.2.2.1.2 ⟨rfl, rfl⟩,
    (idCodeSizeArm64_spec sampleArm64Enums (fun r => decide (32 ≤ r))
      { _idInsFmt := 13, _idIns := 7, _idInsOpt := 0 } sampleArm64Enums_distinct).2.2.1.2
      ⟨rfl, rfl, rfl⟩⟩

/-! ## The table of small-constant widths and the GC type of a register -/

/-- Counterexample to C29 as stated: for the x86 target built on a 64-bit host
with the prev-offset field, `ID_EXTRA_PREV_OFFSET_BITS` is 5 and
`ID_BIT_SMALL_CNS` is 7, not the tabulated 8. -/
theorem ID_BIT_SMALL_CNS_cross_host_counterexample :
    sampleCrossX86Build.target = Target.x86 ∧ sampleCrossX86Build.HOST_64BIT = true ∧
    sampleCrossX86Build.EMIT_BACKWARDS_NAVIGATION = true ∧
    ID_EXTRA_PREV_OFFSET_BITS sampleCrossX86Build = 5 ∧
    ID_BIT_SMALL_CNS sampleCrossX86Build = 7 ∧
    tabulatedSmallCnsBits Target.x86 true = 8 ∧
    ID_BIT_SMALL_CNS sampleCrossX86Build ≠ tabulatedSmallCnsBits Target.x86 true := by
  decide

/-- Claim C29, amended: `ID_BIT_SMALL_CNS = 32 - (ID_EXTRA_RELOC_BITS +
ID_EXTRA_BITFIELD_BITS + ID_EXTRA_PREV_OFFSET_BITS)`.  Without the prev-offset
field it is the tabulated 12, 10, 14, 7, 16, 16 for x86, amd64, arm, arm64,
loongarch64, riscv64 on either host.  With the prev-offset field it is the
tabulated 8, 5, 10, 2, 11, 11 when the host word size is that of the target; it
is one less for a 32-bit target on a 64-bit host and one more for a 64-bit
target on a 32-bit host.  In every case the width is at least 2, so
`ID_MIN_SMALL_CNS < 0 < ID_MAX_SMALL_CNS`. -/
theorem ID_BIT_SMALL_CNS_table (b : Build) :
    ID_BIT_SMALL_CNS b =
      32 - (ID_EXTRA_RELOC_BITS + ID_EXTRA_BITFIELD_BITS b + ID_EXTRA_PREV_OFFSET_BITS b) ∧
    (b.EMIT_BACKWARDS_NAVIGATION = false →
      ID_BIT_SMALL_CNS b = tabulatedSmallCnsBits b.target false) ∧
    (b.EMIT_BACKWARDS_NAVIGATION = true → b.HOST_64BIT = targetIs64Bit b.target →
      ID_BIT_SMALL_CNS b = tabulatedSmallCnsBits b.target true) ∧
    (b.EMIT_BACKWARDS_NAVIGATION = true → b.HOST_64BIT = true →
      targetIs64Bit b.target = false →
      ID_BIT_SMALL_CNS b = tabulatedSmallCnsBits b.target true - 1) ∧
    (b.EMIT_BACKWARDS_NAVIGATION = true → b.HOST_64BIT = false →
      targetIs64Bit b.target = true →
      ID_BIT_SMALL_CNS b = tabulatedSmallCnsBits b.target true + 1) ∧
    2 ≤ ID_BIT_SMALL_CNS b ∧ ID_MIN_SMALL_CNS b < 0 ∧ 0 < ID_MAX_SMALL_CNS b := by
  have hb := ID_BIT_SMALL_CNS_bounds b
  have hpos : (0 : Int) < (2 : Int) ^ (ID_BIT_SMALL_CNS b - 1) := by positivity
  have hone : (2 : Int) ^ 1 ≤ (2 : Int) ^ (ID_BIT_SMALL_CNS b - 1) :=
    pow_le_pow_right₀ (by norm_num) (by omega)
  have hmin := ID_MIN_SMALL_CNS_eq b
  have hmax := ID_MAX_SMALL_CNS_eq b
  refine ⟨rfl, ?_, ?_, ?_, ?_, hb.1, by omega, by omega⟩
  all_goals
    obtain ⟨t, h64, nav, dbg, cb, tb, s1, s2, s3⟩ := b
    cases t <;> cases h64 <;> cases nav <;>
      simp [ID_BIT_SMALL_CNS, ID_EXTRA_BITS, ID_EXTRA_RELOC_BITS, ID_EXTRA_BITFIELD_BITS,
        ID_EXTRA_PREV_OFFSET_BITS, tabulatedSmallCnsBits, targetIs64Bit, TARGET_XARCH,
        TARGET_ARMARCH]

/-- Instance of the amended C29: amd64 on a 64-bit host with the prev-offset
field has a 5-bit small constant, and x86 on a 64-bit host has 7 bits, one less
than tabulated. -/
theorem ID_BIT_SMALL_CNS_table_witness :
    ID_BIT_SMALL_CNS sampleBuild = tabulatedSmallCnsBits sampleBuild.target true ∧
    ID_BIT_SMALL_CNS sampleCrossX86Build =
      tabulatedSmallCnsBits sampleCrossX86Build.target true - 1 :=
  ⟨(ID_BIT_SMALL_CNS_table sampleBuild).2.2.1 rfl rfl,
    (ID_BIT_SMALL_CNS_table sampleCrossX86Build).2.2.2.1 rfl rfl rfl⟩

theorem or_and_eq_zero_iff (a c m : Nat) :
    (a ||| c) &&& m = 0 ↔ (a &&& m = 0 ∧ c &&& m = 0) := by
  constructor
  · intro h
    have hbit : ∀ i, ((a.testBit i || c.testBit i) && m.testBit i) = false := by
      intro i
      have := congrArg (fun x => x.testBit i) h
      simpa [Nat.testBit_and, Nat.testBit_or] using this
    constructor
    · apply Nat.eq_of_testBit_eq
      intro i
      have := hbit i
      rw [Nat.testBit_and, Nat.zero_testBit]
      cases ha : a.testBit i <;> cases hm : m.testBit i <;> simp [ha, hm] at this ⊢
    · apply Nat.eq_of_testBit_eq
      intro i
      have := hbit i
      rw [Nat.testBit_and, Nat.zero_testBit]
      cases hc : c.testBit i <;> cases hm : m.testBit i <;> simp [hc, hm] at this ⊢
  · intro h
    apply Nat.eq_of_testBit_eq
    intro i
    have h1 := congrArg (fun x => x.testBit i) h.1
    have h2 := congrArg (fun x => x.testBit i) h.2
    simp only [Nat.testBit_and, Nat.zero_testBit] at h1 h2
    rw [Nat.testBit_and, Nat.testBit_or, Nat.zero_testBit]
    cases ha : a.testBit i <;> cases hc : c.testBit i <;> cases hm : m.testBit i <;>
      simp [ha, hc, hm] at h1 h2 ⊢

theorem or_and_ne_zero_iff (a c m : Nat) :
    ((a ||| c) &&& m ≠ 0) ↔ (a &&& m ≠ 0 ∨ c &&& m ≠ 0) := by
  rw [Ne, or_and_eq_zero_iff]
  tauto

/-- Claim C30: while issuing, `emitRegGCtype(reg)` is `GCT_GCREF` exactly when
the register's mask meets `emitThisGCrefRegs`, `GCT_BYREF` exactly when it meets
`emitThisByrefRegs` but not `emitThisGCrefRegs`, and `GCT_NONE` exactly when it
meets neither; `needsGC` of the result is true exactly when the register is in
the union of the two live sets; and a register in both sets is a GC ref. -/
theorem emitRegGCtype_spec (b : Build) (genRegMask : Nat → Nat) (emitIssuing : Bool)
    (emitThisGCrefRegs emitThisByrefRegs reg : Nat)
    (hissuing : b.DEBUG = true → emitIssuing = true) :
    ∃ t, emitRegGCtype b genRegMask emitIssuing emitThisGCrefRegs emitThisByrefRegs reg =
        some t ∧
      (t = GCtype.GCT_GCREF ↔ emitThisGCrefRegs &&& genRegMask reg ≠ 0) ∧
      (t = GCtype.GCT_BYREF ↔
        emitThisByrefRegs &&& genRegMask reg ≠ 0 ∧ emitThisGCrefRegs &&& genRegMask reg = 0) ∧
      (t = GCtype.GCT_NONE ↔
        emitThisGCrefRegs &&& genRegMask reg = 0 ∧ emitThisByrefRegs &&& genRegMask reg = 0) ∧
      needsGC b t =
        some (decide ((emitThisGCrefRegs ||| emitThisByrefRegs) &&& genRegMask reg ≠ 0)) ∧
      (emitThisGCrefRegs &&& genRegMask reg ≠ 0 → emitThisByrefRegs &&& genRegMask reg ≠ 0 →
        t = GCtype.GCT_GCREF) := by
  have ha := jitAssert_of_debug_imp b emitIssuing hissuing
  have hu := or_and_ne_zero_iff emitThisGCrefRegs emitThisByrefRegs (genRegMask reg)
  by_cases hg : emitThisGCrefRegs &&& genRegMask reg = 0
  · by_cases hy : emitThisByrefRegs &&& genRegMask reg = 0
    · refine ⟨GCtype.GCT_NONE, by simp [emitRegGCtype, ha, hg, hy], ?_⟩
      have hn : ¬ ((emitThisGCrefRegs ||| emitThisByrefRegs) &&& genRegMask reg ≠ 0) := by
        rw [hu]; simp [hg, hy]
      simp [hg, hy, needsGC, hn]
    · refine ⟨GCtype.GCT_BYREF, by simp [emitRegGCtype, ha, hg, hy], ?_⟩
      have hn : (emitThisGCrefRegs ||| emitThisByrefRegs) &&& genRegMask reg ≠ 0 :=
        hu.2 (Or.inr hy)
      simp [hg, hy, needsGC, hn, jitAssert]
  · refine ⟨GCtype.GCT_GCREF, by simp [emitRegGCtype, ha, hg], ?_⟩
    have hn : (emitThisGCrefRegs ||| emitThisByrefRegs) &&& genRegMask reg ≠ 0 :=
      hu.2 (Or.inl hg)
    simp [hg, needsGC, hn, jitAssert]

/-- Instance of C30 with one mask bit per register: register 1 is in both live
sets `0b1010` and `0b0110` and is a GC ref. -/
theorem emitRegGCtype_spec_witness :
    ∃ t, emitRegGCtype sampleBuild singleBitRegMask true 0b1010 0b0110 1 = some t ∧
      t = GCtype.GCT_GCREF ∧ needsGC sampleBuild t = some true := by
  obtain ⟨t, h1, h2, _, _, h5, _⟩ :=
    emitRegGCtype_spec sampleBuild singleBitRegMask true 0b1010 0b0110 1 (fun _ => rfl)
  exact ⟨t, h1, h2.2 (by decide), by rw [h5]; decide⟩

/-! ## EVEX contexts -/

theorem shiftRight_and_one (v k : Nat) : (v >>> k) &&& 1 = v / 2 ^ k % 2 := by
  rw [Nat.and_one_is_mod, Nat.shiftRight_eq_div_pow]

theorem evexbBits_recombine (v : Nat) :
    ((((v >>> 1) &&& 1) != 0).toNat <<< 1) ||| (((v >>> 0) &&& 1) != 0).toNat = v % 4 := by
  rw [shiftRight_and_one v 1, shiftRight_and_one v 0]
  rcases Nat.mod_two_eq_zero_or_one (v / 2 ^ 1) with h1 | h1 <;>
    rcases Nat.mod_two_eq_zero_or_one (v / 2 ^ 0) with h0 | h0 <;>
    rw [h1, h0] <;> simp at h1 h0 ⊢ <;> omega

theorem evexDFVBits_recombine (v : Nat) :
    ((((v >>> 3) &&& 1) != 0).toNat <<< 3) ||| ((((v >>> 2) &&& 1) != 0).toNat <<< 2) |||
      ((((v >>> 1) &&& 1) != 0).toNat <<< 1) ||| (((v >>> 0) &&& 1) != 0).toNat = v % 16 := by
  rw [shiftRight_and_one v 3, shiftRight_and_one v 2, shiftRight_and_one v 1,
    shiftRight_and_one v 0]
  rcases Nat.mod_two_eq_zero_or_one (v / 2 ^ 3) with h3 | h3 <;>
    rcases Nat.mod_two_eq_zero_or_one (v / 2 ^ 2) with h2 | h2 <;>
    rcases Nat.mod_two_eq_zero_or_one (v / 2 ^ 1) with h1 | h1 <;>
    rcases Nat.mod_two_eq_zero_or_one (v / 2 ^ 0) with h0 | h0 <;>
    rw [h3, h2, h1, h0] <;> simp at h3 h2 h1 h0 ⊢ <;> omega

theorem idGetEvexDFV_stored (id : instrDesc) (v : Nat) :
    idGetEvexDFV { id with
      _idCustom1 := ((v >>> 0) &&& 1) != 0,
      _idCustom2 := ((v >>> 1) &&& 1) != 0,
      _idCustom3 := ((v >>> 2) &&& 1) != 0,
      _idCustom4 := ((v >>> 3) &&& 1) != 0 } = v % 16 := by
  simp only [idGetEvexDFV, _idEvexDFV]
  exact evexDFVBits_recombine v

theorem idGetEvexbContext_stored (id : instrDesc) (v : Nat) :
    idGetEvexbContext { id with
      _idCustom5 := ((v >>> 0) &&& 1) != 0,
      _idCustom6 := ((v >>> 1) &&& 1) != 0 } = v % 4 := by
  simp only [idGetEvexbContext, _idEvexbContext]
  exact evexbBits_recombine v

theorem and_mask_shiftRight_lt (x mask k n : Nat) (h : mask < 2 ^ (k + n)) :
    (x &&& mask) >>> k < 2 ^ n := by
  have hle : x &&& mask ≤ mask := Nat.and_le_right
  rw [Nat.shiftRight_eq_div_pow]
  apply Nat.div_lt_of_lt_mul
  rw [← Nat.pow_add]
  omega

/-- Claim C31: on xarch, whenever `v = (instOptions & INS_OPTS_EVEX_dfv_MASK) >> 8`
is below 16, `idSetEvexDFV(instOptions)` passes its final assertion and
`idGetEvexDFV()` then returns `v` (and `v < 16` for every mask within the low 12
bits); for every 4-bit `v`, splitting `v` into `_idCustom1` to `_idCustom4` and
recombining gives `v`; and `idSetEvexbContext(instOptions)`, on a descriptor
whose context is not yet set, followed by `idGetEvexbContext()` returns the
2-bit value `instOptions & INS_OPTS_EVEX_b_MASK`. -/
theorem idSetEvexDFV_roundtrip (b : Build) (INS_OPTS_EVEX_dfv_MASK INS_OPTS_EVEX_b_MASK : Nat)
    (id : instrDesc) (instOptions : Nat) :
    ((instOptions &&& INS_OPTS_EVEX_dfv_MASK) >>> 8 < 16 →
      ∃ id1, idSetEvexDFV b INS_OPTS_EVEX_dfv_MASK id instOptions = some id1 ∧
        idGetEvexDFV id1 = (instOptions &&& INS_OPTS_EVEX_dfv_MASK) >>> 8) ∧
    (INS_OPTS_EVEX_dfv_MASK < 2 ^ 12 → (instOptions &&& INS_OPTS_EVEX_dfv_MASK) >>> 8 < 16) ∧
    (∀ v : Nat, v < 16 →
      idGetEvexDFV { id with
        _idCustom1 := ((v >>> 0) &&& 1) != 0,
        _idCustom2 := ((v >>> 1) &&& 1) != 0,
        _idCustom3 := ((v >>> 2) &&& 1) != 0,
        _idCustom4 := ((v >>> 3) &&& 1) != 0 } = v) ∧
    ((b.DEBUG = true → idIsEvexbContextSet id = false) →
      instOptions &&& INS_OPTS_EVEX_b_MASK < 4 →
      ∃ id1, idSetEvexbContext b INS_OPTS_EVEX_b_MASK id instOptions = some id1 ∧
        idGetEvexbContext id1 = instOptions &&& INS_OPTS_EVEX_b_MASK) ∧
    (INS_OPTS_EVEX_b_MASK < 2 ^ 2 → instOptions &&& INS_OPTS_EVEX_b_MASK < 4) := by
  refine ⟨?_, ?_, ?_, ?_, ?_⟩
  · intro hv
    have hval : ((instOptions &&& INS_OPTS_EVEX_dfv_MASK) >>> 8) % 2 ^ UNSIGNED_BITS =
        (instOptions &&& INS_OPTS_EVEX_dfv_MASK) >>> 8 :=
      Nat.mod_eq_of_lt (lt_trans hv (by decide))
    have hget := idGetEvexDFV_stored id ((instOptions &&& INS_OPTS_EVEX_dfv_MASK) >>> 8)
    rw [Nat.mod_eq_of_lt hv] at hget
    refine ⟨_, ?_, hget⟩
    simp only [idSetEvexDFV, hval, hget, beq_self_eq_true, jitAssert_true, Option.some_bind]
    rfl
  · intro hm
    exact and_mask_shiftRight_lt instOptions INS_OPTS_EVEX_dfv_MASK 8 4 hm
  · intro v hv
    rw [idGetEvexDFV_stored, Nat.mod_eq_of_lt hv]
  · intro hpre hv
    have hassert : jitAssert b (!idIsEvexbContextSet id) = some () :=
      jitAssert_of_debug_imp b _ (fun hd => by rw [hpre hd]; rfl)
    have hval : (instOptions &&& INS_OPTS_EVEX_b_MASK) % 2 ^ UNSIGNED_BITS =
        instOptions &&& INS_OPTS_EVEX_b_MASK :=
      Nat.mod_eq_of_lt (lt_trans hv (by decide))
    have hget := idGetEvexbContext_stored id (instOptions &&& INS_OPTS_EVEX_b_MASK)
    rw [Nat.mod_eq_of_lt hv] at hget
    refine ⟨_, ?_, hget⟩
    simp only [idSetEvexbContext, hassert, hval, Option.some_bind]
    rfl
  · intro hm
    have h := and_mask_shiftRight_lt instOptions INS_OPTS_EVEX_b_MASK 0 2 (by simpa using hm)
    simpa using h

/-- Instance of C31 with the masks `0xF00` and `0x3`: the options `0xA56` give
the flag value 10 and the EVEX.b context 2. -/
theorem idSetEvexDFV_roundtrip_witness :
    (∃ id1, idSetEvexDFV sampleBuild 0xF00 {} 0xA56 = some id1 ∧ idGetEvexDFV id1 = 10) ∧
    (∃ id1, idSetEvexbContext sampleBuild 0x3 {} 0xA56 = some id1 ∧
      idGetEvexbContext id1 = 2) :=
  ⟨(idSetEvexDFV_roundtrip sampleBuild 0xF00 0x3 {} 0xA56).1 (by decide),
    (idSetEvexDFV_roundtrip sampleBuild 0xF00 0x3 {} 0xA56).2.2.2.1 (fun _ => rfl) (by decide)⟩

/-- Claim C32: on xarch `idGetEvexbContext()` is
`2 * (idIsEvexNfContextSet() ? 1 : 0) + (idIsEvexNdContextSet() ? 1 : 0)`, so
`idIsEvexbContextSet()` holds exactly when `idIsEvexNdContextSet()` or
`idIsEvexNfContextSet()` does; and after `idSetEvexNdContext()` or
`idSetEvexNfContext()` the EVEX.b context counts as set, so the precondition
assertion of `idSetEvexbContext` and of `idSetEvexBroadcastBit` fails. -/
theorem idGetEvexbContext_shared (b : Build) (INS_OPTS_EVEX_b_MASK instOptions : Nat)
    (id : instrDesc) :
    idGetEvexbContext id =
      2 * (if idIsEvexNfContextSet id then 1 else 0) +
        (if idIsEvexNdContextSet id then 1 else 0) ∧
    (idIsEvexbContextSet id = true ↔
      idIsEvexNdContextSet id = true ∨ idIsEvexNfContextSet id = true) ∧
    ((b.DEBUG = true → idIsEvexNdContextSet id = false) →
      ∃ id1, idSetEvexNdContext b id = some id1 ∧ idIsEvexNdContextSet id1 = true ∧
        (!idIsEvexbContextSet id1) = false ∧
        (b.DEBUG = true →
          idSetEvexbContext b INS_OPTS_EVEX_b_MASK id1 instOptions = none ∧
          idSetEvexBroadcastBit b id1 = none)) ∧
    ((b.DEBUG = true → idIsEvexNfContextSet id = false) →
      ∃ id1, idSetEvexNfContext b id = some id1 ∧ idIsEvexNfContextSet id1 = true ∧
        (!idIsEvexbContextSet id1) = false ∧
        (b.DEBUG = true →
          idSetEvexbContext b INS_OPTS_EVEX_b_MASK id1 instOptions = none ∧
          idSetEvexBroadcastBit b id1 = none)) := by
  refine ⟨?_, ?_, ?_, ?_⟩
  · cases h5 : id._idCustom5 <;> cases h6 : id._idCustom6 <;>
      simp [idGetEvexbContext, _idEvexbContext, idIsEvexNfContextSet, idIsEvexNdContextSet,
        h5, h6]
  · cases h5 : id._idCustom5 <;> cases h6 : id._idCustom6 <;>
      simp [idIsEvexbContextSet, idGetEvexbContext, _idEvexbContext, idIsEvexNfContextSet,
        idIsEvexNdContextSet, h5, h6]
  · intro hpre
    have hassert : jitAssert b (!idIsEvexNdContextSet id) = some () :=
      jitAssert_of_debug_imp b _ (fun hd => by rw [hpre hd]; rfl)
    have hset : idIsEvexbContextSet { id with _idCustom5 := true } = true := by
      cases h6 : id._idCustom6 <;>
        simp [idIsEvexbContextSet, idGetEvexbContext, _idEvexbContext, h6]
    refine ⟨{ id with _idCustom5 := true }, ?_, rfl, by rw [hset]; rfl, ?_⟩
    · simp only [idSetEvexNdContext, hassert, Option.some_bind]
      rfl
    · intro hd
      constructor
      · simp [idSetEvexbContext, jitAssert, hd, hset]
      · simp [idSetEvexBroadcastBit, jitAssert, hd, hset]
  · intro hpre
    have hassert : jitAssert b (!idIsEvexNfContextSet id) = some () :=
      jitAssert_of_debug_imp b _ (fun hd => by rw [hpre hd]; rfl)
    have hset : idIsEvexbContextSet { id with _idCustom6 := true } = true := by
      cases h5 : id._idCustom5 <;>
        simp [idIsEvexbContextSet, idGetEvexbContext, _idEvexbContext, h5]
    refine ⟨{ id with _idCustom6 := true }, ?_, rfl, by rw [hset]; rfl, ?_⟩
    · simp only [idSetEvexNfContext, hassert, Option.some_bind]
      rfl
    · intro hd
      constructor
      · simp [idSetEvexbContext, jitAssert, hd, hset]
      · simp [idSetEvexBroadcastBit, jitAssert, hd, hset]

/-- Instance of C32 on the sample build, which checks assertions: after
`idSetEvexNfContext()` on a cleared descriptor the EVEX.b context reads 2 and
both EVEX.b setters stop at their assertion. -/
theorem idGetEvexbContext_shared_witness :
    ∃ id1, idSetEvexNfContext sampleBuild {} = some id1 ∧
      idIsEvexNfContextSet id1 = true ∧
      idSetEvexbContext sampleBuild 0x3 id1 1 = none ∧
      idSetEvexBroadcastBit sampleBuild id1 = none := by
  obtain ⟨id1, h1, h2, _, h4⟩ :=
    (idGetEvexbContext_shared sampleBuild 0x3 1 {}).2.2.2 (fun _ => rfl)
  exact ⟨id1, h1, h2, (h4 rfl).1, (h4 rfl).2⟩

end Emitter
